import Mathlib

set_option linter.unusedSectionVars false

/-!
Verification of the `Universe` entity/component registry of LumixEngine
(`src/engine/universe/universe.cpp`).

The embedding is a shallow one: the member arrays of `Lumix::Universe` become
lists, `EntityPtr` (an `int` index where any negative value means "invalid")
becomes `Int`, and each member function becomes a Lean function on the
`Universe` record.  C++ `while` loops and the recursive tree walks are given
explicit fuel; the public wrappers instantiate the fuel with a bound that is
sufficient for every well-formed state (see `WF` below).

The `Transform` value type lives in `engine/math.h`, which is not part of the
sources; following the specification (§4.2), transform composition
`(p ∘ c).pos = p.pos + p.rot.rotate(c.pos) * p.scale`,
`(p ∘ c).rot = p.rot * c.rot`, `(p ∘ c).scale = p.scale * c.scale`
together with `Transform::inverted` form a group (rigid motion with nonzero
uniform scale), so transforms are modelled by an arbitrary group `T`:
`*` is `operator*` and `⁻¹` is `Transform::inverted`.
-/

namespace Lumix

/-- One record of `m_entities` (`EntityData` in `universe.h`, modelled from the
spec §3: `valid`, free-list links `prev`/`next`, `name` index, `hierarchy`
index, `components` bit mask). -/
structure EntityData where
  valid : Bool
  prev : Int
  next : Int
  name : Int
  hierarchy : Int
  components : Nat
deriving DecidableEq

instance : Inhabited EntityData := ⟨⟨false, -1, -1, -1, -1, 0⟩⟩

/-- One record of `m_hierarchy` (`Hierarchy` in `universe.h`, modelled from the
spec §3: owning entity, parent / first-child / next-sibling links and the
cached parent-relative transform). -/
structure Hierarchy (T : Type) where
  entity : Int
  parent : Int
  first_child : Int
  next_sibling : Int
  local_transform : T
deriving DecidableEq

instance {T : Type} [One T] : Inhabited (Hierarchy T) := ⟨⟨-1, -1, -1, -1, 1⟩⟩

/-- One record of `m_names` (`EntityName` in `universe.h`: owning entity and a
fixed-size name buffer, modelled as a `String`). -/
structure EntityName where
  entity : Int
  name : String
deriving DecidableEq

/-- The delegate invocations fired by the registry (`m_entity_created`,
`m_entity_destroyed`, `entityTransformed`, `m_component_added`,
`m_component_destroyed`) together with `logError`, recorded as a log. -/
inductive Event
  | entityCreated (e : Int)
  | entityDestroyed (e : Int)
  | entityTransformed (e : Int)
  | componentAdded (e : Int) (t : Nat)
  | componentDestroyed (e : Int) (t : Nat)
  | errorLogged
deriving DecidableEq

/-- The state of `Lumix::Universe`: the entity slot table, the parallel world
transform store, the name table, the hierarchy table and the free-list head,
plus the log of fired events. -/
structure Universe (T : Type) where
  entities : List EntityData
  transforms : List T
  names : List EntityName
  hierarchy : List (Hierarchy T)
  first_free_slot : Int
  events : List Event
deriving DecidableEq

variable {T : Type} [Group T]

/-- `m_entities[i]` (reads out of range, which are undefined behaviour in the
source, return the default record). -/
def entAt (u : Universe T) (i : Int) : EntityData :=
  if i < 0 then default else u.entities.getD i.toNat default

/-- `m_transforms[i]`. -/
def trAt (u : Universe T) (i : Int) : T :=
  if i < 0 then 1 else u.transforms.getD i.toNat 1

/-- `m_hierarchy[i]`. -/
def hierAt (u : Universe T) (i : Int) : Hierarchy T :=
  if i < 0 then default else u.hierarchy.getD i.toNat default

/-- `m_entities[i] = d` (out-of-range writes are dropped). -/
def setEntAt (u : Universe T) (i : Int) (d : EntityData) : Universe T :=
  if i < 0 then u else { u with entities := u.entities.set i.toNat d }

/-- `m_transforms[i] = t`. -/
def setTrAt (u : Universe T) (i : Int) (t : T) : Universe T :=
  if i < 0 then u else { u with transforms := u.transforms.set i.toNat t }

/-- `m_hierarchy[i] = h`. -/
def setHierAt (u : Universe T) (i : Int) (h : Hierarchy T) : Universe T :=
  if i < 0 then u else { u with hierarchy := u.hierarchy.set i.toNat h }

/-- Record a fired delegate / logged error. -/
def pushEvent (u : Universe T) (e : Event) : Universe T :=
  { u with events := e :: u.events }

/-- `Universe::getParent`. -/
def getParent (u : Universe T) (entity : Int) : Int :=
  let idx := (entAt u entity).hierarchy
  if idx < 0 then -1 else (hierAt u idx).parent

/-- `Universe::getFirstChild`. -/
def getFirstChild (u : Universe T) (entity : Int) : Int :=
  let idx := (entAt u entity).hierarchy
  if idx < 0 then -1 else (hierAt u idx).first_child

/-- `Universe::getNextSibling`. -/
def getNextSibling (u : Universe T) (entity : Int) : Int :=
  let idx := (entAt u entity).hierarchy
  if idx < 0 then -1 else (hierAt u idx).next_sibling

/-- `Universe::getLocalTransform` restricted to entities with a hierarchy
node (the cached parent-relative transform). -/
def localOf (u : Universe T) (entity : Int) : T :=
  let idx := (entAt u entity).hierarchy
  if idx < 0 then trAt u entity else (hierAt u idx).local_transform

/-- `Universe::hasComponent`. -/
def hasComponent (u : Universe T) (entity : Int) (t : Nat) : Bool :=
  (entAt u entity).components &&& (1 <<< t) != 0

/-- 64-bit bitwise complement `~m`, as used on the `u64` component mask. -/
def complement64 (m : Nat) : Nat := (2 ^ 64 - 1) ^^^ m

/-- `Universe::onComponentCreated`: set bit `t` of the entity's component mask
and fire `m_component_added`. -/
def onComponentCreated (u : Universe T) (entity : Int) (t : Nat) : Universe T :=
  let u1 := setEntAt u entity
    { entAt u entity with components := (entAt u entity).components ||| (1 <<< t) }
  pushEvent u1 (Event.componentAdded entity t)

/-- `Universe::onComponentDestroyed`: clear bit `t` of the entity's component
mask (the source asserts that the mask actually changed) and fire
`m_component_destroyed`. -/
def onComponentDestroyed (u : Universe T) (entity : Int) (t : Nat) : Universe T :=
  let mask := (entAt u entity).components
  let u1 := setEntAt u entity
    { entAt u entity with components := mask &&& complement64 (1 <<< t) }
  pushEvent u1 (Event.componentDestroyed entity t)

/-- `Universe::getEntityName`. -/
def getEntityName (u : Universe T) (entity : Int) : String :=
  let idx := (entAt u entity).name
  if idx < 0 then "" else (u.names.getD idx.toNat ⟨-1, ""⟩).name

/-- `Universe::setEntityName`: an empty name on an unnamed entity is a no-op;
otherwise the name slot is allocated or overwritten in place. -/
def setEntityName (u : Universe T) (entity : Int) (name : String) : Universe T :=
  let idx := (entAt u entity).name
  if idx < 0 then
    if name = "" then u
    else
      let u1 := setEntAt u entity { entAt u entity with name := (u.names.length : Int) }
      { u1 with names := u1.names ++ [⟨entity, name⟩] }
  else
    { u with names := u.names.set idx.toNat { u.names.getD idx.toNat ⟨-1, ""⟩ with name := name } }

/-- The depth-first search of `Universe::isDescendant`: visit the chain
element `e`, then `e`'s subtree (via its first child), then `e`'s next
sibling.  The source's nested loop/recursion is merged into a single
recursion consuming one unit of fuel per visited link, so that the
definition is structural; the search order and the visited set are those of
the source (which terminates because a well-formed hierarchy is acyclic). -/
def isDescSearch : Nat → Universe T → Int → Int → Bool
  | 0, _, _, _ => false
  | fuel + 1, u, e, descendant =>
      if e < 0 then false
      else if e = descendant then true
      else if isDescSearch fuel u (getFirstChild u e) descendant then true
      else isDescSearch fuel u (getNextSibling u e) descendant

/-- `Universe::isDescendant`: whether `descendant` occurs strictly below
`ancestor`; `2 * entities + 2` fuel covers the whole walk on any well-formed
state. -/
def isDescendant (u : Universe T) (ancestor descendant : Int) : Bool :=
  isDescSearch (2 * u.entities.length + 2) u (getFirstChild u ancestor) descendant

/-- A link slot in the sibling structure: `Sum.inl k` is
`&m_hierarchy[k].first_child`, `Sum.inl k` is taken first by the unlink walk,
`Sum.inr k` is `&m_hierarchy[k].next_sibling`. -/
def linkRead (u : Universe T) : Sum Int Int → Int
  | Sum.inl k => (hierAt u k).first_child
  | Sum.inr k => (hierAt u k).next_sibling

/-- Write through a link slot. -/
def linkWrite (u : Universe T) (p : Sum Int Int) (v : Int) : Universe T :=
  match p with
  | Sum.inl k => setHierAt u k { hierAt u k with first_child := v }
  | Sum.inr k => setHierAt u k { hierAt u k with next_sibling := v }

/-- The unlink `while` loop in `Universe::setParent`: follow the pointer
`x` through the old parent's child chain until it designates `child`, then
redirect it to `child`'s next sibling. -/
def removeFromChildren : Nat → Universe T → Sum Int Int → Int → Universe T
  | 0, u, _, _ => u
  | fuel + 1, u, p, child =>
      let cur := linkRead u p
      if cur < 0 then u
      else if cur = child then linkWrite u p (getNextSibling u child)
      else removeFromChildren fuel u (Sum.inr (entAt u cur).hierarchy) child

/-- The `collectGarbage` lambda in `Universe::setParent`: drop an entity's
hierarchy node when it has neither parent nor children, compacting the table
by swapping the last node into the freed slot and patching the owner's
back-reference. -/
def collectGarbage (u : Universe T) (entity : Int) : Universe T :=
  let hIdx := (entAt u entity).hierarchy
  if 0 ≤ (hierAt u hIdx).parent then u
  else if 0 ≤ (hierAt u hIdx).first_child then u
  else
    let last := hierAt u ((u.hierarchy.length : Int) - 1)
    let u1 := setEntAt u last.entity { entAt u last.entity with hierarchy := hIdx }
    let u2 := setEntAt u1 entity { entAt u1 entity with hierarchy := -1 }
    let u3 := setHierAt u2 hIdx last
    { u3 with hierarchy := u3.hierarchy.dropLast }

/-- `Universe::setParent`.  The emplaced hierarchy nodes' `local_transform`
is left uninitialized by the source; the model uses the identity.  A rejected
cycle-creating call logs an error and changes nothing else. -/
def setParent (u : Universe T) (new_parent : Int) (child : Int) : Universe T :=
  let would_create_cycle := 0 ≤ new_parent ∧ isDescendant u child new_parent = true
  if would_create_cycle then pushEvent u Event.errorLogged
  else
    let child_idx := (entAt u child).hierarchy
    let u1 :=
      if 0 ≤ child_idx then
        let old_parent := (hierAt u child_idx).parent
        if 0 ≤ old_parent then
          let ua := removeFromChildren (u.entities.length + 2) u
              (Sum.inl (entAt u old_parent).hierarchy) child
          let ub := setHierAt ua child_idx
              { hierAt ua child_idx with parent := -1, next_sibling := -1 }
          collectGarbage ub old_parent
        else u
      else if 0 ≤ new_parent then
        let u' := setEntAt u child { entAt u child with hierarchy := (u.hierarchy.length : Int) }
        { u' with hierarchy := u'.hierarchy ++ [⟨child, -1, -1, -1, 1⟩] }
      else u
    let child_idx2 := (entAt u1 child).hierarchy
    if 0 ≤ new_parent then
      let u2 :=
        if (entAt u1 new_parent).hierarchy < 0 then
          let u' := setEntAt u1 new_parent
            { entAt u1 new_parent with hierarchy := (u1.hierarchy.length : Int) }
          { u' with hierarchy := u'.hierarchy ++ [⟨new_parent, -1, -1, -1, 1⟩] }
        else u1
      let new_parent_idx := (entAt u2 new_parent).hierarchy
      let u3 := setHierAt u2 child_idx2 { hierAt u2 child_idx2 with parent := new_parent }
      let local_tr := (trAt u3 new_parent)⁻¹ * trAt u3 child
      let u4 := setHierAt u3 child_idx2 { hierAt u3 child_idx2 with local_transform := local_tr }
      let u5 := setHierAt u4 child_idx2
        { hierAt u4 child_idx2 with next_sibling := (hierAt u4 new_parent_idx).first_child }
      setHierAt u5 new_parent_idx { hierAt u5 new_parent_idx with first_child := child }
    else
      if 0 ≤ child_idx2 then collectGarbage u1 child else u1

mutual

/-- `Universe::transformEntity`, with explicit fuel for the recursion depth:
fire `entityTransformed`, re-derive the entity's cached local transform from
its (already updated) world transform when `update_local` is set, then
re-derive the world transform of every child depth-first. -/
def transformEntityF : Nat → Universe T → Int → Bool → Universe T
  | 0, u, _, _ => u
  | fuel + 1, u, entity, update_local =>
      let hierarchy_idx := (entAt u entity).hierarchy
      let u1 := pushEvent u (Event.entityTransformed entity)
      if hierarchy_idx < 0 then u1
      else
        let my_transform := trAt u1 entity
        let u2 :=
          if update_local ∧ 0 ≤ (hierAt u1 hierarchy_idx).parent then
            setHierAt u1 hierarchy_idx
              { hierAt u1 hierarchy_idx with
                local_transform := (trAt u1 (hierAt u1 hierarchy_idx).parent)⁻¹ * my_transform }
          else u1
        transformChildrenF fuel (u2.entities.length + 1) u2 my_transform
          (hierAt u2 hierarchy_idx).first_child
termination_by fuel _ _ _ => (fuel, 0)

/-- The child `while` loop of `Universe::transformEntity`: set each child's
world transform to `my_transform * local(child)` and recurse into it, then
follow `next_sibling`. -/
def transformChildrenF : Nat → Nat → Universe T → T → Int → Universe T
  | _, 0, u, _, _ => u
  | fuel, sib + 1, u, my_transform, child =>
      if child < 0 then u
      else
        let child_h_idx := (entAt u child).hierarchy
        let abs_tr := my_transform * (hierAt u child_h_idx).local_transform
        let u1 := setTrAt u child abs_tr
        let u2 := transformEntityF fuel u1 child false
        transformChildrenF fuel sib u2 my_transform
          (hierAt u2 (entAt u2 child).hierarchy).next_sibling
termination_by fuel sib _ _ _ => (fuel, sib + 1)

end

/-- `Universe::transformEntity` with the fuel instantiated;
`u.entities.length + 1` bounds the depth of any well-formed hierarchy. -/
def transformEntity (u : Universe T) (entity : Int) (update_local : Bool) : Universe T :=
  transformEntityF (u.entities.length + 1) u entity update_local

/-- `Universe::setTransform`: overwrite the stored world transform, then
propagate through `transformEntity`. -/
def setTransform (u : Universe T) (entity : Int) (transform : T) : Universe T :=
  let u1 := setTrAt u entity transform
  transformEntity u1 entity true

/-- `Universe::setPosition`: overwrite the `pos` component of the stored world
transform, then propagate.  Modelled from the spec: `Transform` lives in the
missing `engine/math.h`, and with its component structure abstracted to a
group element, overwriting the `pos` field becomes an arbitrary update `f` of
the stored value. -/
def setPosition (u : Universe T) (entity : Int) (f : T → T) : Universe T :=
  let u1 := setTrAt u entity (f (trAt u entity))
  transformEntity u1 entity true

/-- `Universe::setRotation`: overwrite the `rot` component of the stored world
transform, then propagate (component update abstracted as for `setPosition`). -/
def setRotation (u : Universe T) (entity : Int) (f : T → T) : Universe T :=
  let u1 := setTrAt u entity (f (trAt u entity))
  transformEntity u1 entity true

/-- `Universe::setScale`: overwrite the `scale` component of the stored world
transform, then propagate (component update abstracted as for `setPosition`). -/
def setScale (u : Universe T) (entity : Int) (f : T → T) : Universe T :=
  let u1 := setTrAt u entity (f (trAt u entity))
  transformEntity u1 entity true

/-- `Universe::updateGlobalTransform`: recompute the world transform as
`world(parent) * local` and propagate.  The source asserts that the parent is
valid; theorems about this path hypothesize it. -/
def updateGlobalTransform (u : Universe T) (entity : Int) : Universe T :=
  let h := hierAt u (entAt u entity).hierarchy
  setTransform u entity (trAt u h.parent * h.local_transform)

/-- `Universe::setLocalTransform`: on an entity without a hierarchy node this
is `setTransform`; otherwise overwrite the cached local transform and
re-derive the world transform from the parent. -/
def setLocalTransform (u : Universe T) (entity : Int) (transform : T) : Universe T :=
  let hierarchy_idx := (entAt u entity).hierarchy
  if hierarchy_idx < 0 then setTransform u entity transform
  else
    let u1 := setHierAt u hierarchy_idx
      { hierAt u hierarchy_idx with local_transform := transform }
    updateGlobalTransform u1 entity

/-- `Universe::createEntity`.  The caller supplies position and rotation and
the scale is set to 1; abstracting the transform components, the new world
transform is a caller-supplied group element `t`.  Returns the new state and
the index of the created entity.  Freshly appended records are
default-constructed (uninitialized in the source; the model uses `default`). -/
def createEntity (u : Universe T) (t : T) : Universe T × Int :=
  if 0 ≤ u.first_free_slot then
    let slot := u.first_free_slot
    let data := entAt u slot
    let u1 := if 0 ≤ data.next then
        setEntAt u data.next { entAt u data.next with prev := -1 }
      else u
    let u2 := { u1 with first_free_slot := data.next }
    let u3 := setTrAt u2 slot t
    let u4 := setEntAt u3 slot
      { entAt u3 slot with name := -1, hierarchy := -1, components := 0, valid := true }
    (pushEvent u4 (Event.entityCreated slot), slot)
  else
    let slot := (u.entities.length : Int)
    let u1 := { u with entities := u.entities ++ [default], transforms := u.transforms ++ [1] }
    let u2 := setTrAt u1 slot t
    let u3 := setEntAt u2 slot
      { entAt u2 slot with name := -1, hierarchy := -1, components := 0, valid := true }
    (pushEvent u3 (Event.entityCreated slot), slot)

/-- The `while (m_entities.size() <= entity.index)` loop of
`Universe::emplaceEntity`: synthesize `n` invalid slots, each pushed on the
front of the free list.  (The source leaves the synthesized slot's component
mask uninitialized; the model uses 0.  The placeholder transform gets
`scale = -1` in the source; the model uses the identity.) -/
def emplaceGrow : Nat → Universe T → Universe T
  | 0, u => u
  | n + 1, u =>
      let newIdx := (u.entities.length : Int)
      let u1 := { u with
        entities := u.entities ++
          [{ valid := false, prev := -1, next := u.first_free_slot, name := -1,
             hierarchy := -1, components := 0 }],
        transforms := u.transforms ++ [1] }
      let u2 := if 0 ≤ u.first_free_slot then
          setEntAt u1 u.first_free_slot { entAt u1 u.first_free_slot with prev := newIdx }
        else u1
      emplaceGrow n { u2 with first_free_slot := newIdx }

/-- `Universe::emplaceEntity`: force the given index to become a valid entity,
growing the table with free placeholder slots as needed and unlinking the
target from the doubly-linked free list. -/
def emplaceEntity (u : Universe T) (entity : Int) : Universe T :=
  let u0 := emplaceGrow (entity + 1 - (u.entities.length : Int)).toNat u
  let u1 := if u0.first_free_slot = entity then
      { u0 with first_free_slot := (entAt u0 entity).next }
    else u0
  let u2 := if 0 ≤ (entAt u1 entity).prev then
      setEntAt u1 (entAt u1 entity).prev
        { entAt u1 (entAt u1 entity).prev with next := (entAt u1 entity).next }
    else u1
  let u3 := if 0 ≤ (entAt u2 entity).next then
      setEntAt u2 (entAt u2 entity).next
        { entAt u2 (entAt u2 entity).next with prev := (entAt u2 entity).prev }
    else u2
  let u4 := setTrAt u3 entity 1
  let u5 := setEntAt u4 entity
    { entAt u4 entity with name := -1, hierarchy := -1, components := 0, valid := true }
  pushEvent u5 (Event.entityCreated entity)

/-- `Universe::hasEntity`. -/
def hasEntity (u : Universe T) (entity : Int) : Bool :=
  0 ≤ entity ∧ entity < (u.entities.length : Int) ∧ (entAt u entity).valid = true

/-- Modelled from the spec (§6): a conforming module's `destroy` callback
detaches its payload and then calls back `Universe::onComponentDestroyed`,
which clears the mask bit and fires the event. -/
def moduleDestroyComponent (u : Universe T) (entity : Int) (i : Nat) : Universe T :=
  onComponentDestroyed u entity i

/-- The component-destruction loop of `Universe::destroyEntity`: for every
still-set bit of the component mask, dispatch the owning module's destroy
callback (the source asserts after each call that the mask changed). -/
def destroyComponentsGo : Nat → Universe T → Int → Nat → Universe T
  | 0, u, _, _ => u
  | steps + 1, u, entity, i =>
      let mask := (entAt u entity).components
      let u1 := if mask &&& (1 <<< i) != 0 then moduleDestroyComponent u entity i else u
      destroyComponentsGo steps u1 entity (i + 1)

/-- The child-detach loop of `Universe::destroyEntity`:
`for (first_child = getFirstChild(e); valid; first_child = getFirstChild(e))
setParent(INVALID_ENTITY, first_child)`. -/
def detachChildren : Nat → Universe T → Int → Universe T
  | 0, u, _ => u
  | fuel + 1, u, entity =>
      let fc := getFirstChild u entity
      if fc < 0 then u
      else detachChildren fuel (setParent u (-1) fc) entity

/-- `Universe::destroyEntity` (the source asserts the entity is valid):
detach all children to the root, detach from any parent, destroy every
still-set component, push the slot on the free list and reclaim the name
slot by swapping the last name entry into it. -/
def destroyEntity (u : Universe T) (entity : Int) : Universe T :=
  let u1 := detachChildren (u.entities.length + 1) u entity
  let u2 := setParent u1 (-1) entity
  let u3 := destroyComponentsGo 64 u2 entity 0
  let u4 := setEntAt u3 entity
    { entAt u3 entity with next := u3.first_free_slot, prev := -1, hierarchy := -1, valid := false }
  let u5 := if 0 ≤ u4.first_free_slot then
      setEntAt u4 u4.first_free_slot { entAt u4 u4.first_free_slot with prev := entity }
    else u4
  let nameIdx := (entAt u5 entity).name
  let u6 := if 0 ≤ nameIdx then
      let lastName := u5.names.getD (u5.names.length - 1) ⟨-1, ""⟩
      let ua := setEntAt u5 lastName.entity { entAt u5 lastName.entity with name := nameIdx }
      let ub := { ua with names := (ua.names.set nameIdx.toNat lastName).dropLast }
      setEntAt ub entity { entAt ub entity with name := -1 }
    else u5
  let u7 := { u6 with first_free_slot := entity }
  pushEvent u7 (Event.entityDestroyed entity)

/-- The name-reclaim step of `Universe::destroyEntity`, factored out over the
state it runs on: if the entity owns a name slot, swap the last name entry
into that slot, shrink the name table and clear the entity's name index.
Definitionally equal to the corresponding stage of `destroyEntity`. -/
def nameSwapSlot (u : Universe T) (entity : Int) : Universe T :=
  let nameIdx := (entAt u entity).name
  if 0 ≤ nameIdx then
    let lastName := u.names.getD (u.names.length - 1) ⟨-1, ""⟩
    let ua := setEntAt u lastName.entity { entAt u lastName.entity with name := nameIdx }
    let ub := { ua with names := (ua.names.set nameIdx.toNat lastName).dropLast }
    setEntAt ub entity { entAt ub entity with name := -1 }
  else u

/-- The slot-recycling tail of `Universe::destroyEntity` (everything after the
component-destruction loop), factored out over the intermediate state: mark
the record free and push it on the free list, patch the old list head's back
pointer, reclaim the name slot and fire the event.  Definitionally,
`destroyEntity u e` is `destroyTail` applied to the state after the detach /
component-destruction phases (`destroyEntity_eq_tail` below). -/
def destroyTail (u3 : Universe T) (entity : Int) : Universe T :=
  let u4 := setEntAt u3 entity
    { entAt u3 entity with next := u3.first_free_slot, prev := -1, hierarchy := -1, valid := false }
  let u5 := if 0 ≤ u4.first_free_slot then
      setEntAt u4 u4.first_free_slot { entAt u4 u4.first_free_slot with prev := entity }
    else u4
  let u6 := nameSwapSlot u5 entity
  let u7 := { u6 with first_free_slot := entity }
  pushEvent u7 (Event.entityDestroyed entity)

/-- The child-scanning loop of `Universe::findByName` (parent given): walk the
direct children, returning the first one whose name entry matches. -/
def findByNameChain : Nat → Universe T → Int → String → Int
  | 0, _, _, _ => -1
  | fuel + 1, u, e, name =>
      if e < 0 then -1
      else
        let data := entAt u e
        if 0 ≤ data.name ∧ (u.names.getD data.name.toNat ⟨-1, ""⟩).name = name then e
        else findByNameChain fuel u (hierAt u data.hierarchy).next_sibling name

/-- The global loop of `Universe::findByName` (no parent): scan the name table
in order, returning the first matching entry whose owner is root-level. -/
def findByNameGlobal (u : Universe T) (name : String) : List EntityName → Int
  | [] => -1
  | n :: rest =>
      if n.name = name ∧
          ((entAt u n.entity).hierarchy < 0 ∨
            (hierAt u (entAt u n.entity).hierarchy).parent < 0) then n.entity
      else findByNameGlobal u name rest

/-- `Universe::findByName`. -/
def findByName (u : Universe T) (parent : Int) (name : String) : Int :=
  if 0 ≤ parent then
    let h_idx := (entAt u parent).hierarchy
    if h_idx < 0 then -1
    else findByNameChain (u.entities.length + 1) u (hierAt u h_idx).first_child name
  else findByNameGlobal u name u.names

/-- One value written to / read from the skeleton stream.  The source writes
raw bytes; the model keeps them as typed tokens with the record blocks kept
whole, exactly mirroring the write order of `Universe::serialize`. -/
inductive Tok (T : Type)
  | int (n : Int)
  | entBlock (l : List EntityData)
  | trBlock (l : List T)
  | ent (e : Int)
  | str (s : String)
  | hierBlock (l : List (Hierarchy T))
deriving DecidableEq

/-- `Universe::serialize`: entity count, the raw entity-record and transform
blocks (skipped when empty), the name table as (entity, string) pairs, the
free-list head, and the hierarchy count and raw hierarchy block. -/
def serialize (u : Universe T) : List (Tok T) :=
  [Tok.int (u.entities.length : Int)]
    ++ (if u.entities.length ≠ 0 then [Tok.entBlock u.entities, Tok.trBlock u.transforms] else [])
    ++ [Tok.int (u.names.length : Int)]
    ++ (u.names.flatMap fun n => [Tok.ent n.entity, Tok.str n.name])
    ++ [Tok.int u.first_free_slot]
    ++ [Tok.int (u.hierarchy.length : Int)]
    ++ (if u.hierarchy.length ≠ 0 then [Tok.hierBlock u.hierarchy] else [])

/-- The name-reading loop of `Universe::deserialize`: read `k` (entity,
string) pairs, appending each to the name table and reconstructing the
owner's `name` back-reference. -/
def readNames (u : Universe T) : Nat → List (Tok T) → Option (Universe T × List (Tok T))
  | 0, toks => some (u, toks)
  | k + 1, Tok.ent e :: Tok.str s :: toks =>
      let u1 := { u with names := u.names ++ [⟨e, s⟩] }
      let u2 := setEntAt u1 e { entAt u1 e with name := (u1.names.length : Int) - 1 }
      readNames u2 k toks
  | _ + 1, _ => none

/-- The tail of `Universe::deserialize` after the entity/transform blocks:
name count and entries, free-list head, hierarchy count and block. -/
def deserializeRest (u : Universe T) (toks : List (Tok T)) : Option (Universe T) :=
  match toks with
  | Tok.int ncount :: toks1 =>
      match readNames u ncount.toNat toks1 with
      | some (u1, Tok.int ffs :: Tok.int hcount :: toks2) =>
          let u2 := { u1 with first_free_slot := ffs }
          if hcount ≤ 0 then
            match toks2 with
            | [] => some { u2 with hierarchy := [] }
            | _ => none
          else
            match toks2 with
            | [Tok.hierBlock hs] =>
                if (hs.length : Int) = hcount then some { u2 with hierarchy := hs } else none
            | _ => none
      | _ => none
  | _ => none

/-- `Universe::deserialize`, reading symmetrically to `serialize` into the
given (fresh) universe.  A stream that does not parse yields `none` (the
source would read garbage). -/
def deserialize (u : Universe T) (toks : List (Tok T)) : Option (Universe T) :=
  match toks with
  | Tok.int count :: toks1 =>
      if count ≤ 0 then deserializeRest { u with entities := [], transforms := [] } toks1
      else
        match toks1 with
        | Tok.entBlock es :: Tok.trBlock ts :: toks2 =>
            if (es.length : Int) = count ∧ (ts.length : Int) = count then
              deserializeRest { u with entities := es, transforms := ts } toks2
            else none
        | _ => none
  | _ => none

/-- Modelled from the spec: `PrefabVersion` lives in `engine/prefab.h`, which
is not among the sources; `WITH_HIERARCHY` is the version that introduced
parent back-references and `LAST` is the last supported version. -/
def PrefabVersion.WITH_HIERARCHY : Nat := 1

/-- Modelled from the spec: the last supported prefab blob version. -/
def PrefabVersion.LAST : Nat := 2

/-- One value read from a prefab blob by the `TextDeserializer`.  `guid` is a
parent back-reference (an index into the blob's own entity list); `localTr`
carries the entity's authored local transform (`RigidTransform` plus scale,
combined since `engine/math.h` is not among the sources); `cmpData` stands
for one component's opaque payload bytes. -/
inductive PTok (T : Type)
  | u32 (n : Nat)
  | int (n : Int)
  | u64 (n : Nat)
  | guid (n : Nat)
  | localTr (t : T)
  | cmpData
deriving DecidableEq

/-- Modelled from the spec (§6): a conforming module's `deserialize` callback
reads its payload bytes back and attaches the component, calling back
`Universe::onComponentCreated`. -/
def moduleDeserializeComponent (u : Universe T) (entity : Int) (t : Nat) :
    List (PTok T) → Option (Universe T × List (PTok T))
  | PTok.cmpData :: toks => some (onComponentCreated u entity t, toks)
  | _ => none

/-- The component-reading loop of `Universe::instantiatePrefab`: repeatedly
read a component type hash (`Reflection::getComponentTypeFromHash` abstracted
as the identity on type indices; 0 terminates), a scene version, and the
component payload. -/
def readComponents : Nat → Universe T → Int → List (PTok T) →
    Option (Universe T × List (PTok T))
  | 0, _, _, _ => none
  | _ + 1, u, _, PTok.u32 0 :: toks => some (u, toks)
  | k + 1, u, entity, PTok.u32 (hash + 1) :: PTok.int _ :: toks =>
      match moduleDeserializeComponent u entity (hash + 1) toks with
      | some (u1, toks1) => readComponents k u1 entity toks1
      | none => none
  | _ + 1, _, _, _ => none

/-- The per-entity loop of `Universe::instantiatePrefab`: while the blob has
data and entities remain, read the prefab id, place the entity at the
caller-supplied transform, reparent it inside the blob when a parent
back-reference is present (`PrefabEntityGUIDMap` resolves a guid against the
full pre-allocated list), and read its component list. -/
def instantiateEntities (version : Nat) (place : T) (created : List Int) :
    Nat → Universe T → Nat → List (PTok T) → Option (Universe T)
  | 0, u, _, _ => some u
  | k + 1, u, idx, toks =>
      if idx < created.length then
        match toks with
        | [] => some u
        | PTok.u64 _ :: toks1 =>
            let entity := created.getD idx (-1)
            let u1 := setTransform u entity place
            if version > PrefabVersion.WITH_HIERARCHY then
              match toks1 with
              | PTok.guid g :: toks2 =>
                  let parent := if g < created.length then created.getD g (-1) else -1
                  if 0 ≤ parent then
                    match toks2 with
                    | PTok.localTr tr :: toks3 =>
                        let u2 := setParent u1 parent entity
                        let u3 := setLocalTransform u2 entity tr
                        match readComponents (toks3.length + 1) u3 entity toks3 with
                        | some (u4, toks4) =>
                            instantiateEntities version place created k u4 (idx + 1) toks4
                        | none => none
                    | _ => none
                  else
                    match readComponents (toks2.length + 1) u1 entity toks2 with
                    | some (u2, toks3) =>
                        instantiateEntities version place created k u2 (idx + 1) toks3
                    | none => none
              | _ => none
            else
              match readComponents (toks1.length + 1) u1 entity toks1 with
              | some (u2, toks2) =>
                  instantiateEntities version place created k u2 (idx + 1) toks2
              | none => none
        | _ => none
      else some u

/-- The entity pre-allocation loop of `Universe::instantiatePrefab`: create
`count` fresh entities at the origin so intra-blob parent references can be
resolved. -/
def preallocEntities : Nat → Universe T → List Int → Universe T × List Int
  | 0, u, acc => (u, acc.reverse)
  | k + 1, u, acc =>
      let (u1, e) := createEntity u 1
      preallocEntities k u1 (e :: acc)

/-- `Universe::instantiatePrefab`: read the blob version, aborting with a
logged error and `INVALID_ENTITY` when it is past the last supported one;
otherwise pre-allocate one entity per blob entry, fill them in blob order and
return the first entity.  Returns the new state and the returned entity. -/
def instantiatePrefab (u : Universe T) (blob : List (PTok T)) (place : T) :
    Universe T × Int :=
  match blob with
  | PTok.u32 version :: blobRest =>
      if version > PrefabVersion.LAST then (pushEvent u Event.errorLogged, -1)
      else
        match blobRest with
        | PTok.int count :: blob1 =>
            let (u1, created) := preallocEntities count.toNat u []
            match instantiateEntities version place created count.toNat u1 0 blob1 with
            | some u2 => (u2, created.getD 0 (-1))
            | none => (u1, created.getD 0 (-1))
        | _ => (u, -1)
  | _ => (u, -1)

/-- The detach half of `Universe::setParent` (everything before the
`child_idx` re-read): unlink `child` from its old parent's chain, or emplace
a fresh hierarchy node for it when it has none and a new parent is coming. -/
def detachPhase (u : Universe T) (new_parent child : Int) : Universe T :=
  let child_idx := (entAt u child).hierarchy
  if 0 ≤ child_idx then
    let old_parent := (hierAt u child_idx).parent
    if 0 ≤ old_parent then
      let ua := removeFromChildren (u.entities.length + 2) u
          (Sum.inl (entAt u old_parent).hierarchy) child
      let ub := setHierAt ua child_idx
          { hierAt ua child_idx with parent := -1, next_sibling := -1 }
      collectGarbage ub old_parent
    else u
  else if 0 ≤ new_parent then
    let u' := setEntAt u child { entAt u child with hierarchy := (u.hierarchy.length : Int) }
    { u' with hierarchy := u'.hierarchy ++ [⟨child, -1, -1, -1, 1⟩] }
  else u

/-- The four `m_hierarchy` writes at the end of `Universe::setParent`
(parent, recomputed local transform, sibling link, head-of-chain link),
factored over the state `u2` in which the new parent's node exists and the
child's node index `kc` has been re-read. -/
def attachWrites (u2 : Universe T) (new_parent child kc : Int) : Universe T :=
  let new_parent_idx := (entAt u2 new_parent).hierarchy
  let u3 := setHierAt u2 kc { hierAt u2 kc with parent := new_parent }
  let local_tr := (trAt u3 new_parent)⁻¹ * trAt u3 child
  let u4 := setHierAt u3 kc { hierAt u3 kc with local_transform := local_tr }
  let u5 := setHierAt u4 kc
    { hierAt u4 kc with next_sibling := (hierAt u4 new_parent_idx).first_child }
  setHierAt u5 new_parent_idx { hierAt u5 new_parent_idx with first_child := child }

/-- The attach half of `Universe::setParent` (everything from the `child_idx`
re-read on): link `child` as the new parent's first child and recompute its
local transform, or garbage-collect its node when it is being detached. -/
def attachPhase (u1 : Universe T) (new_parent child : Int) : Universe T :=
  let child_idx2 := (entAt u1 child).hierarchy
  if 0 ≤ new_parent then
    let u2 :=
      if (entAt u1 new_parent).hierarchy < 0 then
        let u' := setEntAt u1 new_parent
          { entAt u1 new_parent with hierarchy := (u1.hierarchy.length : Int) }
        { u' with hierarchy := u'.hierarchy ++ [⟨new_parent, -1, -1, -1, 1⟩] }
      else u1
    attachWrites u2 new_parent child child_idx2
  else
    if 0 ≤ child_idx2 then collectGarbage u1 child else u1

/-- Entity-indexed reference consistency: a slot's hierarchy index, when set,
is in bounds and its node names the slot back (the entity half of the
back/forward reference invariant). -/
def FwdRef (u : Universe T) : Prop :=
  ∀ x : Int, 0 ≤ x → x.toNat < u.entities.length → 0 ≤ (entAt u x).hierarchy →
    (entAt u x).hierarchy.toNat < u.hierarchy.length ∧
    (hierAt u (entAt u x).hierarchy).entity = x

/-- The hierarchy observations of `v` agree with those of `u` everywhere
except possibly at the single entity `ent`: parents, chain links and cached
local transforms are indistinguishable entity-by-entity, and the bookkeeping
outside the hierarchy (transform store, names, free list) is untouched. -/
def HierObsPres (v u : Universe T) (ent : Int) : Prop :=
  v.transforms = u.transforms ∧ v.entities.length = u.entities.length ∧
  v.names = u.names ∧ v.first_free_slot = u.first_free_slot ∧
  ∀ x : Int, x ≠ ent →
    getParent v x = getParent u x ∧
    getFirstChild v x = getFirstChild u x ∧
    getNextSibling v x = getNextSibling u x ∧
    localOf v x = localOf u x ∧
    ((entAt v x).hierarchy < 0 ↔ (entAt u x).hierarchy < 0)

/-- A two-level test universe: entity 1 is a child of entity 0 (used to
instantiate hypotheses of the theorems below at concrete inputs). -/
def chainU : Universe (Multiplicative ℤ) :=
  { entities :=
      [{ valid := true, prev := -1, next := -1, name := -1, hierarchy := 0, components := 0 },
       { valid := true, prev := -1, next := -1, name := -1, hierarchy := 1, components := 0 }],
    transforms := [Multiplicative.ofAdd 4, Multiplicative.ofAdd 7],
    names := [],
    hierarchy :=
      [{ entity := 0, parent := -1, first_child := 1, next_sibling := -1,
         local_transform := Multiplicative.ofAdd 4 },
       { entity := 1, parent := 0, first_child := -1, next_sibling := -1,
         local_transform := Multiplicative.ofAdd 3 }],
    first_free_slot := -1,
    events := [] }

/-- A freshly constructed universe (`Universe::Universe`): all tables empty
and the free-list head invalid. -/
def emptyUniverse : Universe T :=
  { entities := [], transforms := [], names := [], hierarchy := [],
    first_free_slot := -1, events := [] }

/-- A test universe for the naming claims: root-level entity 0 carries the
name `"a"`; entity 1 is an unnamed child of 0. -/
def nameU : Universe (Multiplicative ℤ) :=
  { entities :=
      [{ valid := true, prev := -1, next := -1, name := 0, hierarchy := 0, components := 0 },
       { valid := true, prev := -1, next := -1, name := -1, hierarchy := 1, components := 0 }],
    transforms := [Multiplicative.ofAdd 4, Multiplicative.ofAdd 7],
    names := [⟨0, "a"⟩],
    hierarchy :=
      [{ entity := 0, parent := -1, first_child := 1, next_sibling := -1,
         local_transform := Multiplicative.ofAdd 4 },
       { entity := 1, parent := 0, first_child := -1, next_sibling := -1,
         local_transform := Multiplicative.ofAdd 3 }],
    first_free_slot := -1,
    events := [] }

/-- One upward step in the hierarchy: the parent of `e`, with every invalid
entity mapped to `-1`. -/
def parStep (u : Universe T) (e : Int) : Int :=
  if e < 0 then -1 else getParent u e

/-- `n` upward steps (`-1` is absorbing). -/
def parIter (u : Universe T) : Nat → Int → Int
  | 0, e => e
  | n + 1, e => parIter u n (parStep u e)

/-- `c` lies strictly below `a` in the parent forest. -/
def DescP (u : Universe T) (a c : Int) : Prop :=
  0 ≤ a ∧ ∃ n, 0 < n ∧ parIter u n c = a

/-- One step along a sibling chain (`-1` is absorbing). -/
def sibStep (u : Universe T) (e : Int) : Int :=
  if e < 0 then -1 else getNextSibling u e

/-- `n` steps along a sibling chain. -/
def sibIterN (u : Universe T) : Nat → Int → Int
  | 0, e => e
  | n + 1, e => sibIterN u n (sibStep u e)

/-- `y` is a valid entity on the sibling chain starting at `c`. -/
def SibReach (u : Universe T) (c y : Int) : Prop :=
  0 ≤ y ∧ ∃ m, sibIterN u m c = y

/-- `i` is on the sibling chain starting at `c`, or strictly below some
entity of it — the set of entities visited below a chain walk. -/
def SibDescP (u : Universe T) (c i : Int) : Prop :=
  ∃ y, SibReach u c y ∧ (y = i ∨ DescP u y i)

/-- The sibling chain starting at `c`, collected as a list (with fuel). -/
def chainL (u : Universe T) : Nat → Int → List Int
  | 0, _ => []
  | fuel + 1, c => if c < 0 then [] else c :: chainL u fuel (getNextSibling u c)

/-- The direct children of `p`, in sibling-chain order. -/
def childrenOf (u : Universe T) (p : Int) : List Int :=
  chainL u (u.entities.length + 1) (getFirstChild u p)

/-- Hierarchy-table back-references are consistent: every node names a valid
slot index whose record points back at the node. -/
def WFBackRefs (u : Universe T) : Prop :=
  ∀ k, k < u.hierarchy.length →
    0 ≤ (hierAt u (k : Int)).entity ∧
    (hierAt u (k : Int)).entity.toNat < u.entities.length ∧
    (entAt u (hierAt u (k : Int)).entity).hierarchy = (k : Int)

/-- Slot-table forward references are consistent: a record's hierarchy index,
when set, names a node owned by that entity. -/
def WFFwdRefs (u : Universe T) : Prop :=
  ∀ i, i < u.entities.length →
    (entAt u (i : Int)).hierarchy < 0 ∨
    ((entAt u (i : Int)).hierarchy.toNat < u.hierarchy.length ∧
      (hierAt u (entAt u (i : Int)).hierarchy).entity = (i : Int))

/-- Every node's parent, when set, is a valid entity owning a node, and the
child occurs on the parent's child chain. -/
def WFParents (u : Universe T) : Prop :=
  ∀ k, k < u.hierarchy.length →
    (hierAt u (k : Int)).parent < 0 ∨
    ((hierAt u (k : Int)).parent.toNat < u.entities.length ∧
      0 ≤ (entAt u (hierAt u (k : Int)).parent).hierarchy ∧
      (hierAt u (k : Int)).entity ∈ childrenOf u (hierAt u (k : Int)).parent)

/-- Every entity on a node's child chain is a valid entity owning a node
whose parent is that node's entity. -/
def WFChains (u : Universe T) : Prop :=
  ∀ k, k < u.hierarchy.length →
    ∀ x ∈ childrenOf u (hierAt u (k : Int)).entity,
      0 ≤ x ∧ x.toNat < u.entities.length ∧
      0 ≤ (entAt u x).hierarchy ∧
      getParent u x = (hierAt u (k : Int)).entity

/-- Every child chain reaches its end within `entities + 1` steps. -/
def WFChainEnds (u : Universe T) : Prop :=
  ∀ k, k < u.hierarchy.length →
    sibIterN u (u.entities.length + 1) (hierAt u (k : Int)).first_child = -1

/-- Every parent chain reaches a root within `entities + 1` steps (the
hierarchy is acyclic). -/
def WFRooted (u : Universe T) : Prop :=
  ∀ i, i < u.entities.length → parIter u (u.entities.length + 1) (i : Int) = -1

/-- Well-formedness of the registry's hierarchy bookkeeping: the standing
invariants of the source (spec §3) — parallel transform store, consistent
back/forward references between slots and nodes, parent/child-chain
consistency, terminating chains and acyclicity. -/
def WF (u : Universe T) : Prop :=
  u.transforms.length = u.entities.length ∧
  u.hierarchy.length ≤ u.entities.length ∧
  WFBackRefs u ∧ WFFwdRefs u ∧ WFParents u ∧ WFChains u ∧ WFChainEnds u ∧ WFRooted u

instance (u : Universe T) : Decidable (WF u) := by
  unfold WF WFBackRefs WFFwdRefs WFParents WFChains WFChainEnds WFRooted
  infer_instance

/-- The transform invariant at one entity:
`world(x) = world(parent(x)) * local(x)`. -/
def InvE (u : Universe T) (x : Int) : Prop :=
  trAt u x = trAt u (getParent u x) * localOf u x

/-- The spec's standing hierarchy/transform invariant (§3): every entity with
a valid parent satisfies `world = world(parent) * local`. -/
def TransformInv (u : Universe T) : Prop :=
  ∀ i, i < u.entities.length → 0 ≤ getParent u (i : Int) → InvE u (i : Int)

instance (u : Universe T) [DecidableEq T] : Decidable (TransformInv u) := by
  unfold TransformInv InvE
  infer_instance

/-- The mutations named by the spec's transform invariant: the world-transform
setters, the local-transform setter and reparenting. -/
inductive Mutation (T : Type)
  | mkSetTransform (entity : Int) (transform : T)
  | mkSetPosition (entity : Int) (f : T → T)
  | mkSetRotation (entity : Int) (f : T → T)
  | mkSetScale (entity : Int) (f : T → T)
  | mkSetLocalTransform (entity : Int) (transform : T)
  | mkSetParent (new_parent : Int) (child : Int)

/-- Dispatch a mutation to the corresponding source function. -/
def applyMutation (u : Universe T) : Mutation T → Universe T
  | Mutation.mkSetTransform e t => setTransform u e t
  | Mutation.mkSetPosition e f => setPosition u e f
  | Mutation.mkSetRotation e f => setRotation u e f
  | Mutation.mkSetScale e f => setScale u e f
  | Mutation.mkSetLocalTransform e t => setLocalTransform u e t
  | Mutation.mkSetParent np c => setParent u np c

/-- The preconditions under which the source executes each mutation without
hitting an assertion or out-of-bounds access: the entity is a valid index,
and `setLocalTransform` on an entity with a hierarchy node requires a valid
parent (`updateGlobalTransform` asserts it). -/
def MutOk (u : Universe T) : Mutation T → Prop
  | Mutation.mkSetTransform e _ => 0 ≤ e ∧ e.toNat < u.entities.length
  | Mutation.mkSetPosition e _ => 0 ≤ e ∧ e.toNat < u.entities.length
  | Mutation.mkSetRotation e _ => 0 ≤ e ∧ e.toNat < u.entities.length
  | Mutation.mkSetScale e _ => 0 ≤ e ∧ e.toNat < u.entities.length
  | Mutation.mkSetLocalTransform e _ =>
      (0 ≤ e ∧ e.toNat < u.entities.length) ∧
      (0 ≤ (entAt u e).hierarchy → 0 ≤ (hierAt u (entAt u e).hierarchy).parent)
  | Mutation.mkSetParent np c =>
      (0 ≤ c ∧ c.toNat < u.entities.length) ∧ (0 ≤ np → np.toNat < u.entities.length)

/-- Two states agree on everything the hierarchy bookkeeping reads: the slot
table, the table sizes, and the link fields of every node (the cached local
transforms may differ). -/
def LinksEq (v u : Universe T) : Prop :=
  v.entities = u.entities ∧ v.names = u.names ∧
  v.first_free_slot = u.first_free_slot ∧
  v.transforms.length = u.transforms.length ∧
  v.hierarchy.length = u.hierarchy.length ∧
  ∀ k : Int, (hierAt v k).entity = (hierAt u k).entity ∧
    (hierAt v k).parent = (hierAt u k).parent ∧
    (hierAt v k).first_child = (hierAt u k).first_child ∧
    (hierAt v k).next_sibling = (hierAt u k).next_sibling

/-- A scripted entity-lifecycle call (C2): the three registry operations the
free-list claim quantifies over. -/
inductive Op (T : Type)
  | create (t : T)
  | destroy (e : Int)
  | emplace (e : Int)

/-- Apply one lifecycle call. -/
def applyOp (u : Universe T) : Op T → Universe T
  | Op.create t => (createEntity u t).1
  | Op.destroy e => destroyEntity u e
  | Op.emplace e => emplaceEntity u e

/-- The live-entity count delta of one call: `createEntity` and
`emplaceEntity` make one entity live, `destroyEntity` removes one. -/
def liveDelta : Op T → Int
  | Op.create _ => 1
  | Op.destroy _ => -1
  | Op.emplace _ => 1

/-- Run a call sequence, tracking the live-entity count. -/
def runOps : Universe T → Int → List (Op T) → Universe T × Int
  | u, n, [] => (u, n)
  | u, n, op :: rest => runOps (applyOp u op) (n + liveDelta op) rest

/-- Per-call precondition: `destroyEntity` is called on a live entity (the
source asserts `isValid`), `emplaceEntity` on a nonnegative index that is not
currently a live entity. -/
def opOk (u : Universe T) : Op T → Bool
  | Op.create _ => true
  | Op.destroy e => hasEntity u e
  | Op.emplace e =>
      if 0 ≤ e then
        if e.toNat < u.entities.length then !(entAt u e).valid else true
      else false

/-- All calls of a sequence meet their preconditions in the states where
they execute. -/
def opsOk (u : Universe T) : List (Op T) → Bool
  | [] => true
  | op :: rest => opOk u op && opsOk (applyOp u op) rest

/-- The slots reachable from `h` along the `next` links are exactly the list
`l`: each is in range and `valid = false`, its `prev` link names its
predecessor (`p` before the first element), and the last `next` link is
`-1`. -/
def isFreeList (u : Universe T) : Int → Int → List Int → Prop
  | h, _, [] => h = -1
  | h, p, a :: rest =>
      h = a ∧ 0 ≤ a ∧ a.toNat < u.entities.length ∧
      (entAt u a).valid = false ∧ (entAt u a).prev = p ∧
      isFreeList u (entAt u a).next a rest

/-- The number of `valid = true` slots. -/
def countValid (u : Universe T) : Nat :=
  u.entities.countP (fun d => d.valid)

/-- The C2 invariant: the free list starting at `m_first_free_slot` is some
duplicate-free list `l` with consistent links, a slot is invalid exactly when
it is on the list, and the number of valid slots is the live count `n`. -/
def FLC (u : Universe T) (l : List Int) (n : Int) : Prop :=
  isFreeList u u.first_free_slot (-1) l ∧ l.Nodup ∧
  (∀ x : Int, 0 ≤ x → x.toNat < u.entities.length →
    ((entAt u x).valid = false ↔ x ∈ l)) ∧
  (countValid u : Int) = n

/-- The two free-list unlink writes of `Universe::emplaceEntity` (bridge the
predecessor's `next` over the removed slot, and the successor's `prev`),
without the head update. -/
def unlinkWrites (u : Universe T) (e : Int) : Universe T :=
  let u2 := if 0 ≤ (entAt u e).prev then
      setEntAt u (entAt u e).prev
        { valid := (entAt u (entAt u e).prev).valid,
          prev := (entAt u (entAt u e).prev).prev, next := (entAt u e).next,
          name := (entAt u (entAt u e).prev).name,
          hierarchy := (entAt u (entAt u e).prev).hierarchy,
          components := (entAt u (entAt u e).prev).components }
    else u
  if 0 ≤ (entAt u2 e).next then
    setEntAt u2 (entAt u2 e).next
      { valid := (entAt u2 (entAt u2 e).next).valid, prev := (entAt u2 e).prev,
        next := (entAt u2 (entAt u2 e).next).next,
        name := (entAt u2 (entAt u2 e).next).name,
        hierarchy := (entAt u2 (entAt u2 e).next).hierarchy,
        components := (entAt u2 (entAt u2 e).next).components }
  else u2

/-- `v` agrees with `u` on everything the free list reads: table size, list
head, valid-slot count, and the `valid`/`prev`/`next` fields of every slot. -/
def VPN (v u : Universe T) : Prop :=
  v.entities.length = u.entities.length ∧
  v.first_free_slot = u.first_free_slot ∧
  countValid v = countValid u ∧
  ∀ x : Int, (entAt v x).valid = (entAt u x).valid ∧
    (entAt v x).prev = (entAt u x).prev ∧ (entAt v x).next = (entAt u x).next

/-- A concrete call sequence for the C2 witness: two creations, a destroy
(pushing slot 0 on the free list) and an emplace that takes it back. -/
def opsW : List (Op (Multiplicative ℤ)) :=
  [Op.create (Multiplicative.ofAdd 1), Op.create (Multiplicative.ofAdd 2),
   Op.destroy 0, Op.emplace 0]

/- ================= theorems ================= -/

theorem entAt_ext {u v : Universe T} (h : v.entities = u.entities) : entAt v = entAt u := by
  funext i; simp [entAt, h]

theorem trAt_ext {u v : Universe T} (h : v.transforms = u.transforms) : trAt v = trAt u := by
  funext i; simp [trAt, h]

theorem hierAt_ext {u v : Universe T} (h : v.hierarchy = u.hierarchy) : hierAt v = hierAt u := by
  funext i; simp [hierAt, h]

@[simp] theorem setEntAt_transforms (u : Universe T) (i : Int) (d : EntityData) :
    (setEntAt u i d).transforms = u.transforms := by
  unfold setEntAt; split <;> rfl

@[simp] theorem setEntAt_names (u : Universe T) (i : Int) (d : EntityData) :
    (setEntAt u i d).names = u.names := by
  unfold setEntAt; split <;> rfl

@[simp] theorem setEntAt_hierarchy (u : Universe T) (i : Int) (d : EntityData) :
    (setEntAt u i d).hierarchy = u.hierarchy := by
  unfold setEntAt; split <;> rfl

@[simp] theorem setEntAt_first_free_slot (u : Universe T) (i : Int) (d : EntityData) :
    (setEntAt u i d).first_free_slot = u.first_free_slot := by
  unfold setEntAt; split <;> rfl

@[simp] theorem setEntAt_events (u : Universe T) (i : Int) (d : EntityData) :
    (setEntAt u i d).events = u.events := by
  unfold setEntAt; split <;> rfl

@[simp] theorem setTrAt_entities (u : Universe T) (i : Int) (t : T) :
    (setTrAt u i t).entities = u.entities := by
  unfold setTrAt; split <;> rfl

@[simp] theorem setTrAt_names (u : Universe T) (i : Int) (t : T) :
    (setTrAt u i t).names = u.names := by
  unfold setTrAt; split <;> rfl

@[simp] theorem setTrAt_hierarchy (u : Universe T) (i : Int) (t : T) :
    (setTrAt u i t).hierarchy = u.hierarchy := by
  unfold setTrAt; split <;> rfl

@[simp] theorem setTrAt_first_free_slot (u : Universe T) (i : Int) (t : T) :
    (setTrAt u i t).first_free_slot = u.first_free_slot := by
  unfold setTrAt; split <;> rfl

@[simp] theorem setTrAt_events (u : Universe T) (i : Int) (t : T) :
    (setTrAt u i t).events = u.events := by
  unfold setTrAt; split <;> rfl

@[simp] theorem setHierAt_entities (u : Universe T) (i : Int) (h : Hierarchy T) :
    (setHierAt u i h).entities = u.entities := by
  unfold setHierAt; split <;> rfl

@[simp] theorem setHierAt_transforms (u : Universe T) (i : Int) (h : Hierarchy T) :
    (setHierAt u i h).transforms = u.transforms := by
  unfold setHierAt; split <;> rfl

@[simp] theorem setHierAt_names (u : Universe T) (i : Int) (h : Hierarchy T) :
    (setHierAt u i h).names = u.names := by
  unfold setHierAt; split <;> rfl

@[simp] theorem setHierAt_first_free_slot (u : Universe T) (i : Int) (h : Hierarchy T) :
    (setHierAt u i h).first_free_slot = u.first_free_slot := by
  unfold setHierAt; split <;> rfl

@[simp] theorem setHierAt_events (u : Universe T) (i : Int) (h : Hierarchy T) :
    (setHierAt u i h).events = u.events := by
  unfold setHierAt; split <;> rfl

@[simp] theorem pushEvent_entities (u : Universe T) (e : Event) :
    (pushEvent u e).entities = u.entities := rfl

@[simp] theorem pushEvent_transforms (u : Universe T) (e : Event) :
    (pushEvent u e).transforms = u.transforms := rfl

@[simp] theorem pushEvent_names (u : Universe T) (e : Event) :
    (pushEvent u e).names = u.names := rfl

@[simp] theorem pushEvent_hierarchy (u : Universe T) (e : Event) :
    (pushEvent u e).hierarchy = u.hierarchy := rfl

@[simp] theorem pushEvent_first_free_slot (u : Universe T) (e : Event) :
    (pushEvent u e).first_free_slot = u.first_free_slot := rfl

@[simp] theorem pushEvent_events (u : Universe T) (e : Event) :
    (pushEvent u e).events = e :: u.events := rfl

@[simp] theorem entAt_setTrAt (u : Universe T) (i : Int) (t : T) (j : Int) :
    entAt (setTrAt u i t) j = entAt u j := by
  rw [entAt_ext (setTrAt_entities u i t)]

@[simp] theorem entAt_setHierAt (u : Universe T) (i : Int) (h : Hierarchy T) (j : Int) :
    entAt (setHierAt u i h) j = entAt u j := by
  rw [entAt_ext (setHierAt_entities u i h)]

@[simp] theorem entAt_pushEvent (u : Universe T) (e : Event) (j : Int) :
    entAt (pushEvent u e) j = entAt u j := rfl

@[simp] theorem trAt_setEntAt (u : Universe T) (i : Int) (d : EntityData) (j : Int) :
    trAt (setEntAt u i d) j = trAt u j := by
  rw [trAt_ext (setEntAt_transforms u i d)]

@[simp] theorem trAt_setHierAt (u : Universe T) (i : Int) (h : Hierarchy T) (j : Int) :
    trAt (setHierAt u i h) j = trAt u j := by
  rw [trAt_ext (setHierAt_transforms u i h)]

@[simp] theorem trAt_pushEvent (u : Universe T) (e : Event) (j : Int) :
    trAt (pushEvent u e) j = trAt u j := rfl

@[simp] theorem hierAt_setEntAt (u : Universe T) (i : Int) (d : EntityData) (j : Int) :
    hierAt (setEntAt u i d) j = hierAt u j := by
  rw [hierAt_ext (setEntAt_hierarchy u i d)]

@[simp] theorem hierAt_setTrAt (u : Universe T) (i : Int) (t : T) (j : Int) :
    hierAt (setTrAt u i t) j = hierAt u j := by
  rw [hierAt_ext (setTrAt_hierarchy u i t)]

@[simp] theorem hierAt_pushEvent (u : Universe T) (e : Event) (j : Int) :
    hierAt (pushEvent u e) j = hierAt u j := rfl

theorem entAt_setEntAt_self (u : Universe T) {i : Int} (d : EntityData)
    (h0 : 0 ≤ i) (hl : i.toNat < u.entities.length) :
    entAt (setEntAt u i d) i = d := by
  have hi : ¬ i < 0 := by omega
  simp [entAt, setEntAt, hi, List.getD_eq_getElem?_getD, List.getElem?_set_self', hl,
    List.getElem?_eq_getElem]

theorem entAt_setEntAt_ne (u : Universe T) {i j : Int} (d : EntityData) (h : j ≠ i) :
    entAt (setEntAt u i d) j = entAt u j := by
  by_cases hi : i < 0
  · simp [setEntAt, hi]
  · by_cases hj : j < 0
    · simp [entAt, hj]
    · have : i.toNat ≠ j.toNat := by omega
      simp [entAt, setEntAt, hi, hj, List.getD_eq_getElem?_getD, List.getElem?_set_ne this]

theorem trAt_setTrAt_self (u : Universe T) {i : Int} (t : T)
    (h0 : 0 ≤ i) (hl : i.toNat < u.transforms.length) :
    trAt (setTrAt u i t) i = t := by
  have hi : ¬ i < 0 := by omega
  simp [trAt, setTrAt, hi, List.getD_eq_getElem?_getD, List.getElem?_set_self', hl,
    List.getElem?_eq_getElem]

theorem trAt_setTrAt_ne (u : Universe T) {i j : Int} (t : T) (h : j ≠ i) :
    trAt (setTrAt u i t) j = trAt u j := by
  by_cases hi : i < 0
  · simp [setTrAt, hi]
  · by_cases hj : j < 0
    · simp [trAt, hj]
    · have : i.toNat ≠ j.toNat := by omega
      simp [trAt, setTrAt, hi, hj, List.getD_eq_getElem?_getD, List.getElem?_set_ne this]

theorem hierAt_setHierAt_self (u : Universe T) {i : Int} (h : Hierarchy T)
    (h0 : 0 ≤ i) (hl : i.toNat < u.hierarchy.length) :
    hierAt (setHierAt u i h) i = h := by
  have hi : ¬ i < 0 := by omega
  simp [hierAt, setHierAt, hi, List.getD_eq_getElem?_getD, List.getElem?_set_self', hl,
    List.getElem?_eq_getElem]

theorem hierAt_setHierAt_ne (u : Universe T) {i j : Int} (h : Hierarchy T) (hne : j ≠ i) :
    hierAt (setHierAt u i h) j = hierAt u j := by
  by_cases hi : i < 0
  · simp [setHierAt, hi]
  · by_cases hj : j < 0
    · simp [hierAt, hj]
    · have : i.toNat ≠ j.toNat := by omega
      simp [hierAt, setHierAt, hi, hj, List.getD_eq_getElem?_getD, List.getElem?_set_ne this]

theorem shiftLeft_one (t : Nat) : (1 : Nat) <<< t = 2 ^ t := by
  rw [Nat.shiftLeft_eq, one_mul]

theorem and_pow_ne_zero_iff (m t : Nat) : (m &&& (1 <<< t) ≠ 0) ↔ m.testBit t = true := by
  rw [shiftLeft_one, Nat.and_two_pow]
  have h2 : (2 : Nat) ^ t ≠ 0 := by positivity
  cases h : m.testBit t <;> simp [h, h2]

/-- C7: after a component creation succeeds — the owning module calls back
`onComponentCreated(e, t)` — `hasComponent(e, t)` is true and `componentAdded`
has fired exactly once more for `(e, t)`; after `onComponentDestroyed(e, t)`,
`hasComponent(e, t)` is false, `componentDestroyed` has fired exactly once
more, and the source's assertion that the mask changed holds whenever bit `t`
was set beforehand. -/
theorem claim7_component_mask_and_events (u : Universe T) (e : Int) (t : Nat)
    (h0 : 0 ≤ e) (hl : e.toNat < u.entities.length) (ht : t < 64) :
    hasComponent (onComponentCreated u e t) e t = true ∧
    (onComponentCreated u e t).events.count (Event.componentAdded e t) =
      u.events.count (Event.componentAdded e t) + 1 ∧
    hasComponent (onComponentDestroyed u e t) e t = false ∧
    (onComponentDestroyed u e t).events.count (Event.componentDestroyed e t) =
      u.events.count (Event.componentDestroyed e t) + 1 ∧
    (hasComponent u e t = true →
      (entAt (onComponentDestroyed u e t) e).components ≠ (entAt u e).components) := by
  have hself : ∀ d : EntityData, entAt (setEntAt u e d) e = d := fun d =>
    entAt_setEntAt_self u d h0 hl
  refine ⟨?_, ?_, ?_, ?_, ?_⟩
  · simp only [onComponentCreated, hasComponent, entAt_pushEvent, hself]
    rw [bne_iff_ne, ne_eq]
    intro hzero
    have hb : ((entAt u e).components ||| 1 <<< t).testBit t = true := by
      rw [Nat.testBit_or, shiftLeft_one, Nat.testBit_two_pow_self, Bool.or_true]
    exact absurd hb (by rw [← and_pow_ne_zero_iff]; simp [hzero])
  · simp [onComponentCreated]
  · simp only [onComponentDestroyed, hasComponent, entAt_pushEvent, hself]
    rw [bne_eq_false_iff_eq]
    have hbit : Nat.testBit (complement64 (1 <<< t)) t = false := by
      rw [complement64, Nat.testBit_xor, Nat.testBit_two_pow_sub_one, shiftLeft_one,
        Nat.testBit_two_pow_self]
      simp [ht]
    rw [shiftLeft_one, Nat.and_two_pow, Nat.testBit_and, ← shiftLeft_one, hbit]
    simp
  · simp [onComponentDestroyed]
  · intro hset
    simp only [onComponentDestroyed, entAt_pushEvent, hself]
    have hbit : ((entAt u e).components).testBit t = true := by
      rw [← and_pow_ne_zero_iff]
      simpa [hasComponent, bne_iff_ne] using hset
    intro he
    have h2 := congrArg (fun x => x.testBit t) he
    simp only at h2
    rw [Nat.testBit_and, complement64, Nat.testBit_xor, Nat.testBit_two_pow_sub_one,
      shiftLeft_one, Nat.testBit_two_pow_self, hbit] at h2
    simp [ht] at h2

/-- C7 witness: the theorem instantiated on `chainU`, entity 0, type 3. -/
theorem claim7_component_mask_and_events_witness :
    hasComponent (onComponentCreated chainU 0 3) 0 3 = true ∧
    (onComponentCreated chainU 0 3).events.count (Event.componentAdded 0 3) =
      chainU.events.count (Event.componentAdded 0 3) + 1 ∧
    hasComponent (onComponentDestroyed chainU 0 3) 0 3 = false ∧
    (onComponentDestroyed chainU 0 3).events.count (Event.componentDestroyed 0 3) =
      chainU.events.count (Event.componentDestroyed 0 3) + 1 ∧
    (hasComponent chainU 0 3 = true →
      (entAt (onComponentDestroyed chainU 0 3) 0).components ≠ (entAt chainU 0).components) :=
  claim7_component_mask_and_events chainU 0 3 (by decide) (by decide) (by decide)

/-- C4: a `setParent(new_parent, child)` call where `new_parent` is a
descendant of `child` (the source's own `isDescendant` tree walk) logs an
error and leaves every registry field — slots, transforms, names, hierarchy,
free-list head — unchanged. -/
theorem claim4_cycle_rejected_unchanged (u : Universe T) (np c : Int)
    (hnp : 0 ≤ np) (hdesc : isDescendant u c np = true) :
    (setParent u np c).entities = u.entities ∧
    (setParent u np c).transforms = u.transforms ∧
    (setParent u np c).names = u.names ∧
    (setParent u np c).hierarchy = u.hierarchy ∧
    (setParent u np c).first_free_slot = u.first_free_slot ∧
    (setParent u np c).events = Event.errorLogged :: u.events := by
  rw [setParent]
  simp [hnp, hdesc]

/-- C4 witness: on `chainU`, reparenting entity 0 under its descendant 1 is
rejected with no state change. -/
theorem claim4_cycle_rejected_unchanged_witness :
    (setParent chainU 1 0).entities = chainU.entities ∧
    (setParent chainU 1 0).transforms = chainU.transforms ∧
    (setParent chainU 1 0).names = chainU.names ∧
    (setParent chainU 1 0).hierarchy = chainU.hierarchy ∧
    (setParent chainU 1 0).first_free_slot = chainU.first_free_slot ∧
    (setParent chainU 1 0).events = Event.errorLogged :: chainU.events :=
  claim4_cycle_rejected_unchanged chainU 1 0 (by decide) (by decide)

theorem list_set_getElem_self {α : Type} (l : List α) (n : Nat) (h : n < l.length) :
    l.set n l[n] = l := by
  apply List.ext_getElem
  · simp
  · intro i h1 h2
    simp only [List.getElem_set]
    split
    · rename_i he; subst he; rfl
    · rfl

theorem setEntAt_entAt_self (u : Universe T) (i : Int)
    (h0 : 0 ≤ i) (hl : i.toNat < u.entities.length) :
    setEntAt u i (entAt u i) = u := by
  have hi : ¬ i < 0 := by omega
  simp only [setEntAt, entAt, hi, if_false, List.getD_eq_getElem?_getD,
    List.getElem?_eq_getElem hl, Option.getD_some]
  rw [list_set_getElem_self _ _ hl]

theorem findByNameGlobal_congr {u v : Universe T} (s : String)
    (hent : entAt v = entAt u) (hh : hierAt v = hierAt u) (l : List EntityName) :
    findByNameGlobal v s l = findByNameGlobal u s l := by
  induction l with
  | nil => rfl
  | cons a l ih => simp only [findByNameGlobal, hent, hh, ih]

theorem findByNameGlobal_append (u : Universe T) (s : String) (l₁ l₂ : List EntityName)
    (h : ∀ n ∈ l₁, ¬(n.name = s ∧ ((entAt u n.entity).hierarchy < 0 ∨
        (hierAt u (entAt u n.entity).hierarchy).parent < 0))) :
    findByNameGlobal u s (l₁ ++ l₂) = findByNameGlobal u s l₂ := by
  induction l₁ with
  | nil => rfl
  | cons a l ih =>
      rw [List.cons_append, findByNameGlobal, if_neg (h a (by simp))]
      exact ih (fun n hn => h n (by simp [hn]))

/-- C10: on an entity `e` that already has a name, `setEntityName(e, "")`
overwrites the stored string in place and does not free the name-table
entry: afterwards `getEntityName e` is `""`, the name table keeps its size
and `e` still owns its slot, and — when `e` is root-level and no earlier
name entry matches — `findByName` with no parent and the empty string
returns `e`. -/
theorem claim10_empty_rename_keeps_slot (u : Universe T) (e : Int)
    (hj0 : 0 ≤ (entAt u e).name)
    (hjlen : (entAt u e).name.toNat < u.names.length)
    (hback : (u.names.getD (entAt u e).name.toNat ⟨-1, ""⟩).entity = e)
    (hroot : (entAt u e).hierarchy < 0 ∨ (hierAt u (entAt u e).hierarchy).parent < 0)
    (hfirst : ∀ n ∈ u.names.take (entAt u e).name.toNat,
      ¬(n.name = "" ∧ ((entAt u n.entity).hierarchy < 0 ∨
          (hierAt u (entAt u n.entity).hierarchy).parent < 0))) :
    getEntityName (setEntityName u e "") e = "" ∧
    (setEntityName u e "").names.length = u.names.length ∧
    (entAt (setEntityName u e "") e).name = (entAt u e).name ∧
    ((setEntityName u e "").names.getD (entAt u e).name.toNat ⟨-1, ""⟩).entity = e ∧
    findByName (setEntityName u e "") (-1) "" = e := by
  have hjneg : ¬ (entAt u e).name < 0 := by omega
  have hue : (setEntityName u e "").entities = u.entities := by
    rw [setEntityName]; simp [hjneg]
  have huh : (setEntityName u e "").hierarchy = u.hierarchy := by
    rw [setEntityName]; simp [hjneg]
  set j := (entAt u e).name.toNat with hjdef
  have hent : entAt (setEntityName u e "") = entAt u := entAt_ext hue
  have hhier : hierAt (setEntityName u e "") = hierAt u := hierAt_ext huh
  have hnames : (setEntityName u e "").names =
      u.names.set j ({ u.names.getD j ⟨-1, ""⟩ with name := "" }) := by
    rw [setEntityName]; simp [hjneg]
  have hgetset : ((u.names.set j ({ u.names.getD j ⟨-1, ""⟩ with name := "" })).getD j ⟨-1, ""⟩) =
      { u.names.getD j ⟨-1, ""⟩ with name := "" } := by
    simp [List.getD_eq_getElem?_getD, List.getElem?_set_self', hjlen, List.getElem?_eq_getElem]
  refine ⟨?_, ?_, ?_, ?_, ?_⟩
  · rw [getEntityName, hent, hnames]
    simp only [hjneg, if_false, ← hjdef, hgetset]
  · rw [hnames]; simp
  · rw [hent]
  · rw [hnames, hgetset]; exact hback
  · rw [findByName]
    norm_num
    rw [findByNameGlobal_congr "" hent hhier, hnames]
    have hsplit : u.names.set j ({ u.names.getD j ⟨-1, ""⟩ with name := "" }) =
        u.names.take j ++ ({ u.names.getD j ⟨-1, ""⟩ with name := "" }) :: u.names.drop (j + 1) := by
      rw [List.set_eq_take_append_cons_drop]; simp [hjlen]
    rw [hsplit, findByNameGlobal_append u "" _ _ hfirst, findByNameGlobal]
    rw [if_pos ⟨rfl, by rw [hback]; exact hroot⟩, hback]

/-- C10 witness: the theorem instantiated on `nameU` and its named root
entity 0. -/
theorem claim10_empty_rename_keeps_slot_witness :
    getEntityName (setEntityName nameU 0 "") 0 = "" ∧
    (setEntityName nameU 0 "").names.length = nameU.names.length ∧
    (entAt (setEntityName nameU 0 "") 0).name = (entAt nameU 0).name ∧
    ((setEntityName nameU 0 "").names.getD (entAt nameU 0).name.toNat ⟨-1, ""⟩).entity = 0 ∧
    findByName (setEntityName nameU 0 "") (-1) "" = 0 :=
  claim10_empty_rename_keeps_slot nameU 0 (by decide) (by decide) (by decide) (by decide)
    (by decide)

/-- C8: if the prefab blob's version is greater than the last supported
version, `instantiatePrefab` logs an error and returns `INVALID_ENTITY`,
leaving the whole registry unchanged (the version check precedes the
entity pre-allocation). -/
theorem claim8_prefab_version_rejected (u : Universe T) (version : Nat)
    (blob : List (PTok T)) (place : T) (hv : version > PrefabVersion.LAST) :
    (instantiatePrefab u (PTok.u32 version :: blob) place).1.entities = u.entities ∧
    (instantiatePrefab u (PTok.u32 version :: blob) place).1.transforms = u.transforms ∧
    (instantiatePrefab u (PTok.u32 version :: blob) place).1.names = u.names ∧
    (instantiatePrefab u (PTok.u32 version :: blob) place).1.hierarchy = u.hierarchy ∧
    (instantiatePrefab u (PTok.u32 version :: blob) place).1.first_free_slot =
      u.first_free_slot ∧
    (instantiatePrefab u (PTok.u32 version :: blob) place).1.events =
      Event.errorLogged :: u.events ∧
    (instantiatePrefab u (PTok.u32 version :: blob) place).2 = -1 := by
  have h1 : instantiatePrefab u (PTok.u32 version :: blob) place =
      (pushEvent u Event.errorLogged, -1) := by
    simp only [instantiatePrefab]
    rw [if_pos hv]
  rw [h1]
  simp [pushEvent]

/-- C8 witness: a version-3 blob is rejected on `chainU` with no state
change. -/
theorem claim8_prefab_version_rejected_witness :
    (instantiatePrefab chainU (PTok.u32 3 :: []) 1).1.entities = chainU.entities ∧
    (instantiatePrefab chainU (PTok.u32 3 :: []) 1).1.transforms = chainU.transforms ∧
    (instantiatePrefab chainU (PTok.u32 3 :: []) 1).1.names = chainU.names ∧
    (instantiatePrefab chainU (PTok.u32 3 :: []) 1).1.hierarchy = chainU.hierarchy ∧
    (instantiatePrefab chainU (PTok.u32 3 :: []) 1).1.first_free_slot =
      chainU.first_free_slot ∧
    (instantiatePrefab chainU (PTok.u32 3 :: []) 1).1.events =
      Event.errorLogged :: chainU.events ∧
    (instantiatePrefab chainU (PTok.u32 3 :: []) 1).2 = -1 :=
  claim8_prefab_version_rejected chainU 3 [] 1 (by decide)

theorem readNames_roundtrip (ns : List EntityName) :
    ∀ (u : Universe T) (rest : List (Tok T)),
    (∀ i, i < ns.length →
      0 ≤ (ns.getD i ⟨-1, ""⟩).entity ∧
      ((ns.getD i ⟨-1, ""⟩).entity).toNat < u.entities.length ∧
      (entAt u (ns.getD i ⟨-1, ""⟩).entity).name = (u.names.length : Int) + i) →
    readNames u ns.length ((ns.flatMap fun n => [Tok.ent n.entity, Tok.str n.name]) ++ rest) =
      some ({ u with names := u.names ++ ns }, rest) := by
  induction ns with
  | nil =>
      intro u rest _
      simp [readNames]
  | cons a ns ih =>
      intro u rest h
      have h0 := h 0 (by simp)
      simp only [List.getD_cons_zero, Nat.cast_zero, add_zero] at h0
      have hents : ({ u with names := u.names ++ [⟨a.entity, a.name⟩] } : Universe T).entities
          = u.entities := rfl
      have hent1 : entAt ({ u with names := u.names ++ [⟨a.entity, a.name⟩] } : Universe T)
          = entAt u := entAt_ext hents
      have hstep : readNames u (ns.length + 1)
          (Tok.ent a.entity :: Tok.str a.name ::
            ((ns.flatMap fun n => [Tok.ent n.entity, Tok.str n.name]) ++ rest)) =
          readNames
            (setEntAt ({ u with names := u.names ++ [⟨a.entity, a.name⟩] } : Universe T)
              a.entity
              ({ entAt ({ u with names := u.names ++ [⟨a.entity, a.name⟩] } : Universe T)
                  a.entity with
                name := (({ u with names := u.names ++ [⟨a.entity, a.name⟩] } :
                  Universe T).names.length : Int) - 1 }))
            ns.length ((ns.flatMap fun n => [Tok.ent n.entity, Tok.str n.name]) ++ rest) := rfl
      have hrec : ({ entAt ({ u with names := u.names ++ [⟨a.entity, a.name⟩] } : Universe T)
          a.entity with
          name := (({ u with names := u.names ++ [⟨a.entity, a.name⟩] } :
            Universe T).names.length : Int) - 1 }) =
          entAt ({ u with names := u.names ++ [⟨a.entity, a.name⟩] } : Universe T) a.entity := by
        have hlen1 : (({ u with names := u.names ++ [⟨a.entity, a.name⟩] } :
            Universe T).names.length : Int) - 1 = (u.names.length : Int) := by simp
        rw [hent1, hlen1, ← h0.2.2]
      simp only [List.length_cons, List.flatMap_cons, List.cons_append, List.nil_append,
        List.append_assoc]
      rw [hstep, hrec,
        setEntAt_entAt_self _ _ h0.1 (by rw [hents]; exact h0.2.1)]
      rw [ih { u with names := u.names ++ [⟨a.entity, a.name⟩] } rest]
      · simp
      · intro i hi
        have hsucc := h (i + 1) (by simpa using Nat.succ_lt_succ hi)
        simp only [List.getD_cons_succ] at hsucc
        refine ⟨hsucc.1, hsucc.2.1, ?_⟩
        rw [hent1, hsucc.2.2]
        simp [add_assoc, add_comm 1 (i : Int)]

theorem deserializeRest_spec (v : Universe T) (hvn : v.names = [])
    (ns : List EntityName) (ffs : Int) (hs : List (Hierarchy T))
    (h : ∀ i, i < ns.length →
      0 ≤ (ns.getD i ⟨-1, ""⟩).entity ∧
      ((ns.getD i ⟨-1, ""⟩).entity).toNat < v.entities.length ∧
      (entAt v (ns.getD i ⟨-1, ""⟩).entity).name = (i : Int)) :
    deserializeRest v
      (Tok.int (ns.length : Int) ::
        ((ns.flatMap fun n => [Tok.ent n.entity, Tok.str n.name]) ++
          (Tok.int ffs :: Tok.int (hs.length : Int) ::
            (if hs.length ≠ 0 then [Tok.hierBlock hs] else [])))) =
      some { v with names := ns, first_free_slot := ffs, hierarchy := hs } := by
  rw [deserializeRest]
  have hcast : ((ns.length : Int)).toNat = ns.length := Int.toNat_natCast _
  rw [hcast]
  rw [readNames_roundtrip ns v _ (by
    intro i hi
    have hh := h i hi
    refine ⟨hh.1, hh.2.1, ?_⟩
    rw [hvn]
    simpa using hh.2.2)]
  rcases hs.eq_nil_or_concat with hnil | ⟨l, a, hcat⟩
  · subst hnil
    simp [hvn]
  · have hpos : hs.length ≠ 0 := by rw [hcat]; simp
    have hposI : ¬ ((hs.length : Int) ≤ 0) := by
      simp only [not_le]
      exact_mod_cast Nat.pos_of_ne_zero hpos
    simp only [hpos, ne_eq, not_false_iff, if_true]
    simp [hposI, hvn]

/-- C5: serializing a universe's skeleton — entity record array, transform
array, name table, free-list head, hierarchy table — and deserializing the
stream into a fresh universe reproduces identical entities, world
transforms, names (with the name-index back-references reconstructed),
hierarchy and free-list head.  The hypotheses are the source's standing
invariants: the transform store parallels the slot table, and the name
table's back-references are consistent. -/
theorem claim5_skeleton_roundtrip (u : Universe T)
    (hlen : u.transforms.length = u.entities.length)
    (hnames : ∀ i, i < u.names.length →
      0 ≤ (u.names.getD i ⟨-1, ""⟩).entity ∧
      ((u.names.getD i ⟨-1, ""⟩).entity).toNat < u.entities.length ∧
      (entAt u (u.names.getD i ⟨-1, ""⟩).entity).name = (i : Int)) :
    deserialize (emptyUniverse : Universe T) (serialize u) =
      some { entities := u.entities, transforms := u.transforms, names := u.names,
             hierarchy := u.hierarchy, first_free_slot := u.first_free_slot,
             events := [] } := by
  by_cases he : u.entities.length = 0
  · have hel : u.entities = [] := List.length_eq_zero.mp he
    have htl : u.transforms = [] := List.length_eq_zero.mp (by rw [hlen, he])
    have hnl : u.names = [] := by
      cases hn : u.names with
      | nil => rfl
      | cons a l =>
          exfalso
          have hlt := (hnames 0 (by rw [hn]; simp)).2.1
          omega
    have hser : serialize u = Tok.int ((0 : Nat) : Int) ::
        (Tok.int (((List.nil : List EntityName)).length : Int) ::
          ((((List.nil : List EntityName)).flatMap
              fun n => [Tok.ent n.entity, Tok.str n.name]) ++
            (Tok.int u.first_free_slot :: Tok.int (u.hierarchy.length : Int) ::
              (if u.hierarchy.length ≠ 0 then [Tok.hierBlock u.hierarchy] else [])))) := by
      rw [serialize, hel, htl, hnl]
      simp
    have hv0 : ({ emptyUniverse with entities := [], transforms := [] } : Universe T).names = [] := rfl
    have hspec := deserializeRest_spec ({ emptyUniverse with entities := [], transforms := [] } : Universe T) hv0 [] u.first_free_slot u.hierarchy (by intro i hi; simp at hi)
    rw [hser]
    simp only [deserialize]
    rw [if_pos (by norm_num), hspec, hel, htl, hnl]
    rfl
  · have hposI : ¬ ((u.entities.length : Int) ≤ 0) := by
      simp only [not_le]
      exact_mod_cast Nat.pos_of_ne_zero he
    have hser : serialize u = Tok.int (u.entities.length : Int) ::
        Tok.entBlock u.entities :: Tok.trBlock u.transforms ::
        (Tok.int (u.names.length : Int) ::
          ((u.names.flatMap fun n => [Tok.ent n.entity, Tok.str n.name]) ++
            (Tok.int u.first_free_slot :: Tok.int (u.hierarchy.length : Int) ::
              (if u.hierarchy.length ≠ 0 then [Tok.hierBlock u.hierarchy] else [])))) := by
      rw [serialize]
      simp [he]
    have hv0 : ({ emptyUniverse with entities := u.entities, transforms := u.transforms } : Universe T).names = [] := rfl
    have hent0 : entAt ({ emptyUniverse with entities := u.entities, transforms := u.transforms } : Universe T) = entAt u := entAt_ext rfl
    have hspec := deserializeRest_spec ({ emptyUniverse with entities := u.entities, transforms := u.transforms } : Universe T) hv0 u.names u.first_free_slot u.hierarchy (by
      intro i hi
      have hh := hnames i hi
      exact ⟨hh.1, hh.2.1, by rw [hent0]; exact hh.2.2⟩)
    rw [hser]
    simp only [deserialize]
    rw [if_neg hposI, if_pos ⟨trivial, by rw [hlen]⟩, hspec]
    rfl

/-- C5 witness: the round trip on `nameU` (two entities, one name entry, a
two-node hierarchy). -/
theorem claim5_skeleton_roundtrip_witness :
    deserialize (emptyUniverse : Universe (Multiplicative ℤ)) (serialize nameU) =
      some { entities := nameU.entities, transforms := nameU.transforms,
             names := nameU.names, hierarchy := nameU.hierarchy,
             first_free_slot := nameU.first_free_slot, events := [] } :=
  claim5_skeleton_roundtrip nameU (by decide) (by decide)

theorem parStep_neg (u : Universe T) {e : Int} (h : e < 0) : parStep u e = -1 := by
  simp [parStep, h]

theorem parIter_neg_one (u : Universe T) : ∀ n, parIter u n (-1) = -1 := by
  intro n
  induction n with
  | zero => rfl
  | succ n ih => rw [parIter, parStep_neg u (by norm_num)]; exact ih

theorem parIter_add (u : Universe T) (m n : Nat) (e : Int) :
    parIter u (m + n) e = parIter u n (parIter u m e) := by
  induction m generalizing e with
  | zero => rw [Nat.zero_add]; rfl
  | succ m ih => rw [Nat.succ_add, parIter, parIter, ih]

theorem parIter_neg (u : Universe T) {e : Int} (h : e < 0) {n : Nat} (hn : 0 < n) :
    parIter u n e = -1 := by
  cases n with
  | zero => omega
  | succ n => rw [parIter, parStep_neg u h, parIter_neg_one]

theorem getParent_oob (u : Universe T) {e : Int} (h : (u.entities.length : Int) ≤ e) :
    getParent u e = -1 := by
  have h0 : ¬ e < 0 := by
    have := Int.natCast_nonneg u.entities.length
    omega
  have : entAt u e = default := by
    rw [entAt, if_neg h0, List.getD_eq_getElem?_getD, List.getElem?_eq_none (by omega)]
    rfl
  rw [getParent, this]
  rfl

theorem rooted_all (u : Universe T) (hr : WFRooted u) :
    ∀ e, parIter u (u.entities.length + 1) e = -1 := by
  intro e
  by_cases h0 : e < 0
  · exact parIter_neg u h0 (by omega)
  · by_cases h1 : e.toNat < u.entities.length
    · have he : e = ((e.toNat : Nat) : Int) := by omega
      rw [he]; exact hr e.toNat h1
    · have hoob : (u.entities.length : Int) ≤ e := by omega
      have h2 : parStep u e = -1 := by rw [parStep, if_neg h0, getParent_oob u hoob]
      rw [parIter, h2, parIter_neg_one]

theorem rooted_ge (u : Universe T) (hr : WFRooted u) {n : Nat}
    (hn : u.entities.length + 1 ≤ n) (e : Int) : parIter u n e = -1 := by
  obtain ⟨k, hk⟩ := Nat.exists_eq_add_of_le hn
  rw [hk, parIter_add, rooted_all u hr, parIter_neg_one]

theorem depth_bound (u : Universe T) (hr : WFRooted u) {x e : Int} {n : Nat}
    (h : parIter u n x = e) (he : 0 ≤ e) : n < u.entities.length + 1 := by
  by_contra hn
  rw [rooted_ge u hr (by omega)] at h
  omega

theorem parIter_mul (u : Universe T) (k m : Nat) {e : Int} (h : parIter u m e = e) :
    parIter u (k * m) e = e := by
  induction k with
  | zero => rw [Nat.zero_mul]; rfl
  | succ k ih => rw [Nat.succ_mul, parIter_add, ih, h]

theorem no_cycle (u : Universe T) (hr : WFRooted u) {e : Int} (he : 0 ≤ e) {m : Nat}
    (hm : 0 < m) : parIter u m e ≠ e := by
  intro h
  have h2 := parIter_mul u (u.entities.length + 1) m h
  rw [rooted_ge u hr (by nlinarith)] at h2
  omega

theorem desc_nonneg (u : Universe T) {a c : Int} (h : DescP u a c) : 0 ≤ c := by
  obtain ⟨ha, n, hn, hiter⟩ := h
  by_contra hc
  rw [parIter_neg u (by omega) hn] at hiter
  omega

theorem desc_irrefl (u : Universe T) (hr : WFRooted u) {e : Int} (he : 0 ≤ e) :
    ¬ DescP u e e := by
  rintro ⟨_, n, hn, hiter⟩
  exact no_cycle u hr he hn hiter

theorem desc_trans (u : Universe T) {a b c : Int} (h1 : DescP u a b) (h2 : DescP u b c) :
    DescP u a c := by
  obtain ⟨ha, n, hn, hi1⟩ := h1
  obtain ⟨hb, m, hm, hi2⟩ := h2
  exact ⟨ha, m + n, by omega, by rw [parIter_add, hi2, hi1]⟩

theorem parent_desc (u : Universe T) {a c : Int} (hc : 0 ≤ c) (ha : 0 ≤ a)
    (h : getParent u c = a) : DescP u a c :=
  ⟨ha, 1, by omega, by rw [parIter, parIter, parStep, if_neg (by omega), h]⟩

theorem desc_child_anc (u : Universe T) {e x : Int} (h : DescP u e x) :
    ∃ y, 0 ≤ y ∧ getParent u y = e ∧ (y = x ∨ DescP u y x) := by
  obtain ⟨he, n, hn, hiter⟩ := h
  obtain ⟨m, hm⟩ := Nat.exists_eq_add_of_le hn
  refine ⟨parIter u m x, ?_, ?_, ?_⟩
  · by_contra hneg
    have : parIter u (m + 1) x = -1 := by
      rw [parIter_add, parIter, parStep_neg u (by omega), parIter_neg_one]
    rw [hm, Nat.add_comm 1 m] at hiter
    rw [hiter] at this
    omega
  · by_contra hneq
    have h1 : parIter u (m + 1) x = e := by rw [← Nat.add_comm 1 m, ← hm]; exact hiter
    rw [parIter_add, parIter, parIter] at h1
    by_cases hy : parIter u m x < 0
    · rw [parStep_neg u hy] at h1; omega
    · rw [parStep, if_neg hy] at h1
      exact hneq h1
  · cases m with
    | zero => exact Or.inl rfl
    | succ m =>
        refine Or.inr ⟨?_, m + 1, by omega, rfl⟩
        by_contra hneg
        have : parIter u (m + 1 + 1) x = -1 := by
          rw [parIter_add, parIter, parStep_neg u (by omega), parIter_neg_one]
        rw [hm, Nat.add_comm 1 (m + 1)] at hiter
        rw [hiter] at this
        omega

theorem parIter_linear (u : Universe T) {x c y : Int} {n m : Nat}
    (h1 : parIter u n x = c) (h2 : parIter u m x = y) (hle : n ≤ m) :
    parIter u (m - n) c = y := by
  obtain ⟨k, hk⟩ := Nat.exists_eq_add_of_le hle
  subst hk
  rw [parIter_add, h1] at h2
  simpa using h2

theorem sibStep_neg (u : Universe T) {e : Int} (h : e < 0) : sibStep u e = -1 := by
  simp [sibStep, h]

theorem sibIterN_neg_one (u : Universe T) : ∀ n, sibIterN u n (-1) = -1 := by
  intro n
  induction n with
  | zero => rfl
  | succ n ih => rw [sibIterN, sibStep_neg u (by norm_num)]; exact ih

theorem sibIterN_add (u : Universe T) (m n : Nat) (e : Int) :
    sibIterN u (m + n) e = sibIterN u n (sibIterN u m e) := by
  induction m generalizing e with
  | zero => rw [Nat.zero_add]; rfl
  | succ m ih => rw [Nat.succ_add, sibIterN, sibIterN, ih]

theorem sibIterN_mul (u : Universe T) (k m : Nat) {e : Int} (h : sibIterN u m e = e) :
    sibIterN u (k * m) e = e := by
  induction k with
  | zero => rw [Nat.zero_mul]; rfl
  | succ k ih => rw [Nat.succ_mul, sibIterN_add, ih, h]

theorem sibIterN_ge (u : Universe T) {F : Nat} {c : Int} (hterm : sibIterN u F c = -1)
    {n : Nat} (hn : F ≤ n) : sibIterN u n c = -1 := by
  obtain ⟨k, hk⟩ := Nat.exists_eq_add_of_le hn
  rw [hk, sibIterN_add, hterm, sibIterN_neg_one]

theorem sib_no_cycle (u : Universe T) {F : Nat} {c : Int} (hterm : sibIterN u F c = -1)
    {e : Int} (he : 0 ≤ e) {j : Nat} (hreach : sibIterN u j c = e) {m : Nat} (hm : 0 < m) :
    sibIterN u m e ≠ e := by
  intro h
  have h2 := sibIterN_mul u (F + 1) m h
  have h3 : sibIterN u (j + (F + 1) * m) c = e := by
    rw [sibIterN_add, hreach, h2]
  rw [sibIterN_ge u hterm (by nlinarith)] at h3
  omega

theorem linksEq_refl (u : Universe T) : LinksEq u u :=
  ⟨rfl, rfl, rfl, rfl, rfl, fun _ => ⟨rfl, rfl, rfl, rfl⟩⟩

theorem linksEq_trans {w v u : Universe T} (h1 : LinksEq w v) (h2 : LinksEq v u) :
    LinksEq w u := by
  obtain ⟨a1, b1, c1, d1, e1, f1⟩ := h1
  obtain ⟨a2, b2, c2, d2, e2, f2⟩ := h2
  refine ⟨a1.trans a2, b1.trans b2, c1.trans c2, d1.trans d2, e1.trans e2, fun k => ?_⟩
  obtain ⟨p1, q1, r1, s1⟩ := f1 k
  obtain ⟨p2, q2, r2, s2⟩ := f2 k
  exact ⟨p1.trans p2, q1.trans q2, r1.trans r2, s1.trans s2⟩

theorem entAt_of_linksEq {v u : Universe T} (h : LinksEq v u) : entAt v = entAt u :=
  entAt_ext h.1

theorem getParent_of_linksEq {v u : Universe T} (h : LinksEq v u) :
    getParent v = getParent u := by
  funext e
  rw [getParent, getParent, entAt_of_linksEq h, ((h.2.2.2.2.2) (entAt u e).hierarchy).2.1]

theorem getFirstChild_of_linksEq {v u : Universe T} (h : LinksEq v u) :
    getFirstChild v = getFirstChild u := by
  funext e
  rw [getFirstChild, getFirstChild, entAt_of_linksEq h,
    ((h.2.2.2.2.2) (entAt u e).hierarchy).2.2.1]

theorem getNextSibling_of_linksEq {v u : Universe T} (h : LinksEq v u) :
    getNextSibling v = getNextSibling u := by
  funext e
  rw [getNextSibling, getNextSibling, entAt_of_linksEq h,
    ((h.2.2.2.2.2) (entAt u e).hierarchy).2.2.2]

theorem parStep_of_linksEq {v u : Universe T} (h : LinksEq v u) : parStep v = parStep u := by
  funext e
  rw [parStep, parStep, getParent_of_linksEq h]

theorem parIter_of_linksEq {v u : Universe T} (h : LinksEq v u) : parIter v = parIter u := by
  funext n
  induction n with
  | zero => rfl
  | succ n ih =>
      funext e
      rw [parIter, parIter, parStep_of_linksEq h, ih]

theorem sibStep_of_linksEq {v u : Universe T} (h : LinksEq v u) : sibStep v = sibStep u := by
  funext e
  rw [sibStep, sibStep, getNextSibling_of_linksEq h]

theorem sibIterN_of_linksEq {v u : Universe T} (h : LinksEq v u) : sibIterN v = sibIterN u := by
  funext n
  induction n with
  | zero => rfl
  | succ n ih =>
      funext e
      rw [sibIterN, sibIterN, sibStep_of_linksEq h, ih]

theorem descP_of_linksEq {v u : Universe T} (h : LinksEq v u) : DescP v = DescP u := by
  funext a c
  rw [DescP, DescP, parIter_of_linksEq h]

theorem sibReach_of_linksEq {v u : Universe T} (h : LinksEq v u) : SibReach v = SibReach u := by
  funext c y
  rw [SibReach, SibReach, sibIterN_of_linksEq h]

theorem sibDescP_of_linksEq {v u : Universe T} (h : LinksEq v u) : SibDescP v = SibDescP u := by
  funext c i
  rw [SibDescP, SibDescP, sibReach_of_linksEq h, descP_of_linksEq h]

theorem chainL_of_linksEq {v u : Universe T} (h : LinksEq v u) : chainL v = chainL u := by
  funext n
  induction n with
  | zero => rfl
  | succ n ih =>
      funext c
      rw [chainL, chainL, getNextSibling_of_linksEq h, ih]

theorem childrenOf_of_linksEq {v u : Universe T} (h : LinksEq v u) :
    childrenOf v = childrenOf u := by
  funext p
  rw [childrenOf, childrenOf, chainL_of_linksEq h, getFirstChild_of_linksEq h,
    congrArg List.length h.1]

theorem localOf_eq_hier {u : Universe T} {x : Int} (hx : 0 ≤ (entAt u x).hierarchy) :
    localOf u x = (hierAt u (entAt u x).hierarchy).local_transform := by
  rw [localOf, if_neg (by omega)]

theorem wf_of_linksEq {v u : Universe T} (h : LinksEq v u) (hwf : WF u) : WF v := by
  obtain ⟨w1, w2, w3, w4, w5, w6, w7, w8⟩ := hwf
  have hlen : v.entities.length = u.entities.length := by rw [h.1]
  have hhl : v.hierarchy.length = u.hierarchy.length := h.2.2.2.2.1
  refine ⟨?_, ?_, ?_, ?_, ?_, ?_, ?_, ?_⟩
  · rw [h.2.2.2.1, hlen, w1]
  · rw [hhl, hlen]; exact w2
  · intro k hk
    rw [hhl] at hk
    rw [entAt_of_linksEq h, ((h.2.2.2.2.2) (k : Int)).1, hlen]
    exact w3 k hk
  · intro i hi
    rw [hlen] at hi
    rw [entAt_of_linksEq h, hhl, ((h.2.2.2.2.2) ((entAt u (i : Int)).hierarchy)).1]
    exact w4 i hi
  · intro k hk
    rw [hhl] at hk
    rw [((h.2.2.2.2.2) (k : Int)).2.1, ((h.2.2.2.2.2) (k : Int)).1,
      entAt_of_linksEq h, childrenOf_of_linksEq h, hlen]
    exact w5 k hk
  · intro k hk
    rw [hhl] at hk
    rw [((h.2.2.2.2.2) (k : Int)).1, childrenOf_of_linksEq h, entAt_of_linksEq h,
      getParent_of_linksEq h, hlen]
    exact w6 k hk
  · intro k hk
    rw [hhl] at hk
    rw [sibIterN_of_linksEq h, ((h.2.2.2.2.2) (k : Int)).2.2.1, hlen]
    exact w7 k hk
  · intro i hi
    rw [hlen] at hi
    rw [parIter_of_linksEq h, hlen]
    exact w8 i hi

theorem setHierAt_oob (u : Universe T) {i : Int} (h : u.hierarchy.length ≤ i.toNat)
    (x : Hierarchy T) : setHierAt u i x = u := by
  rw [setHierAt]
  split
  · rfl
  · rw [List.set_eq_of_length_le h]

theorem linksEq_pushEvent (u : Universe T) (e : Event) : LinksEq (pushEvent u e) u :=
  ⟨rfl, rfl, rfl, rfl, rfl, fun _ => ⟨rfl, rfl, rfl, rfl⟩⟩

theorem linksEq_setTrAt (u : Universe T) (i : Int) (t : T) : LinksEq (setTrAt u i t) u := by
  refine ⟨setTrAt_entities u i t, setTrAt_names u i t, setTrAt_first_free_slot u i t,
    ?_, congrArg List.length (setTrAt_hierarchy u i t), fun k => ?_⟩
  · rw [setTrAt]; split <;> simp
  · rw [hierAt_ext (setTrAt_hierarchy u i t)]
    exact ⟨rfl, rfl, rfl, rfl⟩

theorem linksEq_setLocal (u : Universe T) (k : Int) (x : T) :
    LinksEq (setHierAt u k ({ hierAt u k with local_transform := x })) u := by
  refine ⟨setHierAt_entities u k _, setHierAt_names u k _, setHierAt_first_free_slot u k _,
    congrArg List.length (setHierAt_transforms u k _), ?_, fun j => ?_⟩
  · rw [setHierAt]; split <;> simp
  · by_cases hk : j = k
    · subst hk
      by_cases h0 : j < 0
      · rw [setHierAt, if_pos h0]
        exact ⟨rfl, rfl, rfl, rfl⟩
      · by_cases hl : j.toNat < u.hierarchy.length
        · rw [hierAt_setHierAt_self u _ (by omega) hl]
          exact ⟨rfl, rfl, rfl, rfl⟩
        · rw [setHierAt_oob u (by omega)]
          exact ⟨rfl, rfl, rfl, rfl⟩
    · rw [hierAt_setHierAt_ne u _ hk]
      exact ⟨rfl, rfl, rfl, rfl⟩

theorem te_tc_linksEq : ∀ fuel : Nat,
    (∀ (u : Universe T) e b, LinksEq (transformEntityF fuel u e b) u) ∧
    (∀ sib (u : Universe T) t c, LinksEq (transformChildrenF fuel sib u t c) u) := by
  intro fuel
  induction fuel using Nat.strong_induction_on with
  | _ fuel ih =>
    have hte : ∀ (u : Universe T) e b, LinksEq (transformEntityF fuel u e b) u := by
      intro u e b
      cases fuel with
      | zero => rw [transformEntityF]; exact linksEq_refl u
      | succ f =>
          simp only [transformEntityF]
          split
          · exact linksEq_pushEvent u _
          · split
            · exact linksEq_trans ((ih f (by omega)).2 _ _ _ _)
                (linksEq_trans (linksEq_setLocal _ _ _) (linksEq_pushEvent u _))
            · exact linksEq_trans ((ih f (by omega)).2 _ _ _ _) (linksEq_pushEvent u _)
    refine ⟨hte, ?_⟩
    intro sib
    induction sib with
    | zero => intro u t c; rw [transformChildrenF]; exact linksEq_refl u
    | succ sib ihs =>
        intro u t c
        simp only [transformChildrenF]
        split
        · exact linksEq_refl u
        · exact linksEq_trans (ihs _ _ _)
            (linksEq_trans (hte _ _ _) (linksEq_setTrAt _ _ _))

theorem te_tc_hier : ∀ fuel : Nat,
    (∀ (u : Universe T) e, (transformEntityF fuel u e false).hierarchy = u.hierarchy) ∧
    (∀ sib (u : Universe T) t c,
      (transformChildrenF fuel sib u t c).hierarchy = u.hierarchy) := by
  intro fuel
  induction fuel using Nat.strong_induction_on with
  | _ fuel ih =>
    have hte : ∀ (u : Universe T) e,
        (transformEntityF fuel u e false).hierarchy = u.hierarchy := by
      intro u e
      cases fuel with
      | zero => rw [transformEntityF]
      | succ f =>
          simp only [transformEntityF]
          split
          · rfl
          · split
            · simp_all
            · rw [(ih f (by omega)).2]
              rfl
    refine ⟨hte, ?_⟩
    intro sib
    induction sib with
    | zero => intro u t c; rw [transformChildrenF]
    | succ sib ihs =>
        intro u t c
        simp only [transformChildrenF]
        split
        · rfl
        · rw [ihs, hte, setTrAt_hierarchy]

theorem sibReach_self (u : Universe T) {c : Int} (hc : 0 ≤ c) : SibReach u c c :=
  ⟨hc, 0, rfl⟩

theorem sibReach_tail (u : Universe T) {c x : Int} (hc : 0 ≤ c)
    (h : SibReach u (getNextSibling u c) x) : SibReach u c x := by
  obtain ⟨hx, m, hm⟩ := h
  refine ⟨hx, m + 1, ?_⟩
  rw [Nat.add_comm, sibIterN_add, sibIterN, sibIterN, sibStep, if_neg (by omega)]
  exact hm

theorem sibReach_of_mem_chainL (u : Universe T) {x : Int} :
    ∀ {n : Nat} {c : Int}, x ∈ chainL u n c → SibReach u c x := by
  intro n
  induction n with
  | zero => intro c h; simp [chainL] at h
  | succ n ih =>
      intro c h
      rw [chainL] at h
      by_cases hc : c < 0
      · rw [if_pos hc] at h; simp at h
      · rw [if_neg hc] at h
        rcases List.mem_cons.mp h with hx | hx
        · subst hx; exact sibReach_self u (by omega)
        · exact sibReach_tail u (by omega) (ih hx)

theorem mem_chainL_of_sibReach (u : Universe T) {x : Int} :
    ∀ {F : Nat} {c : Int}, sibIterN u F c = -1 → SibReach u c x → x ∈ chainL u F c := by
  intro F
  induction F with
  | zero =>
      intro c hterm hreach
      obtain ⟨hx, m, hm⟩ := hreach
      rw [sibIterN] at hterm
      subst hterm
      rw [sibIterN_neg_one] at hm
      omega
  | succ F ih =>
      intro c hterm hreach
      obtain ⟨hx, m, hm⟩ := hreach
      by_cases hc : c < 0
      · exfalso
        cases m with
        | zero => rw [sibIterN] at hm; omega
        | succ m =>
            rw [sibIterN, sibStep_neg u hc, sibIterN_neg_one] at hm
            omega
      · rw [chainL, if_neg hc]
        cases m with
        | zero => rw [sibIterN] at hm; subst hm; exact List.mem_cons_self _ _
        | succ m =>
            rw [sibIterN, sibStep, if_neg hc] at hm
            rw [sibIterN, sibStep, if_neg hc] at hterm
            exact List.mem_cons_of_mem _ (ih hterm ⟨hx, m, hm⟩)

theorem entAt_neg (u : Universe T) {x : Int} (h : x < 0) : entAt u x = default := by
  simp [entAt, h]

theorem entAt_oob (u : Universe T) {x : Int} (h : u.entities.length ≤ x.toNat) :
    entAt u x = default := by
  rw [entAt]
  split
  · rfl
  · rw [List.getD_eq_getElem?_getD, List.getElem?_eq_none h]; rfl

theorem hierAt_neg (u : Universe T) {x : Int} (h : x < 0) : hierAt u x = default := by
  simp [hierAt, h]

theorem hierAt_oob (u : Universe T) {x : Int} (h : u.hierarchy.length ≤ x.toNat) :
    hierAt u x = default := by
  rw [hierAt]
  split
  · rfl
  · rw [List.getD_eq_getElem?_getD, List.getElem?_eq_none h]; rfl

theorem int_toNat_cast {i : Int} (h : 0 ≤ i) : ((i.toNat : Nat) : Int) = i :=
  Int.toNat_of_nonneg h

theorem bounds_of_node (u : Universe T) {p : Int} (h : 0 ≤ (entAt u p).hierarchy) :
    0 ≤ p ∧ p.toNat < u.entities.length := by
  by_cases h0 : p < 0
  · rw [entAt_neg u h0] at h
    exact absurd h (by decide)
  · refine ⟨by omega, ?_⟩
    by_contra hl
    rw [entAt_oob u (by omega)] at h
    exact absurd h (by decide)

theorem getParent_no_node (u : Universe T) {x : Int} (h : (entAt u x).hierarchy < 0) :
    getParent u x = -1 := by
  rw [getParent, if_pos h]

theorem getParent_node (u : Universe T) {x : Int} (h : 0 ≤ (entAt u x).hierarchy) :
    getParent u x = (hierAt u (entAt u x).hierarchy).parent := by
  rw [getParent, if_neg (by omega)]

theorem getFirstChild_no_node (u : Universe T) {x : Int} (h : (entAt u x).hierarchy < 0) :
    getFirstChild u x = -1 := by
  rw [getFirstChild, if_pos h]

theorem getFirstChild_node (u : Universe T) {x : Int} (h : 0 ≤ (entAt u x).hierarchy) :
    getFirstChild u x = (hierAt u (entAt u x).hierarchy).first_child := by
  rw [getFirstChild, if_neg (by omega)]

theorem getNextSibling_node (u : Universe T) {x : Int} (h : 0 ≤ (entAt u x).hierarchy) :
    getNextSibling u x = (hierAt u (entAt u x).hierarchy).next_sibling := by
  rw [getNextSibling, if_neg (by omega)]

theorem node_bound_of_wf (u : Universe T) (hwf : WF u) {p : Int}
    (hn : 0 ≤ (entAt u p).hierarchy) :
    (entAt u p).hierarchy.toNat < u.hierarchy.length ∧
    (hierAt u (entAt u p).hierarchy).entity = p := by
  obtain ⟨hp0, hpl⟩ := bounds_of_node u hn
  have h4 := hwf.2.2.2.1 p.toNat hpl
  rw [int_toNat_cast hp0] at h4
  rcases h4 with h4 | h4
  · omega
  · exact h4

theorem parent_nonneg_of_getParent (u : Universe T) {x : Int} (h : 0 ≤ getParent u x) :
    0 ≤ (entAt u x).hierarchy := by
  by_contra hn
  rw [getParent_no_node u (by omega)] at h
  omega

theorem children_sound (u : Universe T) (hwf : WF u) {p x : Int}
    (hn : 0 ≤ (entAt u p).hierarchy) (hx : x ∈ childrenOf u p) :
    0 ≤ x ∧ x.toNat < u.entities.length ∧ 0 ≤ (entAt u x).hierarchy ∧ getParent u x = p := by
  obtain ⟨hk, hent⟩ := node_bound_of_wf u hwf hn
  have h6 := hwf.2.2.2.2.2.1 (entAt u p).hierarchy.toNat hk
  rw [int_toNat_cast hn, hent] at h6
  exact h6 x hx

theorem children_complete (u : Universe T) (hwf : WF u) {p x : Int}
    (hx0 : 0 ≤ x) (hpar : getParent u x = p) (hp0 : 0 ≤ p) :
    x ∈ childrenOf u p := by
  have hnx : 0 ≤ (entAt u x).hierarchy := parent_nonneg_of_getParent u (by omega)
  obtain ⟨hk, hentx⟩ := node_bound_of_wf u hwf hnx
  have h5 := hwf.2.2.2.2.1 (entAt u x).hierarchy.toNat hk
  rw [int_toNat_cast hnx, hentx] at h5
  rw [getParent_node u hnx] at hpar
  rcases h5 with h5 | h5
  · omega
  · rw [hpar] at h5
    exact h5.2.2

theorem chain_term_first_child (u : Universe T) (hwf : WF u) (p : Int) :
    sibIterN u (u.entities.length + 1) (getFirstChild u p) = -1 := by
  by_cases h : 0 ≤ (entAt u p).hierarchy
  · obtain ⟨hk, _⟩ := node_bound_of_wf u hwf h
    have h7 := hwf.2.2.2.2.2.2.1 (entAt u p).hierarchy.toNat hk
    rw [int_toNat_cast h] at h7
    rw [getFirstChild_node u h]
    exact h7
  · rw [getFirstChild_no_node u (by omega), sibIterN_neg_one]

theorem sibReach_first_child_sound (u : Universe T) (hwf : WF u) {p y : Int}
    (hn : 0 ≤ (entAt u p).hierarchy) (hy : SibReach u (getFirstChild u p) y) :
    0 ≤ y ∧ y.toNat < u.entities.length ∧ 0 ≤ (entAt u y).hierarchy ∧ getParent u y = p := by
  have hterm := chain_term_first_child u hwf p
  exact children_sound u hwf hn (mem_chainL_of_sibReach u hterm hy)

theorem desc_has_node (u : Universe T) (hwf : WF u) {e x : Int} (h : DescP u e x) :
    0 ≤ (entAt u e).hierarchy := by
  obtain ⟨y, hy0, hpar, _⟩ := desc_child_anc u h
  have he : 0 ≤ e := h.1
  have hny : 0 ≤ (entAt u y).hierarchy := parent_nonneg_of_getParent u (by omega)
  obtain ⟨hk, hent⟩ := node_bound_of_wf u hwf hny
  have h5 := hwf.2.2.2.2.1 (entAt u y).hierarchy.toNat hk
  rw [int_toNat_cast hny, hent] at h5
  rw [getParent_node u hny] at hpar
  rcases h5 with h5 | h5
  · omega
  · rw [hpar] at h5
    exact h5.2.1

theorem desc_mem_subtree (u : Universe T) (hwf : WF u) {e x : Int} (h : DescP u e x) :
    SibDescP u (getFirstChild u e) x := by
  obtain ⟨y, hy0, hpar, hcase⟩ := desc_child_anc u h
  have hne : 0 ≤ (entAt u e).hierarchy := desc_has_node u hwf h
  have hmem : y ∈ childrenOf u e := children_complete u hwf hy0 hpar h.1
  have hreach : SibReach u (getFirstChild u e) y := by
    rw [childrenOf] at hmem
    exact sibReach_of_mem_chainL u hmem
  exact ⟨y, hreach, hcase⟩

theorem sibDescP_sub_desc (u : Universe T) (hwf : WF u) {e x : Int}
    (hne : 0 ≤ (entAt u e).hierarchy) (he0 : 0 ≤ e)
    (h : SibDescP u (getFirstChild u e) x) : DescP u e x := by
  obtain ⟨y, hy, hcase⟩ := h
  obtain ⟨hy0, _, _, hpar⟩ := sibReach_first_child_sound u hwf hne hy
  have hdy : DescP u e y := parent_desc u hy0 he0 hpar
  rcases hcase with rfl | hd
  · exact hdy
  · exact desc_trans u hdy hd

theorem sib_no_return (u : Universe T) {s : Nat} {c : Int}
    (hterm : sibIterN u (s + 1) c = -1) (hc : 0 ≤ c) {j : Nat}
    (h : sibIterN u j (getNextSibling u c) = c) : False := by
  have hcyc : sibIterN u (j + 1) c = c := by
    rw [Nat.add_comm, sibIterN_add, sibIterN, sibIterN, sibStep, if_neg (by omega)]
    exact h
  exact sib_no_cycle u hterm hc (j := 0) rfl (by omega) hcyc

theorem no_self_parent (u : Universe T) (hr : WFRooted u) {e : Int} (he : 0 ≤ e)
    (h : getParent u e = e) : False := by
  refine no_cycle u hr he (m := 1) (by omega) ?_
  rw [parIter, parIter, parStep, if_neg (by omega), h]

theorem parent_no_desc (u : Universe T) (hr : WFRooted u) {y e0 : Int} (hy : 0 ≤ y)
    (hp : getParent u y = e0) (h : DescP u y e0) : False := by
  obtain ⟨hy', m, hm, hiter⟩ := h
  have : parIter u (m + 1) e0 = e0 := by
    rw [parIter_add, hiter, parIter, parIter, parStep, if_neg (by omega), hp]
  exact no_cycle u hr (desc_nonneg u ⟨hy', m, hm, hiter⟩) (by omega) this

theorem sibling_not_desc (u : Universe T) (hr : WFRooted u) {c y e0 : Int}
    (hc : 0 ≤ c) (hy : 0 ≤ y) (hpc : getParent u c = e0) (hpy : getParent u y = e0)
    (h : DescP u y c) : False := by
  obtain ⟨hy', m, hm, hiter⟩ := h
  have h1 : parIter u 1 c = e0 := by
    rw [parIter, parIter, parStep, if_neg (by omega), hpc]
  rcases Nat.lt_or_ge 1 m with hm1 | hm1
  · have h2 := parIter_linear u h1 hiter (by omega)
    have he0 : 0 ≤ e0 := by
      rcases Nat.eq_zero_or_pos (m - 1) with hz | hpos
      · rw [hz, parIter] at h2; omega
      · by_contra h'
        rw [parIter_neg u (by omega) hpos] at h2
        omega
    have h3 : parIter u (m - 1 + 1) e0 = e0 := by
      rw [parIter_add, h2, parIter, parIter, parStep, if_neg (by omega), hpy]
    exact no_cycle u hr he0 (by omega) h3
  · have hmeq : m = 1 := by omega
    rw [hmeq, h1] at hiter
    subst hiter
    exact no_self_parent u hr hy' hpy

theorem desc_linear_cases (u : Universe T) {a b x : Int}
    (h1 : DescP u a x) (h2 : DescP u b x) : a = b ∨ DescP u a b ∨ DescP u b a := by
  obtain ⟨ha, n, hn, hin⟩ := h1
  obtain ⟨hb, m, hm, him⟩ := h2
  rcases Nat.lt_trichotomy n m with h | h | h
  · exact Or.inr (Or.inr ⟨hb, m - n, by omega, parIter_linear u hin him (by omega)⟩)
  · subst h
    rw [hin] at him
    exact Or.inl him
  · exact Or.inr (Or.inl ⟨ha, n - m, by omega, parIter_linear u him hin (by omega)⟩)

theorem desc_parent_cases (u : Universe T) {c x : Int} (h : DescP u c x) :
    getParent u x = c ∨ DescP u c (getParent u x) := by
  obtain ⟨hc, n, hn, hiter⟩ := h
  have hx : 0 ≤ x := desc_nonneg u ⟨hc, n, hn, hiter⟩
  cases n with
  | zero => omega
  | succ n =>
      rw [parIter, parStep, if_neg (by omega)] at hiter
      cases n with
      | zero => exact Or.inl hiter
      | succ n => exact Or.inr ⟨hc, n + 1, by omega, hiter⟩

theorem te_tc_main : ∀ fuel : Nat,
    (∀ (u : Universe T) (e : Int) (b : Bool),
      WF u →
      (∀ x n, parIter u n x = e → 0 ≤ x → n < fuel) →
      (∀ i, ¬ DescP u e i → trAt (transformEntityF fuel u e b) i = trAt u i) ∧
      (∀ k : Int, k ≠ (entAt u e).hierarchy →
        (hierAt (transformEntityF fuel u e b) k).local_transform =
          (hierAt u k).local_transform) ∧
      (∀ x, DescP u e x → InvE (transformEntityF fuel u e b) x) ∧
      (b = true → 0 ≤ getParent u e → InvE (transformEntityF fuel u e b) e)) ∧
    (∀ sib (u : Universe T) (my : T) (c e0 : Int),
      WF u →
      0 ≤ e0 →
      my = trAt u e0 →
      (∀ x n, parIter u n x = e0 → 0 ≤ x → n < fuel + 1) →
      (∀ y, SibReach u c y → 0 ≤ y ∧ y.toNat < u.entities.length ∧
        0 ≤ (entAt u y).hierarchy ∧ getParent u y = e0) →
      sibIterN u sib c = -1 →
      (∀ i, ¬ SibDescP u c i → trAt (transformChildrenF fuel sib u my c) i = trAt u i) ∧
      (∀ x, SibDescP u c x → InvE (transformChildrenF fuel sib u my c) x)) := by
  intro fuel
  induction fuel using Nat.strong_induction_on with
  | _ fuel ih =>
    have hte : ∀ (u : Universe T) (e : Int) (b : Bool),
        WF u →
        (∀ x n, parIter u n x = e → 0 ≤ x → n < fuel) →
        (∀ i, ¬ DescP u e i → trAt (transformEntityF fuel u e b) i = trAt u i) ∧
        (∀ k : Int, k ≠ (entAt u e).hierarchy →
          (hierAt (transformEntityF fuel u e b) k).local_transform =
            (hierAt u k).local_transform) ∧
        (∀ x, DescP u e x → InvE (transformEntityF fuel u e b) x) ∧
        (b = true → 0 ≤ getParent u e → InvE (transformEntityF fuel u e b) e) := by
      intro u e b hwf hfuel
      cases fuel with
      | zero =>
          refine ⟨fun i _ => by rw [transformEntityF], fun k _ => by rw [transformEntityF],
            fun x hx => ?_, fun hb hp => ?_⟩
          · obtain ⟨he, n, hn, hiter⟩ := hx
            exact absurd (hfuel x n hiter (desc_nonneg u ⟨he, n, hn, hiter⟩)) (by omega)
          · have hne := parent_nonneg_of_getParent u hp
            have he0 := (bounds_of_node u hne).1
            exact absurd (hfuel e 0 rfl he0) (by omega)
      | succ f =>
          simp only [transformEntityF]
          set u1 := pushEvent u (Event.entityTransformed e) with hu1
          by_cases hidx : (entAt u e).hierarchy < 0
          · simp only [if_pos hidx]
            refine ⟨fun i _ => rfl, fun k _ => rfl, fun x hx => ?_, fun hb hp => ?_⟩
            · exact absurd (desc_has_node u hwf hx) (by omega)
            · exact absurd (parent_nonneg_of_getParent u hp) (by omega)
          · simp only [if_neg hidx]
            have hne : 0 ≤ (entAt u e).hierarchy := by omega
            have he0 : 0 ≤ e := (bounds_of_node u hne).1
            have hrooted : WFRooted u := hwf.2.2.2.2.2.2.2
            have core : ∀ u2 : Universe T, LinksEq u2 u →
                (∀ j, trAt u2 j = trAt u j) →
                (∀ i, ¬ SibDescP u (getFirstChild u e) i →
                  trAt (transformChildrenF f (u2.entities.length + 1) u2 (trAt u1 e)
                    ((hierAt u2 (entAt u e).hierarchy).first_child)) i = trAt u i) ∧
                (∀ x, SibDescP u (getFirstChild u e) x →
                  InvE (transformChildrenF f (u2.entities.length + 1) u2 (trAt u1 e)
                    ((hierAt u2 (entAt u e).hierarchy).first_child)) x) := by
              intro u2 hL2 htr2
              have hwf2 : WF u2 := wf_of_linksEq hL2 hwf
              have hfc : (hierAt u2 (entAt u e).hierarchy).first_child = getFirstChild u e := by
                rw [(hL2.2.2.2.2.2 (entAt u e).hierarchy).2.2.1, ← getFirstChild_node u hne]
              have hlen2 : u2.entities.length = u.entities.length :=
                congrArg List.length hL2.1
              have hmy2 : trAt u1 e = trAt u2 e := by
                rw [htr2 e, hu1, trAt_pushEvent]
              have hfuel2 : ∀ x n, parIter u2 n x = e → 0 ≤ x → n < f + 1 := by
                intro x n hx hx0
                rw [parIter_of_linksEq hL2] at hx
                exact hfuel x n hx hx0
              have hsibpar2 : ∀ y, SibReach u2 ((hierAt u2 (entAt u e).hierarchy).first_child) y →
                  0 ≤ y ∧ y.toNat < u2.entities.length ∧
                  0 ≤ (entAt u2 y).hierarchy ∧ getParent u2 y = e := by
                intro y hy
                rw [sibReach_of_linksEq hL2, hfc] at hy
                have h2 := sibReach_first_child_sound u hwf hne hy
                rw [entAt_of_linksEq hL2, getParent_of_linksEq hL2, hlen2]
                exact h2
              have hterm2 : sibIterN u2 (u2.entities.length + 1)
                  ((hierAt u2 (entAt u e).hierarchy).first_child) = -1 := by
                rw [sibIterN_of_linksEq hL2, hfc, hlen2]
                exact chain_term_first_child u hwf e
              have hTC := (ih f (by omega)).2 (u2.entities.length + 1) u2 (trAt u1 e)
                ((hierAt u2 (entAt u e).hierarchy).first_child) e hwf2 he0 hmy2 hfuel2
                hsibpar2 hterm2
              refine ⟨fun i hni => ?_, fun x hx => ?_⟩
              · have h1 : ¬ SibDescP u2 ((hierAt u2 (entAt u e).hierarchy).first_child) i := by
                  rw [sibDescP_of_linksEq hL2, hfc]; exact hni
                rw [hTC.1 i h1, htr2 i]
              · have h1 : SibDescP u2 ((hierAt u2 (entAt u e).hierarchy).first_child) x := by
                  rw [sibDescP_of_linksEq hL2, hfc]; exact hx
                exact hTC.2 x h1
            have hpar1 : (hierAt u1 (entAt u e).hierarchy).parent = getParent u e := by
              rw [hu1, hierAt_pushEvent, ← getParent_node u hne]
            by_cases hcond : b = true ∧ 0 ≤ (hierAt u1 (entAt u e).hierarchy).parent
            · simp only [if_pos hcond]
              set u2 := setHierAt u1 (entAt u e).hierarchy
                ({ hierAt u1 (entAt u e).hierarchy with
                  local_transform :=
                    (trAt u1 (hierAt u1 (entAt u e).hierarchy).parent)⁻¹ * trAt u1 e }) with hu2
              set vres := transformChildrenF f (u2.entities.length + 1) u2 (trAt u1 e)
                ((hierAt u2 (entAt u e).hierarchy).first_child) with hres
              have hL2 : LinksEq u2 u := by
                rw [hu2, hu1]
                exact linksEq_trans (linksEq_setLocal _ _ _) (linksEq_pushEvent u _)
              have htr2 : ∀ j, trAt u2 j = trAt u j := by
                intro j
                rw [hu2, trAt_setHierAt, hu1, trAt_pushEvent]
              obtain ⟨hTCi, hTCii⟩ := core u2 hL2 htr2
              refine ⟨fun i hni => hTCi i (fun hs => hni (sibDescP_sub_desc u hwf hne he0 hs)),
                fun k hk => ?_, fun x hx => hTCii x (desc_mem_subtree u hwf hx),
                fun hb hp => ?_⟩
              · have h1 : hierAt vres = hierAt u2 :=
                  hierAt_ext ((te_tc_hier f).2 _ u2 _ _)
                rw [h1, hu2, hierAt_setHierAt_ne _ _ hk, hu1, hierAt_pushEvent]
              · have hresL : LinksEq vres u :=
                  linksEq_trans ((te_tc_linksEq f).2 (u2.entities.length + 1) u2 (trAt u1 e)
                    ((hierAt u2 (entAt u e).hierarchy).first_child)) hL2
                have hentR : entAt vres = entAt u := entAt_of_linksEq hresL
                have hgp : getParent vres e = getParent u e := by
                  rw [getParent_of_linksEq hresL]
                have hhier : vres.hierarchy = u2.hierarchy :=
                  (te_tc_hier f).2 (u2.entities.length + 1) u2 (trAt u1 e)
                    ((hierAt u2 (entAt u e).hierarchy).first_child)
                have hk2 : (entAt u e).hierarchy.toNat < u1.hierarchy.length :=
                  (node_bound_of_wf u hwf hne).1
                have hself : hierAt u2 (entAt u e).hierarchy =
                    { hierAt u1 (entAt u e).hierarchy with
                      local_transform :=
                        (trAt u1 (hierAt u1 (entAt u e).hierarchy).parent)⁻¹ * trAt u1 e } := by
                  rw [hu2]
                  exact hierAt_setHierAt_self u1 _ hne hk2
                have hlocal : localOf vres e = (trAt u (getParent u e))⁻¹ * trAt u e := by
                  rw [localOf_eq_hier (by rw [hentR]; exact hne), hentR, hierAt_ext hhier, hself]
                  show (trAt u1 (hierAt u1 (entAt u e).hierarchy).parent)⁻¹ * trAt u1 e = _
                  rw [hpar1, hu1, trAt_pushEvent, trAt_pushEvent]
                have htre : trAt vres e = trAt u e :=
                  hTCi e (fun hs =>
                    absurd (sibDescP_sub_desc u hwf hne he0 hs) (desc_irrefl u hrooted he0))
                have htrp : trAt vres (getParent u e) = trAt u (getParent u e) :=
                  hTCi _ (fun hs =>
                    parent_no_desc u hrooted he0 rfl (sibDescP_sub_desc u hwf hne he0 hs))
                simp only [InvE]
                rw [hgp, htre, htrp, hlocal, mul_inv_cancel_left]
            · simp only [if_neg hcond]
              have hL2 : LinksEq u1 u := linksEq_pushEvent u _
              have htr2 : ∀ j, trAt u1 j = trAt u j := by
                intro j
                rw [hu1, trAt_pushEvent]
              obtain ⟨hTCi, hTCii⟩ := core u1 hL2 htr2
              refine ⟨fun i hni => hTCi i (fun hs => hni (sibDescP_sub_desc u hwf hne he0 hs)),
                fun k hk => ?_, fun x hx => hTCii x (desc_mem_subtree u hwf hx),
                fun hb hp => ?_⟩
              · have h1 : hierAt (transformChildrenF f (u1.entities.length + 1) u1 (trAt u1 e)
                    ((hierAt u1 (entAt u e).hierarchy).first_child)) = hierAt u1 :=
                  hierAt_ext ((te_tc_hier f).2 _ u1 _ _)
                rw [h1, hu1, hierAt_pushEvent]
              · exact absurd ⟨hb, by rw [hpar1]; exact hp⟩ hcond
    refine ⟨hte, ?_⟩
    intro sib
    induction sib with
    | zero =>
        intro u my c e0 hwf he0 hmy hfuel hsibpar hterm
        have hc : c = -1 := hterm
        refine ⟨fun i _ => by rw [transformChildrenF], fun x hx => ?_⟩
        obtain ⟨y, ⟨hy0, m, hm⟩, _⟩ := hx
        subst hc
        rw [sibIterN_neg_one] at hm
        omega
    | succ sib ihs =>
        intro u my c e0 hwf he0 hmy hfuel hsibpar hterm
        by_cases hc : c < 0
        · simp only [transformChildrenF, if_pos hc]
          refine ⟨fun i _ => trivial, fun x hx => ?_⟩
          obtain ⟨y, ⟨hy0, m, hm⟩, _⟩ := hx
          exfalso
          cases m with
          | zero => rw [sibIterN] at hm; omega
          | succ m =>
              rw [sibIterN, sibStep_neg u hc, sibIterN_neg_one] at hm
              omega
        · simp only [transformChildrenF, if_neg hc]
          obtain ⟨hc0', hcl, hcnode, hcpar⟩ := hsibpar c (sibReach_self u (by omega))
          have hrooted : WFRooted u := hwf.2.2.2.2.2.2.2
          set u1 := setTrAt u c (my * (hierAt u (entAt u c).hierarchy).local_transform)
            with hu1
          set u2 := transformEntityF fuel u1 c false with hu2
          set nxt := (hierAt u2 (entAt u2 c).hierarchy).next_sibling with hnxt
          set vres := transformChildrenF fuel sib u2 my nxt with hres
          have hL1 : LinksEq u1 u := by rw [hu1]; exact linksEq_setTrAt u c _
          have hL2 : LinksEq u2 u1 := by rw [hu2]; exact (te_tc_linksEq fuel).1 u1 c false
          have hL : LinksEq u2 u := linksEq_trans hL2 hL1
          have hwf1 : WF u1 := wf_of_linksEq hL1 hwf
          have hwf2 : WF u2 := wf_of_linksEq hL hwf
          have hnxt_eq : nxt = getNextSibling u c := by
            rw [hnxt, entAt_of_linksEq hL, (hL.2.2.2.2.2 (entAt u c).hierarchy).2.2.2,
              ← getNextSibling_node u hcnode]
          have hne0c : e0 ≠ c := by
            intro h
            subst h
            exact no_self_parent u hrooted he0 hcpar
          have htr1e0 : trAt u1 e0 = trAt u e0 := by
            rw [hu1]
            exact trAt_setTrAt_ne u _ hne0c
          have hdesc_c_e0 : ¬ DescP u1 c e0 := by
            rw [descP_of_linksEq hL1]
            intro hd
            exact parent_no_desc u hrooted (by omega) hcpar hd
          have hfuelTE : ∀ x n, parIter u1 n x = c → 0 ≤ x → n < fuel := by
            intro x n hx hx0
            rw [parIter_of_linksEq hL1] at hx
            have h2 : parIter u (n + 1) x = e0 := by
              rw [parIter_add, hx, parIter, parIter, parStep, if_neg hc, hcpar]
            have h3 := hfuel x (n + 1) h2 hx0
            omega
          obtain ⟨hTEframe, hTEloc, hTEdesc, _⟩ := hte u1 c false hwf1 hfuelTE
          have hsibpar2 : ∀ y, SibReach u2 nxt y → 0 ≤ y ∧ y.toNat < u2.entities.length ∧
              0 ≤ (entAt u2 y).hierarchy ∧ getParent u2 y = e0 := by
            intro y hy
            rw [sibReach_of_linksEq hL, hnxt_eq] at hy
            have hy2 := hsibpar y (sibReach_tail u (by omega) hy)
            rw [entAt_of_linksEq hL, getParent_of_linksEq hL,
              show u2.entities.length = u.entities.length from congrArg List.length hL.1]
            exact hy2
          have hterm2 : sibIterN u2 sib nxt = -1 := by
            rw [sibIterN_of_linksEq hL, hnxt_eq]
            have h2 : sibIterN u (sib + 1) c = -1 := hterm
            rw [sibIterN, sibStep, if_neg hc] at h2
            exact h2
          have hfuel2 : ∀ x n, parIter u2 n x = e0 → 0 ≤ x → n < fuel + 1 := by
            intro x n hx
            rw [parIter_of_linksEq hL] at hx
            exact hfuel x n hx
          have hmy2 : my = trAt u2 e0 := by
            rw [hmy, ← htr1e0, ← hTEframe e0 hdesc_c_e0]
          obtain ⟨hRframe, hRinv⟩ := ihs u2 my nxt e0 hwf2 he0 hmy2 hfuel2 hsibpar2 hterm2
          have hchain_norest : ∀ j : Nat, sibIterN u j (getNextSibling u c) ≠ c := by
            intro j hj
            exact sib_no_return u hterm (by omega) hj
          have hnodesc : ∀ z, (z = c ∨ DescP u c z) → ¬ SibDescP u (getNextSibling u c) z := by
            rintro z hz ⟨y, hyr, hycase⟩
            obtain ⟨hy0, j, hj⟩ := hyr
            have hyc : y ≠ c := fun h => hchain_norest j (h ▸ hj)
            have hys := hsibpar y (sibReach_tail u (by omega) ⟨hy0, j, hj⟩)
            rcases hz with rfl | hdz
            · rcases hycase with rfl | hdyz
              · exact hyc rfl
              · exact sibling_not_desc u hrooted (by omega) hy0 hcpar hys.2.2.2 hdyz
            · rcases hycase with rfl | hdyz
              · exact sibling_not_desc u hrooted (desc_nonneg u hdz) (by omega) hys.2.2.2
                  hcpar hdz
              · rcases desc_linear_cases u hdyz hdz with heq | hd1 | hd2
                · exact hyc heq
                · exact sibling_not_desc u hrooted (by omega) hy0 hcpar hys.2.2.2 hd1
                · exact sibling_not_desc u hrooted hy0 (by omega) hys.2.2.2 hcpar hd2
          have hne0nd : ¬ SibDescP u (getNextSibling u c) e0 := by
            rintro ⟨y, hyr, hycase⟩
            obtain ⟨hy0, j, hj⟩ := hyr
            have hys := hsibpar y (sibReach_tail u (by omega) ⟨hy0, j, hj⟩)
            rcases hycase with rfl | hdy
            · exact no_self_parent u hrooted hy0 hys.2.2.2
            · exact parent_no_desc u hrooted hy0 hys.2.2.2 hdy
          have hresL : LinksEq vres u := by
            rw [hres]
            exact linksEq_trans ((te_tc_linksEq fuel).2 sib u2 my nxt) hL
          have hhierR : vres.hierarchy = u.hierarchy := by
            rw [hres, (te_tc_hier fuel).2, hu2, (te_tc_hier fuel).1, hu1, setTrAt_hierarchy]
          have hhier2 : u2.hierarchy = u.hierarchy := by
            rw [hu2, (te_tc_hier fuel).1, hu1, setTrAt_hierarchy]
          constructor
          · intro i hni
            have hic : i ≠ c := fun h => hni ⟨c, sibReach_self u (by omega), Or.inl h.symm⟩
            have h3 : ¬ SibDescP u2 nxt i := by
              rw [sibDescP_of_linksEq hL, hnxt_eq]
              rintro ⟨y, hy, hcase⟩
              exact hni ⟨y, sibReach_tail u (by omega) hy, hcase⟩
            have h2 : ¬ DescP u1 c i := by
              rw [descP_of_linksEq hL1]
              intro hd
              exact hni ⟨c, sibReach_self u (by omega), Or.inr hd⟩
            rw [hRframe i h3, hTEframe i h2, hu1, trAt_setTrAt_ne u _ hic]
          · intro x hx
            obtain ⟨y, ⟨hy0, m, hm⟩, hycase⟩ := hx
            cases m with
            | succ m =>
                rw [sibIterN, sibStep, if_neg hc] at hm
                have hx2 : SibDescP u2 nxt x := by
                  rw [sibDescP_of_linksEq hL, hnxt_eq]
                  exact ⟨y, ⟨hy0, m, hm⟩, hycase⟩
                exact hRinv x hx2
            | zero =>
                rw [sibIterN] at hm
                subst hm
                have hgpR : getParent vres = getParent u := getParent_of_linksEq hresL
                have hentR : entAt vres = entAt u := entAt_of_linksEq hresL
                rcases hycase with rfl | hdx
                · have h3 : ¬ SibDescP u2 nxt c := by
                    rw [sibDescP_of_linksEq hL, hnxt_eq]
                    exact hnodesc c (Or.inl rfl)
                  have htrc : trAt vres c = my *
                      (hierAt u (entAt u c).hierarchy).local_transform := by
                    rw [hRframe c h3, hTEframe c
                      (by rw [descP_of_linksEq hL1]; exact desc_irrefl u hrooted (by omega)),
                      hu1]
                    exact trAt_setTrAt_self u _ (by omega) (by rw [hwf.1]; exact hcl)
                  have h4 : ¬ SibDescP u2 nxt e0 := by
                    rw [sibDescP_of_linksEq hL, hnxt_eq]
                    exact hne0nd
                  have htre0 : trAt vres e0 = trAt u e0 := by
                    rw [hRframe e0 h4, hTEframe e0 hdesc_c_e0, htr1e0]
                  have hlocR : localOf vres c =
                      (hierAt u (entAt u c).hierarchy).local_transform := by
                    rw [localOf_eq_hier (by rw [hentR]; exact hcnode), hentR,
                      hierAt_ext hhierR]
                  simp only [InvE]
                  rw [hgpR, hcpar, htre0, hlocR, htrc, hmy]
                · have hinv2 : InvE u2 x :=
                    hTEdesc x (by rw [descP_of_linksEq hL1]; exact hdx)
                  have hxnd : ¬ SibDescP u2 nxt x := by
                    rw [sibDescP_of_linksEq hL, hnxt_eq]
                    exact hnodesc x (Or.inr hdx)
                  have hgpx0 : 0 ≤ getParent u x := by
                    rcases desc_parent_cases u hdx with hp | hp
                    · rw [hp]; omega
                    · exact desc_nonneg u hp
                  have hpnd : ¬ SibDescP u2 nxt (getParent u x) := by
                    rw [sibDescP_of_linksEq hL, hnxt_eq]
                    rcases desc_parent_cases u hdx with hp | hp
                    · rw [hp]; exact hnodesc c (Or.inl rfl)
                    · exact hnodesc _ (Or.inr hp)
                  have hnodex : 0 ≤ (entAt u x).hierarchy :=
                    parent_nonneg_of_getParent u hgpx0
                  have hgp2 : getParent u2 x = getParent u x :=
                    congrFun (getParent_of_linksEq hL) x
                  have hloc2 : localOf u2 x =
                      (hierAt u (entAt u x).hierarchy).local_transform := by
                    rw [localOf_eq_hier (by rw [entAt_of_linksEq hL]; exact hnodex),
                      entAt_of_linksEq hL, hierAt_ext hhier2]
                  have hlocR : localOf vres x =
                      (hierAt u (entAt u x).hierarchy).local_transform := by
                    rw [localOf_eq_hier (by rw [hentR]; exact hnodex), hentR,
                      hierAt_ext hhierR]
                  simp only [InvE] at hinv2 ⊢
                  rw [hgpR, hRframe x hxnd, hRframe _ hpnd, hlocR]
                  rw [hgp2, hloc2] at hinv2
                  exact hinv2

theorem setParent_eq (u : Universe T) (np c : Int) :
    setParent u np c =
      if 0 ≤ np ∧ isDescendant u c np = true then pushEvent u Event.errorLogged
      else attachPhase (detachPhase u np c) np c := rfl

theorem setEntAt_oob (u : Universe T) {i : Int} (h : u.entities.length ≤ i.toNat)
    (d : EntityData) : setEntAt u i d = u := by
  rw [setEntAt]
  split
  · rfl
  · rw [List.set_eq_of_length_le h]

theorem entAt_setEntAt_cases (u : Universe T) (i : Int) (d : EntityData) (j : Int) :
    entAt (setEntAt u i d) j = entAt u j ∨
    (j = i ∧ 0 ≤ i ∧ i.toNat < u.entities.length ∧ entAt (setEntAt u i d) j = d) := by
  by_cases hij : j = i
  · subst hij
    by_cases h0 : j < 0
    · left; rw [setEntAt, if_pos h0]
    · by_cases hb : j.toNat < u.entities.length
      · right; exact ⟨rfl, by omega, hb, entAt_setEntAt_self u d (by omega) hb⟩
      · left; rw [setEntAt_oob u (by omega) d]
  · left; exact entAt_setEntAt_ne u d hij

theorem hierAt_setHierAt_cases (u : Universe T) (i : Int) (h : Hierarchy T) (j : Int) :
    hierAt (setHierAt u i h) j = hierAt u j ∨
    (j = i ∧ 0 ≤ i ∧ i.toNat < u.hierarchy.length ∧ hierAt (setHierAt u i h) j = h) := by
  by_cases hij : j = i
  · subst hij
    by_cases h0 : j < 0
    · left; rw [setHierAt, if_pos h0]
    · by_cases hb : j.toNat < u.hierarchy.length
      · right; exact ⟨rfl, by omega, hb, hierAt_setHierAt_self u h (by omega) hb⟩
      · left; rw [setHierAt_oob u (by omega) h]
  · left; exact hierAt_setHierAt_ne u h hij

@[simp] theorem setEntAt_entities_length (u : Universe T) (i : Int) (d : EntityData) :
    (setEntAt u i d).entities.length = u.entities.length := by
  rw [setEntAt]; split <;> simp

@[simp] theorem setHierAt_hierarchy_length (u : Universe T) (i : Int) (h : Hierarchy T) :
    (setHierAt u i h).hierarchy.length = u.hierarchy.length := by
  rw [setHierAt]; split <;> simp

theorem linkWrite_entities (u : Universe T) (p : Sum Int Int) (v : Int) :
    (linkWrite u p v).entities = u.entities := by
  cases p <;> simp [linkWrite]

theorem linkWrite_transforms (u : Universe T) (p : Sum Int Int) (v : Int) :
    (linkWrite u p v).transforms = u.transforms := by
  cases p <;> simp [linkWrite]

theorem linkWrite_names (u : Universe T) (p : Sum Int Int) (v : Int) :
    (linkWrite u p v).names = u.names := by
  cases p <;> simp [linkWrite]

theorem linkWrite_ffs (u : Universe T) (p : Sum Int Int) (v : Int) :
    (linkWrite u p v).first_free_slot = u.first_free_slot := by
  cases p <;> simp [linkWrite]

theorem linkWrite_hierarchy_length (u : Universe T) (p : Sum Int Int) (v : Int) :
    (linkWrite u p v).hierarchy.length = u.hierarchy.length := by
  cases p <;> simp [linkWrite]

theorem linkWrite_fields (u : Universe T) (p : Sum Int Int) (v : Int) (k : Int) :
    (hierAt (linkWrite u p v) k).entity = (hierAt u k).entity ∧
    (hierAt (linkWrite u p v) k).parent = (hierAt u k).parent ∧
    (hierAt (linkWrite u p v) k).local_transform = (hierAt u k).local_transform := by
  cases p with
  | inl q =>
      simp only [linkWrite]
      rcases hierAt_setHierAt_cases u q { hierAt u q with first_child := v } k with
        hc | ⟨hk, _, _, hc⟩
      · rw [hc]; exact ⟨rfl, rfl, rfl⟩
      · subst hk; rw [hc]; exact ⟨rfl, rfl, rfl⟩
  | inr q =>
      simp only [linkWrite]
      rcases hierAt_setHierAt_cases u q { hierAt u q with next_sibling := v } k with
        hc | ⟨hk, _, _, hc⟩
      · rw [hc]; exact ⟨rfl, rfl, rfl⟩
      · subst hk; rw [hc]; exact ⟨rfl, rfl, rfl⟩

theorem rfc_cases : ∀ (fuel : Nat) (u : Universe T) (p : Sum Int Int) (c : Int),
    removeFromChildren fuel u p c = u ∨
    ∃ q, removeFromChildren fuel u p c = linkWrite u q (getNextSibling u c) := by
  intro fuel
  induction fuel with
  | zero => intro u p c; left; rfl
  | succ fuel ih =>
      intro u p c
      simp only [removeFromChildren]
      by_cases h1 : linkRead u p < 0
      · rw [if_pos h1]; left; rfl
      · rw [if_neg h1]
        by_cases h2 : linkRead u p = c
        · rw [if_pos h2]; right; exact ⟨p, rfl⟩
        · rw [if_neg h2]; exact ih u _ c

theorem rfc_core (fuel : Nat) (u : Universe T) (p : Sum Int Int) (c : Int) :
    (removeFromChildren fuel u p c).entities = u.entities ∧
    (removeFromChildren fuel u p c).transforms = u.transforms ∧
    (removeFromChildren fuel u p c).names = u.names ∧
    (removeFromChildren fuel u p c).first_free_slot = u.first_free_slot ∧
    (removeFromChildren fuel u p c).hierarchy.length = u.hierarchy.length ∧
    ∀ k : Int, (hierAt (removeFromChildren fuel u p c) k).entity = (hierAt u k).entity ∧
      (hierAt (removeFromChildren fuel u p c) k).parent = (hierAt u k).parent ∧
      (hierAt (removeFromChildren fuel u p c) k).local_transform =
        (hierAt u k).local_transform := by
  rcases rfc_cases fuel u p c with h | ⟨q, h⟩ <;> rw [h]
  · exact ⟨rfl, rfl, rfl, rfl, rfl, fun _ => ⟨rfl, rfl, rfl⟩⟩
  · exact ⟨linkWrite_entities u q _, linkWrite_transforms u q _, linkWrite_names u q _,
      linkWrite_ffs u q _, linkWrite_hierarchy_length u q _, fun k => linkWrite_fields u q _ k⟩

theorem parwrite_fields (u : Universe T) (i p : Int) (j : Int) :
    (hierAt (setHierAt u i { hierAt u i with parent := p }) j).entity = (hierAt u j).entity ∧
    (hierAt (setHierAt u i { hierAt u i with parent := p }) j).first_child =
      (hierAt u j).first_child ∧
    (hierAt (setHierAt u i { hierAt u i with parent := p }) j).next_sibling =
      (hierAt u j).next_sibling ∧
    (hierAt (setHierAt u i { hierAt u i with parent := p }) j).local_transform =
      (hierAt u j).local_transform := by
  rcases hierAt_setHierAt_cases u i { hierAt u i with parent := p } j with
    hc | ⟨hj, _, _, hc⟩
  · rw [hc]; exact ⟨rfl, rfl, rfl, rfl⟩
  · subst hj; rw [hc]; exact ⟨rfl, rfl, rfl, rfl⟩

theorem locwrite_fields (u : Universe T) (i : Int) (t : T) (j : Int) :
    (hierAt (setHierAt u i { hierAt u i with local_transform := t }) j).entity =
      (hierAt u j).entity ∧
    (hierAt (setHierAt u i { hierAt u i with local_transform := t }) j).parent =
      (hierAt u j).parent ∧
    (hierAt (setHierAt u i { hierAt u i with local_transform := t }) j).first_child =
      (hierAt u j).first_child ∧
    (hierAt (setHierAt u i { hierAt u i with local_transform := t }) j).next_sibling =
      (hierAt u j).next_sibling := by
  rcases hierAt_setHierAt_cases u i { hierAt u i with local_transform := t } j with
    hc | ⟨hj, _, _, hc⟩
  · rw [hc]; exact ⟨rfl, rfl, rfl, rfl⟩
  · subst hj; rw [hc]; exact ⟨rfl, rfl, rfl, rfl⟩

theorem getParent_congr {v u : Universe T} (hent : v.entities = u.entities)
    (hpar : ∀ k : Int, (hierAt v k).parent = (hierAt u k).parent) :
    getParent v = getParent u := by
  funext x
  simp only [getParent]
  rw [entAt_ext hent]
  split
  · rfl
  · exact hpar _

theorem getFirstChild_congr {v u : Universe T} (hent : v.entities = u.entities)
    (hfc : ∀ k : Int, (hierAt v k).first_child = (hierAt u k).first_child) :
    getFirstChild v = getFirstChild u := by
  funext x
  simp only [getFirstChild]
  rw [entAt_ext hent]
  split
  · rfl
  · exact hfc _

theorem getNextSibling_congr {v u : Universe T} (hent : v.entities = u.entities)
    (hns : ∀ k : Int, (hierAt v k).next_sibling = (hierAt u k).next_sibling) :
    getNextSibling v = getNextSibling u := by
  funext x
  simp only [getNextSibling]
  rw [entAt_ext hent]
  split
  · rfl
  · exact hns _

theorem localOf_congr {v u : Universe T} (hent : v.entities = u.entities)
    (htr : v.transforms = u.transforms)
    (hloc : ∀ k : Int, (hierAt v k).local_transform = (hierAt u k).local_transform) :
    localOf v = localOf u := by
  funext x
  simp only [localOf]
  rw [entAt_ext hent]
  split
  · rw [trAt_ext htr]
  · exact hloc _

theorem FwdRef_congr {v u : Universe T} (hent : v.entities = u.entities)
    (hlen : v.hierarchy.length = u.hierarchy.length)
    (hE : ∀ k : Int, (hierAt v k).entity = (hierAt u k).entity)
    (h : FwdRef u) : FwdRef v := by
  intro x hx0 hxl hxn
  rw [entAt_ext hent] at hxn ⊢
  rw [hent] at hxl
  obtain ⟨hb, he⟩ := h x hx0 hxl hxn
  rw [hlen, hE]
  exact ⟨hb, he⟩

theorem WFBackRefs_congr {v u : Universe T} (hent : v.entities = u.entities)
    (hlen : v.hierarchy.length = u.hierarchy.length)
    (hE : ∀ k : Int, (hierAt v k).entity = (hierAt u k).entity)
    (h : WFBackRefs u) : WFBackRefs v := by
  intro k hk
  rw [hlen] at hk
  obtain ⟨h1, h2, h3⟩ := h k hk
  rw [entAt_ext hent, hE, hent]
  exact ⟨h1, h2, h3⟩

theorem fwdRef_of_wf (u : Universe T) (hwf : WF u) : FwdRef u := by
  intro x hx0 hxl hxn
  have h4 := hwf.2.2.2.1 x.toNat hxl
  rw [int_toNat_cast hx0] at h4
  rcases h4 with h4 | h4
  · omega
  · exact h4

theorem getD_dropLast_lt {α : Type} (l : List α) (d : α) {n : Nat} (h : n < l.length - 1) :
    l.dropLast.getD n d = l.getD n d := by
  rw [List.getD_eq_getElem?_getD, List.getD_eq_getElem?_getD]
  rw [List.getElem?_eq_getElem (by rw [List.length_dropLast]; exact h),
    List.getElem?_eq_getElem (by omega)]
  simp [List.getElem_dropLast]

theorem getD_append_lt {α : Type} (l l2 : List α) (d : α) {n : Nat} (h : n < l.length) :
    (l ++ l2).getD n d = l.getD n d := by
  rw [List.getD_eq_getElem?_getD, List.getD_eq_getElem?_getD,
    List.getElem?_append_left h]

theorem getD_append_self {α : Type} (l : List α) (a : α) (d : α) :
    (l ++ [a]).getD l.length d = a := by
  rw [List.getD_eq_getElem?_getD]
  rw [List.getElem?_append_right (Nat.le_refl _)]
  simp

theorem hierAt_pos (u : Universe T) {k : Int} (h : 0 ≤ k) :
    hierAt u k = u.hierarchy.getD k.toNat default := by
  rw [hierAt, if_neg (by omega)]

theorem getD_set_self {α : Type} (l : List α) (a d : α) {n : Nat} (h : n < l.length) :
    (l.set n a).getD n d = a := by
  simp [List.getD_eq_getElem?_getD, List.getElem?_set_self', List.getElem?_eq_getElem, h]

theorem getD_set_ne {α : Type} (l : List α) (a d : α) {m n : Nat} (h : m ≠ n) :
    (l.set m a).getD n d = l.getD n d := by
  simp [List.getD_eq_getElem?_getD, List.getElem?_set_ne h]

theorem getNextSibling_no_node (u : Universe T) {x : Int} (h : (entAt u x).hierarchy < 0) :
    getNextSibling u x = -1 := by
  rw [getNextSibling, if_pos h]

theorem localOf_no_node (u : Universe T) {x : Int} (h : (entAt u x).hierarchy < 0) :
    localOf u x = trAt u x := by
  rw [localOf, if_pos h]

theorem hierObsPres_refl (u : Universe T) (ent : Int) : HierObsPres u u ent :=
  ⟨rfl, rfl, rfl, rfl, fun _ _ => ⟨rfl, rfl, rfl, rfl, Iff.rfl⟩⟩

theorem cg_effect (z : Universe T) (ent : Int)
    (hFR : FwdRef z) (hBR : WFBackRefs z)
    (he0 : 0 ≤ ent) (hel : ent.toNat < z.entities.length)
    (hnode : 0 ≤ (entAt z ent).hierarchy) :
    HierObsPres (collectGarbage z ent) z ent ∧
    FwdRef (collectGarbage z ent) ∧
    WFBackRefs (collectGarbage z ent) ∧
    (collectGarbage z ent = z ∨ (entAt (collectGarbage z ent) ent).hierarchy = -1) := by
  obtain ⟨hIb, hIe⟩ := hFR ent he0 hel hnode
  by_cases g1 : 0 ≤ (hierAt z (entAt z ent).hierarchy).parent
  · have hzz : collectGarbage z ent = z := by
      simp only [collectGarbage]
      rw [if_pos g1]
    rw [hzz]
    exact ⟨hierObsPres_refl z ent, hFR, hBR, Or.inl rfl⟩
  · by_cases g2 : 0 ≤ (hierAt z (entAt z ent).hierarchy).first_child
    · have hzz : collectGarbage z ent = z := by
        simp only [collectGarbage]
        rw [if_neg g1, if_pos g2]
      rw [hzz]
      exact ⟨hierObsPres_refl z ent, hFR, hBR, Or.inl rfl⟩
    · set lastIdx : Int := (z.hierarchy.length : Int) - 1 with hlastIdx
      set last := hierAt z lastIdx with hlast
      set u1 := setEntAt z last.entity
        { entAt z last.entity with hierarchy := (entAt z ent).hierarchy } with hu1
      set u2 := setEntAt u1 ent { entAt u1 ent with hierarchy := -1 } with hu2
      set u3 := setHierAt u2 (entAt z ent).hierarchy last with hu3
      have hwdef : collectGarbage z ent = { u3 with hierarchy := u3.hierarchy.dropLast } := by
        simp only [collectGarbage]
        rw [if_neg g1, if_neg g2, ← hlastIdx, ← hlast, ← hu1, ← hu2, ← hu3]
      have hL1 : 1 ≤ z.hierarchy.length := by omega
      have hcast : ((z.hierarchy.length - 1 : Nat) : Int) = lastIdx := by
        rw [hlastIdx]; omega
      have hBRl := hBR (z.hierarchy.length - 1) (by omega)
      rw [hcast, ← hlast] at hBRl
      obtain ⟨hle0, hlel, hleh⟩ := hBRl
      have hu2h : u2.hierarchy = z.hierarchy := by rw [hu2, hu1]; simp
      have hwhier : (collectGarbage z ent).hierarchy =
          (z.hierarchy.set (entAt z ent).hierarchy.toNat last).dropLast := by
        rw [hwdef]
        show u3.hierarchy.dropLast = _
        rw [hu3, setHierAt, if_neg (by omega : ¬ (entAt z ent).hierarchy < 0)]
        show (u2.hierarchy.set (entAt z ent).hierarchy.toNat last).dropLast = _
        rw [hu2h]
      have hwtr : (collectGarbage z ent).transforms = z.transforms := by
        rw [hwdef]
        show u3.transforms = _
        rw [hu3, hu2, hu1]; simp
      have hwents : (collectGarbage z ent).entities = u2.entities := by
        rw [hwdef]
        show u3.entities = _
        rw [hu3]; simp
      have hwel : (collectGarbage z ent).entities.length = z.entities.length := by
        rw [hwents, hu2, hu1]; simp
      have hwnames : (collectGarbage z ent).names = z.names := by
        rw [hwdef]
        show u3.names = _
        rw [hu3, hu2, hu1]; simp
      have hwffs : (collectGarbage z ent).first_free_slot = z.first_free_slot := by
        rw [hwdef]
        show u3.first_free_slot = _
        rw [hu3, hu2, hu1]; simp
      have hwlen : (collectGarbage z ent).hierarchy.length = z.hierarchy.length - 1 := by
        rw [hwhier]; simp
      have hentw : ∀ x : Int, entAt (collectGarbage z ent) x = entAt u2 x := by
        intro x
        simp only [entAt]
        rw [hwents]
      have hent_ent : entAt (collectGarbage z ent) ent = { entAt u1 ent with hierarchy := -1 } := by
        rw [hentw, hu2]
        exact entAt_setEntAt_self u1 _ he0 (by rw [hu1]; simpa using hel)
      have hent_ne : ∀ x : Int, x ≠ ent → x ≠ last.entity →
          entAt (collectGarbage z ent) x = entAt z x := by
        intro x hx1 hx2
        rw [hentw, hu2, entAt_setEntAt_ne u1 _ hx1, hu1, entAt_setEntAt_ne z _ hx2]
      have hent_last : last.entity ≠ ent →
          entAt (collectGarbage z ent) last.entity =
            { entAt z last.entity with hierarchy := (entAt z ent).hierarchy } := by
        intro hne
        rw [hentw, hu2, entAt_setEntAt_ne u1 _ hne, hu1]
        exact entAt_setEntAt_self z _ hle0 hlel
      have hwk : ∀ k : Int, 0 ≤ k → k.toNat < z.hierarchy.length - 1 →
          hierAt (collectGarbage z ent) k =
            if k = (entAt z ent).hierarchy then last else hierAt z k := by
        intro k hk0 hkl
        rw [hierAt_pos _ hk0, hwhier,
          getD_dropLast_lt _ _ (by rw [List.length_set]; exact hkl)]
        by_cases hk : k = (entAt z ent).hierarchy
        · rw [if_pos hk, hk, getD_set_self _ _ _ hIb]
        · rw [if_neg hk,
            getD_set_ne _ _ _ (show (entAt z ent).hierarchy.toNat ≠ k.toNat by omega),
            ← hierAt_pos z hk0]
      have hIdx_ne_last : last.entity ≠ ent → (entAt z ent).hierarchy ≠ lastIdx := by
        intro hne heq
        apply hne
        rw [hlast, ← heq]
        exact hIe
      have hIdx_eq_of : last.entity = ent → (entAt z ent).hierarchy = lastIdx := by
        intro he
        rw [← he]
        exact hleh
      have hlastcase : last.entity ≠ ent →
          (entAt z ent).hierarchy.toNat < z.hierarchy.length - 1 ∧
          hierAt (collectGarbage z ent) (entAt z ent).hierarchy = last := by
        intro hne
        have hIne := hIdx_ne_last hne
        have h1 : (entAt z ent).hierarchy.toNat ≠ z.hierarchy.length - 1 := by
          intro hh
          apply hIne
          rw [hlastIdx]
          omega
        have h2 : (entAt z ent).hierarchy.toNat < z.hierarchy.length - 1 := by omega
        exact ⟨h2, by rw [hwk _ hnode h2, if_pos rfl]⟩
      have hkne : ∀ x : Int, x ≠ ent → x ≠ last.entity → 0 ≤ (entAt z x).hierarchy →
          (entAt z x).hierarchy.toNat < z.hierarchy.length - 1 ∧
          hierAt (collectGarbage z ent) (entAt z x).hierarchy =
            hierAt z (entAt z x).hierarchy ∧
          (hierAt z (entAt z x).hierarchy).entity = x := by
        intro x hxe hxl hkx
        have hx0 : 0 ≤ x := by
          by_contra h
          rw [entAt_neg z (by omega)] at hkx
          exact absurd hkx (by decide)
        have hxl3 : x.toNat < z.entities.length := by
          by_contra h
          rw [entAt_oob z (by omega)] at hkx
          exact absurd hkx (by decide)
        obtain ⟨hkb, hke⟩ := hFR x hx0 hxl3 hkx
        have hkne1 : (entAt z x).hierarchy ≠ (entAt z ent).hierarchy := by
          intro hh
          have h2 := hke
          rw [hh, hIe] at h2
          exact hxe h2.symm
        have hkne2 : (entAt z x).hierarchy ≠ lastIdx := by
          intro hh
          have h2 := hke
          rw [hh, ← hlast] at h2
          exact hxl h2.symm
        have hkb2 : (entAt z x).hierarchy.toNat < z.hierarchy.length - 1 := by
          have h3 : (entAt z x).hierarchy.toNat ≠ z.hierarchy.length - 1 := by
            intro hh
            apply hkne2
            rw [hlastIdx]
            omega
          omega
        exact ⟨hkb2, by rw [hwk _ hkx hkb2, if_neg hkne1], hke⟩
      have hobs : ∀ x : Int, x ≠ ent →
          getParent (collectGarbage z ent) x = getParent z x ∧
          getFirstChild (collectGarbage z ent) x = getFirstChild z x ∧
          getNextSibling (collectGarbage z ent) x = getNextSibling z x ∧
          localOf (collectGarbage z ent) x = localOf z x ∧
          ((entAt (collectGarbage z ent) x).hierarchy < 0 ↔ (entAt z x).hierarchy < 0) := by
        intro x hxe
        by_cases hxv : 0 ≤ x ∧ x.toNat < z.entities.length
        · by_cases hxl : x = last.entity
          · have hne : last.entity ≠ ent := by rw [← hxl]; exact hxe
            subst hxl
            have hnw : (entAt (collectGarbage z ent) last.entity).hierarchy =
                (entAt z ent).hierarchy := by rw [hent_last hne]
            have hnz : (entAt z last.entity).hierarchy = lastIdx := hleh
            have hlast0 : (0 : Int) ≤ lastIdx := by rw [hlastIdx]; omega
            have hw1 := (hlastcase hne).2
            refine ⟨?_, ?_, ?_, ?_, ?_⟩
            · rw [getParent_node _ (by rw [hnw]; exact hnode),
                getParent_node _ (by rw [hnz]; exact hlast0), hnw, hnz, hw1, ← hlast]
            · rw [getFirstChild_node _ (by rw [hnw]; exact hnode),
                getFirstChild_node _ (by rw [hnz]; exact hlast0), hnw, hnz, hw1, ← hlast]
            · rw [getNextSibling_node _ (by rw [hnw]; exact hnode),
                getNextSibling_node _ (by rw [hnz]; exact hlast0), hnw, hnz, hw1, ← hlast]
            · rw [localOf_eq_hier (by rw [hnw]; exact hnode),
                localOf_eq_hier (by rw [hnz]; exact hlast0), hnw, hnz, hw1, ← hlast]
            · rw [hnw, hnz]
              constructor
              · intro h; omega
              · intro h; omega
          · have hentx := hent_ne x hxe hxl
            by_cases hkx : 0 ≤ (entAt z x).hierarchy
            · obtain ⟨hkb2, hw2, hke⟩ := hkne x hxe hxl hkx
              refine ⟨?_, ?_, ?_, ?_, ?_⟩
              · rw [getParent_node _ (by rw [hentx]; exact hkx), getParent_node _ hkx,
                  hentx, hw2]
              · rw [getFirstChild_node _ (by rw [hentx]; exact hkx),
                  getFirstChild_node _ hkx, hentx, hw2]
              · rw [getNextSibling_node _ (by rw [hentx]; exact hkx),
                  getNextSibling_node _ hkx, hentx, hw2]
              · rw [localOf_eq_hier (by rw [hentx]; exact hkx), localOf_eq_hier hkx,
                  hentx, hw2]
              · rw [hentx]
            · refine ⟨?_, ?_, ?_, ?_, ?_⟩
              · rw [getParent_no_node _ (by rw [hentx]; omega),
                  getParent_no_node _ (by omega)]
              · rw [getFirstChild_no_node _ (by rw [hentx]; omega),
                  getFirstChild_no_node _ (by omega)]
              · rw [getNextSibling_no_node _ (by rw [hentx]; omega),
                  getNextSibling_no_node _ (by omega)]
              · rw [localOf_no_node _ (by rw [hentx]; omega),
                  localOf_no_node _ (by omega)]
                exact congrFun (trAt_ext hwtr) x
              · rw [hentx]
        · push_neg at hxv
          have hdx : entAt z x = default := by
            by_cases hx0 : x < 0
            · exact entAt_neg z hx0
            · exact entAt_oob z (by have := hxv (by omega); omega)
          have hdw : entAt (collectGarbage z ent) x = default := by
            by_cases hx0 : x < 0
            · exact entAt_neg _ hx0
            · apply entAt_oob
              rw [hwel]
              have := hxv (by omega)
              omega
          refine ⟨?_, ?_, ?_, ?_, ?_⟩
          · rw [getParent_no_node _ (by rw [hdw]; decide),
              getParent_no_node _ (by rw [hdx]; decide)]
          · rw [getFirstChild_no_node _ (by rw [hdw]; decide),
              getFirstChild_no_node _ (by rw [hdx]; decide)]
          · rw [getNextSibling_no_node _ (by rw [hdw]; decide),
              getNextSibling_no_node _ (by rw [hdx]; decide)]
          · rw [localOf_no_node _ (by rw [hdw]; decide),
              localOf_no_node _ (by rw [hdx]; decide)]
            exact congrFun (trAt_ext hwtr) x
          · rw [hdw, hdx]
      have hFRw : FwdRef (collectGarbage z ent) := by
        intro x hx0 hxl hxn
        rw [hwel] at hxl
        by_cases hxe : x = ent
        · subst hxe
          rw [hent_ent] at hxn
          simp at hxn
        · by_cases hxl2 : x = last.entity
          · subst hxl2
            have hne : last.entity ≠ ent := hxe
            have hnw : (entAt (collectGarbage z ent) last.entity).hierarchy =
                (entAt z ent).hierarchy := by rw [hent_last hne]
            obtain ⟨hb2, hw1⟩ := hlastcase hne
            rw [hnw, hwlen]
            exact ⟨hb2, by rw [hw1]⟩
          · rw [hent_ne x hxe hxl2] at hxn ⊢
            obtain ⟨hkb2, hw2, hke⟩ := hkne x hxe hxl2 hxn
            rw [hwlen, hw2]
            exact ⟨hkb2, hke⟩
      have hBRw : WFBackRefs (collectGarbage z ent) := by
        intro k hk
        rw [hwlen] at hk
        by_cases hkI : (k : Int) = (entAt z ent).hierarchy
        · have hne : last.entity ≠ ent := by
            intro he
            have h2 := hIdx_eq_of he
            rw [← hkI, hlastIdx] at h2
            omega
          have hw1 := (hlastcase hne).2
          have hhk : hierAt (collectGarbage z ent) (k : Int) = last := by
            rw [hkI]; exact hw1
          rw [hhk, hwel]
          refine ⟨hle0, hlel, ?_⟩
          rw [hent_last hne]
          show (entAt z ent).hierarchy = (k : Int)
          exact hkI.symm
        · obtain ⟨hbe0, hbel, hbeh⟩ := hBR k (by omega)
          have hene : (hierAt z (k : Int)).entity ≠ ent := by
            intro he
            rw [he] at hbeh
            exact hkI hbeh.symm
          have hlne : (hierAt z (k : Int)).entity ≠ last.entity := by
            intro he
            rw [he, hleh, hlastIdx] at hbeh
            omega
          have hwhk : hierAt (collectGarbage z ent) (k : Int) = hierAt z (k : Int) := by
            rw [hwk _ (by omega) (by omega), if_neg hkI]
          rw [hwhk, hwel, hent_ne _ hene hlne]
          exact ⟨hbe0, hbel, hbeh⟩
      refine ⟨⟨hwtr, hwel, hwnames, hwffs, hobs⟩, hFRw, hBRw, Or.inr ?_⟩
      rw [hent_ent]

theorem detach_effect (u : Universe T) (np c : Int) (hwf : WF u)
    (hc0 : 0 ≤ c) (hcl : c.toNat < u.entities.length) :
    (detachPhase u np c).transforms = u.transforms ∧
    (detachPhase u np c).entities.length = u.entities.length ∧
    (detachPhase u np c).names = u.names ∧
    (detachPhase u np c).first_free_slot = u.first_free_slot ∧
    FwdRef (detachPhase u np c) ∧ WFBackRefs (detachPhase u np c) ∧
    getParent (detachPhase u np c) c < 0 ∧
    (0 ≤ np → 0 ≤ (entAt (detachPhase u np c) c).hierarchy) ∧
    (∀ x : Int, x ≠ c → 0 ≤ getParent (detachPhase u np c) x →
      getParent (detachPhase u np c) x = getParent u x ∧
      localOf (detachPhase u np c) x = localOf u x) := by
  have hrooted : WFRooted u := hwf.2.2.2.2.2.2.2
  have hFRu := fwdRef_of_wf u hwf
  have hBRu : WFBackRefs u := hwf.2.2.1
  by_cases hci : 0 ≤ (entAt u c).hierarchy
  · obtain ⟨hcb, hceB⟩ := hFRu c hc0 hcl hci
    by_cases hop : 0 ≤ (hierAt u (entAt u c).hierarchy).parent
    · set ua := removeFromChildren (u.entities.length + 2) u
        (Sum.inl (entAt u (hierAt u (entAt u c).hierarchy).parent).hierarchy) c with hua
      set ub := setHierAt ua (entAt u c).hierarchy
        { hierAt ua (entAt u c).hierarchy with parent := -1, next_sibling := -1 } with hub
      have hd : detachPhase u np c =
          collectGarbage ub (hierAt u (entAt u c).hierarchy).parent := by
        simp only [detachPhase]
        rw [if_pos hci, if_pos hop, ← hua, ← hub]
      have hcore := rfc_core (u.entities.length + 2) u
        (Sum.inl (entAt u (hierAt u (entAt u c).hierarchy).parent).hierarchy) c
      rw [← hua] at hcore
      obtain ⟨hae, hat, han, haf, hal, haF⟩ := hcore
      have hube : ub.entities = u.entities := by rw [hub]; simp [hae]
      have hubt : ub.transforms = u.transforms := by rw [hub]; simp [hat]
      have hubn : ub.names = u.names := by rw [hub]; simp [han]
      have hubf : ub.first_free_slot = u.first_free_slot := by rw [hub]; simp [haf]
      have hubl : ub.hierarchy.length = u.hierarchy.length := by rw [hub]; simp [hal]
      have hentub : ∀ x : Int, entAt ub x = entAt u x := by
        intro x
        simp only [entAt]
        rw [hube]
      have hubk : ∀ k : Int, k ≠ (entAt u c).hierarchy → hierAt ub k = hierAt ua k := by
        intro k hk
        rw [hub]
        exact hierAt_setHierAt_ne ua _ hk
      have hubc : hierAt ub (entAt u c).hierarchy =
          { hierAt ua (entAt u c).hierarchy with parent := -1, next_sibling := -1 } := by
        rw [hub]
        exact hierAt_setHierAt_self ua _ hci (by rw [hal]; exact hcb)
      have hubE : ∀ k : Int, (hierAt ub k).entity = (hierAt u k).entity := by
        intro k
        by_cases hk : k = (entAt u c).hierarchy
        · subst hk
          rw [hubc]
          show (hierAt ua (entAt u c).hierarchy).entity = _
          exact (haF _).1
        · rw [hubk k hk]
          exact (haF k).1
      have hFRb : FwdRef ub := FwdRef_congr hube hubl hubE hFRu
      have hBRb : WFBackRefs ub := WFBackRefs_congr hube hubl hubE hBRu
      have hgpubc : getParent ub c = -1 := by
        rw [getParent_node _ (by rw [hentub]; exact hci), hentub, hubc]
      have hgpub : ∀ x : Int, x ≠ c → getParent ub x = getParent u x := by
        intro x hx
        by_cases hkx : 0 ≤ (entAt u x).hierarchy
        · have hkne : (entAt u x).hierarchy ≠ (entAt u c).hierarchy := by
            intro hh
            have hx0 : 0 ≤ x := by
              by_contra h
              rw [entAt_neg u (by omega)] at hkx
              exact absurd hkx (by decide)
            have hxl : x.toNat < u.entities.length := by
              by_contra h
              rw [entAt_oob u (by omega)] at hkx
              exact absurd hkx (by decide)
            obtain ⟨_, hke⟩ := hFRu x hx0 hxl hkx
            rw [hh, hceB] at hke
            exact hx hke.symm
          rw [getParent_node _ (by rw [hentub]; exact hkx), getParent_node _ hkx, hentub,
            hubk _ hkne]
          exact (haF _).2.1
        · rw [getParent_no_node _ (by rw [hentub]; omega), getParent_no_node _ (by omega)]
      have hlocub : ∀ x : Int, localOf ub x = localOf u x := by
        intro x
        by_cases hkx : 0 ≤ (entAt u x).hierarchy
        · rw [localOf_eq_hier (by rw [hentub]; exact hkx), localOf_eq_hier hkx, hentub]
          by_cases hkc : (entAt u x).hierarchy = (entAt u c).hierarchy
          · rw [hkc, hubc]
            show (hierAt ua (entAt u c).hierarchy).local_transform = _
            exact (haF _).2.2
          · rw [hubk _ hkc]
            exact (haF _).2.2
        · rw [localOf_no_node _ (by rw [hentub]; omega), localOf_no_node _ (by omega)]
          exact congrFun (trAt_ext hubt) x
      have hop_facts : (hierAt u (entAt u c).hierarchy).parent.toNat < u.entities.length ∧
          0 ≤ (entAt u (hierAt u (entAt u c).hierarchy).parent).hierarchy := by
        have hpar := hwf.2.2.2.2.1 (entAt u c).hierarchy.toNat hcb
        rw [int_toNat_cast hci] at hpar
        rcases hpar with hpar | hpar
        · exact absurd hop (by omega)
        · exact ⟨hpar.1, hpar.2.1⟩
      have hcop : c ≠ (hierAt u (entAt u c).hierarchy).parent := by
        intro hh
        exact no_self_parent u hrooted hc0 (by rw [getParent_node u hci]; exact hh.symm)
      have hcg := cg_effect ub (hierAt u (entAt u c).hierarchy).parent hFRb hBRb hop
        (by rw [hube]; exact hop_facts.1) (by rw [hentub]; exact hop_facts.2)
      obtain ⟨⟨hct, hcel, hcn, hcf, hcobs⟩, hcFR, hcBR, hcdisj⟩ := hcg
      rw [← hd] at hct hcel hcn hcf hcobs hcFR hcBR hcdisj
      refine ⟨?_, ?_, ?_, ?_, hcFR, hcBR, ?_, ?_, ?_⟩
      · rw [hct, hubt]
      · rw [hcel, hube]
      · rw [hcn, hubn]
      · rw [hcf, hubf]
      · rw [(hcobs c hcop).1, hgpubc]
        omega
      · intro _
        by_contra hcon
        push_neg at hcon
        have h8 := ((hcobs c hcop).2.2.2.2).mp hcon
        rw [hentub] at h8
        omega
      · intro x hx hgx
        by_cases hxop : x = (hierAt u (entAt u c).hierarchy).parent
        · rcases hcdisj with hdz | hdn
          · subst hxop
            rw [hdz] at hgx ⊢
            exact ⟨hgpub _ (Ne.symm hcop), hlocub _⟩
          · subst hxop
            have h9 : getParent (detachPhase u np c)
                (hierAt u (entAt u c).hierarchy).parent = -1 :=
              getParent_no_node _ (by rw [hdn]; omega)
            rw [h9] at hgx
            exact absurd hgx (by omega)
        · have hx9 := hcobs x hxop
          refine ⟨?_, ?_⟩
          · rw [hx9.1, hgpub x hx]
          · rw [hx9.2.2.2.1, hlocub x]
    · have hd : detachPhase u np c = u := by
        simp only [detachPhase]
        rw [if_pos hci, if_neg hop]
      rw [hd]
      refine ⟨rfl, rfl, rfl, rfl, hFRu, hBRu, ?_, fun _ => hci, ?_⟩
      · rw [getParent_node u hci]
        omega
      · intro x hx hgx
        exact ⟨rfl, rfl⟩
  · by_cases hnp : 0 ≤ np
    · set ue := setEntAt u c { entAt u c with hierarchy := (u.hierarchy.length : Int) }
        with hue
      have hd : detachPhase u np c =
          { ue with hierarchy := ue.hierarchy ++ [⟨c, -1, -1, -1, 1⟩] } := by
        simp only [detachPhase]
        rw [if_neg hci, if_pos hnp, ← hue]
      have hde : (detachPhase u np c).entities = ue.entities := by rw [hd]
      have hdt : (detachPhase u np c).transforms = u.transforms := by
        rw [hd]
        show ue.transforms = _
        rw [hue]
        simp
      have hdn : (detachPhase u np c).names = u.names := by
        rw [hd]
        show ue.names = _
        rw [hue]
        simp
      have hdf : (detachPhase u np c).first_free_slot = u.first_free_slot := by
        rw [hd]
        show ue.first_free_slot = _
        rw [hue]
        simp
      have hdel : (detachPhase u np c).entities.length = u.entities.length := by
        rw [hde, hue]
        simp
      have hdh : (detachPhase u np c).hierarchy = u.hierarchy ++ [⟨c, -1, -1, -1, 1⟩] := by
        rw [hd]
        show ue.hierarchy ++ _ = _
        rw [hue]
        simp
      have hdl : (detachPhase u np c).hierarchy.length = u.hierarchy.length + 1 := by
        rw [hdh]
        simp
      have hentd : ∀ x : Int, x ≠ c → entAt (detachPhase u np c) x = entAt u x := by
        intro x hx
        have h1 : entAt (detachPhase u np c) x = entAt ue x := by
          simp only [entAt]
          rw [hde]
        rw [h1, hue, entAt_setEntAt_ne u _ hx]
      have hentdc : entAt (detachPhase u np c) c =
          { entAt u c with hierarchy := (u.hierarchy.length : Int) } := by
        have h1 : entAt (detachPhase u np c) c = entAt ue c := by
          simp only [entAt]
          rw [hde]
        rw [h1, hue, entAt_setEntAt_self u _ hc0 hcl]
      have hnodec : (entAt (detachPhase u np c) c).hierarchy = (u.hierarchy.length : Int) := by
        rw [hentdc]
      have hhk : ∀ k : Int, 0 ≤ k → k.toNat < u.hierarchy.length →
          hierAt (detachPhase u np c) k = hierAt u k := by
        intro k hk0 hkl
        rw [hierAt_pos _ hk0, hierAt_pos u hk0, hdh, getD_append_lt _ _ _ hkl]
      have hhL : hierAt (detachPhase u np c) (u.hierarchy.length : Int) =
          ⟨c, -1, -1, -1, 1⟩ := by
        rw [hierAt_pos _ (Int.natCast_nonneg _), hdh, Int.toNat_natCast, getD_append_self]
      refine ⟨hdt, hdel, hdn, hdf, ?_, ?_, ?_, fun _ => by rw [hnodec]; positivity, ?_⟩
      · intro x hx0 hxl hxn
        rw [hdel] at hxl
        by_cases hxc : x = c
        · subst hxc
          refine ⟨?_, ?_⟩
          · rw [hnodec, hdl, Int.toNat_natCast]
            omega
          · rw [hnodec, hhL]
        · rw [hentd x hxc] at hxn ⊢
          obtain ⟨hkb, hke⟩ := hFRu x hx0 hxl hxn
          rw [hdl]
          exact ⟨by omega, by rw [hhk _ hxn hkb]; exact hke⟩
      · intro k hk
        rw [hdl] at hk
        by_cases hkL : k = u.hierarchy.length
        · subst hkL
          rw [hhL]
          exact ⟨hc0, by rw [hdel]; exact hcl, by rw [hnodec]⟩
        · have hk2 : k < u.hierarchy.length := by omega
          have hhkk : hierAt (detachPhase u np c) (k : Int) = hierAt u (k : Int) :=
            hhk _ (Int.natCast_nonneg _) (by rw [Int.toNat_natCast]; exact hk2)
          obtain ⟨hbe0, hbel, hbeh⟩ := hBRu k hk2
          have hbc : (hierAt u (k : Int)).entity ≠ c := by
            intro he
            rw [he] at hbeh
            omega
          rw [hhkk, hdel, hentd _ hbc]
          exact ⟨hbe0, hbel, hbeh⟩
      · rw [getParent_node _ (by rw [hnodec]; positivity), hnodec, hhL]
        show (-1 : Int) < 0
        omega
      · intro x hx hgx
        by_cases hkx : 0 ≤ (entAt u x).hierarchy
        · have hx0 : 0 ≤ x := by
            by_contra h
            rw [entAt_neg u (by omega)] at hkx
            exact absurd hkx (by decide)
          have hxl : x.toNat < u.entities.length := by
            by_contra h
            rw [entAt_oob u (by omega)] at hkx
            exact absurd hkx (by decide)
          obtain ⟨hkb, hke⟩ := hFRu x hx0 hxl hkx
          refine ⟨?_, ?_⟩
          · rw [getParent_node _ (by rw [hentd x hx]; exact hkx), getParent_node _ hkx,
              hentd x hx, hhk _ hkx hkb]
          · rw [localOf_eq_hier (by rw [hentd x hx]; exact hkx), localOf_eq_hier hkx,
              hentd x hx, hhk _ hkx hkb]
        · refine ⟨?_, ?_⟩
          · rw [getParent_no_node _ (by rw [hentd x hx]; omega),
              getParent_no_node _ (by omega)]
          · rw [localOf_no_node _ (by rw [hentd x hx]; omega),
              localOf_no_node _ (by omega)]
            exact congrFun (trAt_ext hdt) x
    · have hd : detachPhase u np c = u := by
        simp only [detachPhase]
        rw [if_neg hci, if_neg hnp]
      rw [hd]
      refine ⟨rfl, rfl, rfl, rfl, hFRu, hBRu, ?_, fun hnp2 => absurd hnp2 hnp, ?_⟩
      · rw [getParent_no_node u (by omega)]
        omega
      · intro x hx hgx
        exact ⟨rfl, rfl⟩

theorem attachWrites_effect (u2 : Universe T) (np c kc : Int)
    (hFR2 : FwdRef u2)
    (hkc0 : 0 ≤ kc) (hkcb : kc.toNat < u2.hierarchy.length)
    (hkcE : (hierAt u2 kc).entity = c) (hkcc : (entAt u2 c).hierarchy = kc)
    (hnpn : 0 ≤ (entAt u2 np).hierarchy)
    (hnpb : (entAt u2 np).hierarchy.toNat < u2.hierarchy.length) :
    (attachWrites u2 np c kc).transforms = u2.transforms ∧
    (attachWrites u2 np c kc).entities = u2.entities ∧
    getParent (attachWrites u2 np c kc) c = np ∧
    localOf (attachWrites u2 np c kc) c = (trAt u2 np)⁻¹ * trAt u2 c ∧
    getFirstChild (attachWrites u2 np c kc) np = c ∧
    (∀ x : Int, x ≠ c → getParent (attachWrites u2 np c kc) x = getParent u2 x ∧
      localOf (attachWrites u2 np c kc) x = localOf u2 x) := by
  set u3 := setHierAt u2 kc { hierAt u2 kc with parent := np } with hu3
  set ltr := (trAt u3 np)⁻¹ * trAt u3 c with hltr
  set u4 := setHierAt u3 kc { hierAt u3 kc with local_transform := ltr } with hu4
  set u5 := setHierAt u4 kc
    { hierAt u4 kc with next_sibling := (hierAt u4 (entAt u2 np).hierarchy).first_child }
    with hu5
  have hv : attachWrites u2 np c kc =
      setHierAt u5 (entAt u2 np).hierarchy
        { hierAt u5 (entAt u2 np).hierarchy with first_child := c } := by
    simp only [attachWrites]
  have hveq : attachWrites u2 np c kc =
      linkWrite u5 (Sum.inl (entAt u2 np).hierarchy) c := by
    rw [hv]; rfl
  have hu5' : u5 = linkWrite u4 (Sum.inr kc)
      (hierAt u4 (entAt u2 np).hierarchy).first_child := by
    rw [hu5]; rfl
  have h3t : u3.transforms = u2.transforms := by rw [hu3]; simp
  have hvt : (attachWrites u2 np c kc).transforms = u2.transforms := by
    rw [hveq, linkWrite_transforms, hu5']
    rw [linkWrite_transforms, hu4]
    simp [h3t]
  have hve : (attachWrites u2 np c kc).entities = u2.entities := by
    rw [hveq, linkWrite_entities, hu5']
    rw [linkWrite_entities, hu4]
    simp [hu3]
  have hvent : ∀ x : Int, entAt (attachWrites u2 np c kc) x = entAt u2 x := by
    intro x
    simp only [entAt]
    rw [hve]
  have h3l : u3.hierarchy.length = u2.hierarchy.length := by rw [hu3]; simp
  have h4l : u4.hierarchy.length = u2.hierarchy.length := by rw [hu4]; simp [h3l]
  have h5l : u5.hierarchy.length = u2.hierarchy.length := by
    rw [hu5]; simp [h4l]
  have h3kc : hierAt u3 kc = { hierAt u2 kc with parent := np } := by
    rw [hu3]; exact hierAt_setHierAt_self u2 _ hkc0 hkcb
  have h4kc : hierAt u4 kc = { hierAt u3 kc with local_transform := ltr } := by
    rw [hu4]; exact hierAt_setHierAt_self u3 _ hkc0 (by rw [h3l]; exact hkcb)
  have h5kc : hierAt u5 kc =
      { hierAt u4 kc with
        next_sibling := (hierAt u4 (entAt u2 np).hierarchy).first_child } := by
    rw [hu5]; exact hierAt_setHierAt_self u4 _ hkc0 (by rw [h4l]; exact hkcb)
  have h3ne : ∀ j : Int, j ≠ kc → hierAt u3 j = hierAt u2 j := by
    intro j hj
    rw [hu3]; exact hierAt_setHierAt_ne u2 _ hj
  have h4ne : ∀ j : Int, j ≠ kc → hierAt u4 j = hierAt u3 j := by
    intro j hj
    rw [hu4]; exact hierAt_setHierAt_ne u3 _ hj
  have h5ne : ∀ j : Int, j ≠ kc → hierAt u5 j = hierAt u4 j := by
    intro j hj
    rw [hu5]; exact hierAt_setHierAt_ne u4 _ hj
  have hvp : ∀ j : Int, (hierAt (attachWrites u2 np c kc) j).parent = (hierAt u5 j).parent := by
    intro j
    rw [hveq]
    exact (linkWrite_fields u5 _ c j).2.1
  have hvl : ∀ j : Int, (hierAt (attachWrites u2 np c kc) j).local_transform =
      (hierAt u5 j).local_transform := by
    intro j
    rw [hveq]
    exact (linkWrite_fields u5 _ c j).2.2
  have h5p : ∀ j : Int, (hierAt u5 j).parent = (hierAt u4 j).parent := by
    intro j
    rw [hu5']
    exact (linkWrite_fields u4 _ _ j).2.1
  have h5loc : ∀ j : Int, (hierAt u5 j).local_transform = (hierAt u4 j).local_transform := by
    intro j
    rw [hu5']
    exact (linkWrite_fields u4 _ _ j).2.2
  have h4p : ∀ j : Int, (hierAt u4 j).parent = (hierAt u3 j).parent := by
    intro j
    rw [hu4]
    exact (locwrite_fields u3 kc ltr j).2.1
  have hgpc2 : getParent (attachWrites u2 np c kc) c = np := by
    rw [getParent_node _ (by rw [hvent, hkcc]; exact hkc0), hvent, hkcc, hvp, h5p, h4p, h3kc]
  have hlocc : localOf (attachWrites u2 np c kc) c = ltr := by
    rw [localOf_eq_hier (by rw [hvent, hkcc]; exact hkc0), hvent, hkcc, hvl, h5loc, h4kc]
  have hnpIdxv : (entAt (attachWrites u2 np c kc) np).hierarchy =
      (entAt u2 np).hierarchy := by rw [hvent]
  have hfcnp : (hierAt (attachWrites u2 np c kc) (entAt u2 np).hierarchy).first_child = c := by
    rw [hv]
    rw [hierAt_setHierAt_self u5 _ hnpn (by rw [h5l]; exact hnpb)]
  refine ⟨hvt, hve, hgpc2, ?_, ?_, ?_⟩
  · rw [hlocc, hltr]
    rw [trAt_ext h3t]
  · rw [getFirstChild_node _ (by rw [hnpIdxv]; exact hnpn), hnpIdxv, hfcnp]
  · intro x hx
    by_cases hkx : 0 ≤ (entAt u2 x).hierarchy
    · have hx0 : 0 ≤ x := by
        by_contra h
        rw [entAt_neg u2 (by omega)] at hkx
        exact absurd hkx (by decide)
      have hxl : x.toNat < u2.entities.length := by
        by_contra h
        rw [entAt_oob u2 (by omega)] at hkx
        exact absurd hkx (by decide)
      obtain ⟨hkb, hke⟩ := hFR2 x hx0 hxl hkx
      have hknec : (entAt u2 x).hierarchy ≠ kc := by
        intro hh
        rw [hh, hkcE] at hke
        exact hx hke.symm
      refine ⟨?_, ?_⟩
      · rw [getParent_node _ (by rw [hvent]; exact hkx), getParent_node _ hkx, hvent,
          hvp, h5p, h4p, h3ne _ hknec]
      · rw [localOf_eq_hier (by rw [hvent]; exact hkx), localOf_eq_hier hkx, hvent,
          hvl, h5loc, h4ne _ hknec, h3ne _ hknec]
    · refine ⟨?_, ?_⟩
      · rw [getParent_no_node _ (by rw [hvent]; omega), getParent_no_node _ (by omega)]
      · rw [localOf_no_node _ (by rw [hvent]; omega), localOf_no_node _ (by omega)]
        exact congrFun (trAt_ext hvt) x

theorem attach_effect (u1 : Universe T) (np c : Int)
    (hFR : FwdRef u1) (hBR : WFBackRefs u1)
    (hc0 : 0 ≤ c) (hcl : c.toNat < u1.entities.length)
    (hnp : 0 ≤ np → np.toNat < u1.entities.length)
    (hcnode : 0 ≤ np → 0 ≤ (entAt u1 c).hierarchy)
    (hgpc : getParent u1 c < 0) :
    (attachPhase u1 np c).transforms = u1.transforms ∧
    (attachPhase u1 np c).entities.length = u1.entities.length ∧
    (0 ≤ np → getParent (attachPhase u1 np c) c = np ∧
      localOf (attachPhase u1 np c) c = (trAt u1 np)⁻¹ * trAt u1 c ∧
      getFirstChild (attachPhase u1 np c) np = c) ∧
    (np < 0 → getParent (attachPhase u1 np c) c < 0) ∧
    (∀ x : Int, x ≠ c → getParent (attachPhase u1 np c) x = getParent u1 x ∧
      (0 ≤ getParent u1 x → localOf (attachPhase u1 np c) x = localOf u1 x)) := by
  by_cases hnp0 : 0 ≤ np
  · have hcn := hcnode hnp0
    obtain ⟨hcb, hceB⟩ := hFR c hc0 hcl hcn
    by_cases hemp : (entAt u1 np).hierarchy < 0
    · -- the new parent gets a fresh hierarchy node first
      have hnpc : np ≠ c := by
        intro h
        rw [h] at hemp
        omega
      set ue := setEntAt u1 np { entAt u1 np with hierarchy := (u1.hierarchy.length : Int) }
        with hue
      set w2 := { ue with hierarchy := ue.hierarchy ++ [(⟨np, -1, -1, -1, 1⟩ : Hierarchy T)] }
        with hw2
      have ha : attachPhase u1 np c = attachWrites w2 np c (entAt u1 c).hierarchy := by
        simp only [attachPhase]
        rw [if_pos hnp0, if_pos hemp]
      have h2e : w2.entities = ue.entities := by rw [hw2]
      have h2el : w2.entities.length = u1.entities.length := by
        rw [h2e, hue]
        simp
      have h2t : w2.transforms = u1.transforms := by
        rw [hw2]
        show ue.transforms = _
        rw [hue]
        simp
      have h2h : w2.hierarchy = u1.hierarchy ++ [(⟨np, -1, -1, -1, 1⟩ : Hierarchy T)] := by
        rw [hw2]
        show ue.hierarchy ++ _ = _
        rw [hue]
        simp
      have h2l : w2.hierarchy.length = u1.hierarchy.length + 1 := by
        rw [h2h]
        simp
      have hent2 : ∀ x : Int, x ≠ np → entAt w2 x = entAt u1 x := by
        intro x hx
        have h1 : entAt w2 x = entAt ue x := by
          simp only [entAt, h2e]
        rw [h1, hue, entAt_setEntAt_ne u1 _ hx]
      have hent2np : entAt w2 np = { entAt u1 np with hierarchy := (u1.hierarchy.length : Int) } := by
        have h1 : entAt w2 np = entAt ue np := by
          simp only [entAt, h2e]
        rw [h1, hue, entAt_setEntAt_self u1 _ hnp0 (hnp hnp0)]
      have hnode2np : (entAt w2 np).hierarchy = (u1.hierarchy.length : Int) := by
        rw [hent2np]
      have h2k : ∀ k : Int, 0 ≤ k → k.toNat < u1.hierarchy.length →
          hierAt w2 k = hierAt u1 k := by
        intro k hk0 hkl
        rw [hierAt_pos _ hk0, hierAt_pos u1 hk0, h2h, getD_append_lt _ _ _ hkl]
      have h2L : hierAt w2 (u1.hierarchy.length : Int) = (⟨np, -1, -1, -1, 1⟩ : Hierarchy T) := by
        rw [hierAt_pos _ (Int.natCast_nonneg _), h2h, Int.toNat_natCast, getD_append_self]
      have hFR2 : FwdRef w2 := by
        intro x hx0 hxl hxn
        rw [h2el] at hxl
        by_cases hxnp : x = np
        · subst hxnp
          refine ⟨?_, ?_⟩
          · rw [hnode2np, h2l, Int.toNat_natCast]
            omega
          · rw [hnode2np, h2L]
        · rw [hent2 x hxnp] at hxn ⊢
          obtain ⟨hkb, hke⟩ := hFR x hx0 hxl hxn
          rw [h2l]
          exact ⟨by omega, by rw [h2k _ hxn hkb]; exact hke⟩
      have hgp2 : ∀ x : Int, getParent w2 x = getParent u1 x := by
        intro x
        by_cases hxnp : x = np
        · subst hxnp
          rw [getParent_no_node u1 hemp,
            getParent_node _ (by rw [hnode2np]; positivity), hnode2np, h2L]
        · by_cases hkx : 0 ≤ (entAt u1 x).hierarchy
          · have hx0 : 0 ≤ x := by
              by_contra h
              rw [entAt_neg u1 (by omega)] at hkx
              exact absurd hkx (by decide)
            have hxl : x.toNat < u1.entities.length := by
              by_contra h
              rw [entAt_oob u1 (by omega)] at hkx
              exact absurd hkx (by decide)
            obtain ⟨hkb, _⟩ := hFR x hx0 hxl hkx
            rw [getParent_node _ (by rw [hent2 x hxnp]; exact hkx), getParent_node _ hkx,
              hent2 x hxnp, h2k _ hkx hkb]
          · rw [getParent_no_node _ (by rw [hent2 x hxnp]; omega),
              getParent_no_node _ (by omega)]
      have hloc2 : ∀ x : Int, x ≠ np → localOf w2 x = localOf u1 x := by
        intro x hxnp
        by_cases hkx : 0 ≤ (entAt u1 x).hierarchy
        · have hx0 : 0 ≤ x := by
            by_contra h
            rw [entAt_neg u1 (by omega)] at hkx
            exact absurd hkx (by decide)
          have hxl : x.toNat < u1.entities.length := by
            by_contra h
            rw [entAt_oob u1 (by omega)] at hkx
            exact absurd hkx (by decide)
          obtain ⟨hkb, _⟩ := hFR x hx0 hxl hkx
          rw [localOf_eq_hier (by rw [hent2 x hxnp]; exact hkx), localOf_eq_hier hkx,
            hent2 x hxnp, h2k _ hkx hkb]
        · rw [localOf_no_node _ (by rw [hent2 x hxnp]; omega), localOf_no_node _ (by omega)]
          exact congrFun (trAt_ext h2t) x
      have hW := attachWrites_effect w2 np c (entAt u1 c).hierarchy hFR2
        hcn (by rw [h2l]; omega)
        (by rw [h2k _ hcn hcb]; exact hceB)
        (by rw [hent2 c (Ne.symm hnpc)])
        (by rw [hnode2np]; positivity)
        (by rw [hnode2np, h2l, Int.toNat_natCast]; omega)
      obtain ⟨hWt, hWe, hWgp, hWloc, hWfc, hWx⟩ := hW
      rw [← ha] at hWt hWe hWgp hWloc hWfc hWx
      have htr2 : trAt w2 = trAt u1 := trAt_ext h2t
      refine ⟨by rw [hWt, h2t], by rw [hWe]; exact h2el, fun _ => ⟨hWgp, ?_, hWfc⟩,
        fun h => absurd hnp0 (by omega), ?_⟩
      · rw [hWloc, htr2]
      · intro x hx
        refine ⟨by rw [(hWx x hx).1, hgp2 x], ?_⟩
        intro hgx
        have hxnp : x ≠ np := by
          intro hh
          rw [hh, getParent_no_node u1 hemp] at hgx
          omega
        rw [(hWx x hx).2, hloc2 x hxnp]
    · -- the new parent already has a node
      have ha : attachPhase u1 np c = attachWrites u1 np c (entAt u1 c).hierarchy := by
        simp only [attachPhase]
        rw [if_pos hnp0, if_neg hemp]
      have hnpn : 0 ≤ (entAt u1 np).hierarchy := by omega
      have hW := attachWrites_effect u1 np c (entAt u1 c).hierarchy hFR
        hcn hcb hceB rfl hnpn (hFR np hnp0 (hnp hnp0) hnpn).1
      obtain ⟨hWt, hWe, hWgp, hWloc, hWfc, hWx⟩ := hW
      rw [← ha] at hWt hWe hWgp hWloc hWfc hWx
      exact ⟨hWt, by rw [hWe], fun _ => ⟨hWgp, hWloc, hWfc⟩,
        fun h => absurd hnp0 (by omega),
        fun x hx => ⟨(hWx x hx).1, fun _ => (hWx x hx).2⟩⟩
  · have ha : attachPhase u1 np c =
        if 0 ≤ (entAt u1 c).hierarchy then collectGarbage u1 c else u1 := by
      simp only [attachPhase]
      rw [if_neg hnp0]
    by_cases hcn : 0 ≤ (entAt u1 c).hierarchy
    · have ha2 : attachPhase u1 np c = collectGarbage u1 c := by rw [ha, if_pos hcn]
      have hcg := cg_effect u1 c hFR hBR hc0 hcl hcn
      obtain ⟨⟨hct, hcel, _, _, hcobs⟩, _, _, hcdisj⟩ := hcg
      rw [← ha2] at hct hcel hcobs hcdisj
      refine ⟨hct, hcel, fun h => absurd h hnp0, ?_, ?_⟩
      · intro _
        rcases hcdisj with hdz | hdn
        · rw [hdz]
          exact hgpc
        · rw [getParent_no_node _ (by rw [hdn]; omega)]
          omega
      · intro x hx
        exact ⟨(hcobs x hx).1, fun _ => (hcobs x hx).2.2.2.1⟩
    · have ha2 : attachPhase u1 np c = u1 := by rw [ha, if_neg hcn]
      rw [ha2]
      exact ⟨rfl, rfl, fun h => absurd h hnp0, fun _ => hgpc,
        fun x hx => ⟨rfl, fun _ => rfl⟩⟩

theorem setParent_effect (u : Universe T) (np c : Int) (hwf : WF u)
    (hc0 : 0 ≤ c) (hcl : c.toNat < u.entities.length)
    (hnp : 0 ≤ np → np.toNat < u.entities.length)
    (hguard : ¬ (0 ≤ np ∧ isDescendant u c np = true)) :
    (setParent u np c).transforms = u.transforms ∧
    (setParent u np c).entities.length = u.entities.length ∧
    (0 ≤ np → getParent (setParent u np c) c = np ∧
      localOf (setParent u np c) c = (trAt u np)⁻¹ * trAt u c ∧
      getFirstChild (setParent u np c) np = c) ∧
    (np < 0 → getParent (setParent u np c) c < 0) ∧
    (∀ x : Int, x ≠ c → 0 ≤ getParent (setParent u np c) x →
      getParent (setParent u np c) x = getParent u x ∧
      localOf (setParent u np c) x = localOf u x) := by
  have hsp : setParent u np c = attachPhase (detachPhase u np c) np c := by
    rw [setParent_eq, if_neg hguard]
  obtain ⟨hdt, hdel, hdn, hdf, hdFR, hdBR, hdgpc, hdnode, hdx⟩ :=
    detach_effect u np c hwf hc0 hcl
  have hA := attach_effect (detachPhase u np c) np c hdFR hdBR hc0
    (by rw [hdel]; exact hcl) (fun h => by rw [hdel]; exact hnp h) hdnode hdgpc
  obtain ⟨hat, hael, hanp, hann, hax⟩ := hA
  rw [← hsp] at hat hael hanp hann hax
  refine ⟨by rw [hat, hdt], by rw [hael, hdel], ?_, hann, ?_⟩
  · intro h
    obtain ⟨hg, hl, hf⟩ := hanp h
    refine ⟨hg, ?_, hf⟩
    rw [hl, trAt_ext hdt]
  · intro x hx hgx
    obtain ⟨hg1, hl1⟩ := hax x hx
    rw [hg1] at hgx
    obtain ⟨hg2, hl2⟩ := hdx x hx hgx
    exact ⟨by rw [hg1, hg2], by rw [hl1 hgx, hl2]⟩

theorem node_ne_of_ne (u : Universe T) (hwf : WF u) {x e : Int}
    (hx0 : 0 ≤ x) (hxl : x.toNat < u.entities.length)
    (hnx : 0 ≤ (entAt u x).hierarchy) (hne : x ≠ e) :
    (entAt u x).hierarchy ≠ (entAt u e).hierarchy := by
  intro hh
  have hFRu := fwdRef_of_wf u hwf
  obtain ⟨hkb, hke⟩ := hFRu x hx0 hxl hnx
  by_cases hne2 : 0 ≤ (entAt u e).hierarchy
  · have he0 : 0 ≤ e := by
      by_contra h
      rw [entAt_neg u (by omega)] at hne2
      exact absurd hne2 (by decide)
    have helv : e.toNat < u.entities.length := by
      by_contra h
      rw [entAt_oob u (by omega)] at hne2
      exact absurd hne2 (by decide)
    obtain ⟨_, hke2⟩ := hFRu e he0 helv hne2
    rw [hh, hke2] at hke
    exact hne hke.symm
  · omega

theorem transform_propagate (u : Universe T) (e : Int) (t : T) (hwf : WF u)
    (he0 : 0 ≤ e) (hel : e.toNat < u.entities.length)
    (hTI : ∀ i : Nat, i < u.entities.length → 0 ≤ getParent u (i : Int) →
      (i : Int) ≠ e → InvE u (i : Int)) :
    TransformInv (transformEntity (setTrAt u e t) e true) := by
  set u1 := setTrAt u e t with hu1
  have hL1 : LinksEq u1 u := by rw [hu1]; exact linksEq_setTrAt u e t
  have hwf1 : WF u1 := wf_of_linksEq hL1 hwf
  have hlen : u1.entities.length = u.entities.length := congrArg List.length hL1.1
  have htE : transformEntity u1 e true =
      transformEntityF (u.entities.length + 1) u1 e true := by
    rw [transformEntity, hlen]
  have hfuel : ∀ x n, parIter u1 n x = e → 0 ≤ x → n < u.entities.length + 1 := by
    intro x n hx _
    rw [parIter_of_linksEq hL1] at hx
    exact depth_bound u hwf.2.2.2.2.2.2.2 hx he0
  obtain ⟨hframe, hloc, hdesc, hself⟩ :=
    (te_tc_main (u.entities.length + 1)).1 u1 e true hwf1 hfuel
  rw [htE]
  have hLv : LinksEq (transformEntityF (u.entities.length + 1) u1 e true) u :=
    linksEq_trans ((te_tc_linksEq _).1 u1 e true) hL1
  have hgpv : getParent (transformEntityF (u.entities.length + 1) u1 e true) =
      getParent u := getParent_of_linksEq hLv
  intro i hi hgp
  rw [show (transformEntityF (u.entities.length + 1) u1 e true).entities.length =
    u.entities.length from congrArg List.length hLv.1] at hi
  rw [hgpv] at hgp
  by_cases hie : (i : Int) = e
  · rw [hie]
    apply hself rfl
    rw [getParent_of_linksEq hL1]
    rw [hie] at hgp
    exact hgp
  · by_cases hdie : DescP u e (i : Int)
    · apply hdesc
      rw [descP_of_linksEq hL1]
      exact hdie
    · have hIu : InvE u (i : Int) := hTI i hi hgp hie
      have hnd1 : ¬ DescP u1 e (i : Int) := by
        rw [descP_of_linksEq hL1]
        exact hdie
      have htri : trAt (transformEntityF (u.entities.length + 1) u1 e true) (i : Int) =
          trAt u (i : Int) := by
        rw [hframe _ hnd1, hu1, trAt_setTrAt_ne u t hie]
      have hgpne : getParent u (i : Int) ≠ e := by
        intro hh
        exact hdie (parent_desc u (Int.natCast_nonneg i) he0 hh)
      have hgpnd : ¬ DescP u1 e (getParent u (i : Int)) := by
        rw [descP_of_linksEq hL1]
        intro hd
        exact hdie (desc_trans u hd (parent_desc u (Int.natCast_nonneg i) hgp rfl))
      have htrp : trAt (transformEntityF (u.entities.length + 1) u1 e true)
          (getParent u (i : Int)) = trAt u (getParent u (i : Int)) := by
        rw [hframe _ hgpnd, hu1, trAt_setTrAt_ne u t hgpne]
      have hni : 0 ≤ (entAt u (i : Int)).hierarchy := parent_nonneg_of_getParent u hgp
      have hniv : 0 ≤ (entAt (transformEntityF (u.entities.length + 1) u1 e true)
          (i : Int)).hierarchy := by
        rw [entAt_of_linksEq hLv]
        exact hni
      have hne2 : (entAt u (i : Int)).hierarchy ≠ (entAt u e).hierarchy :=
        node_ne_of_ne u hwf (Int.natCast_nonneg i) (by rw [Int.toNat_natCast]; exact hi)
          hni hie
      have hlocv : localOf (transformEntityF (u.entities.length + 1) u1 e true) (i : Int) =
          localOf u (i : Int) := by
        rw [localOf_eq_hier hniv, localOf_eq_hier hni, entAt_of_linksEq hLv]
        rw [hloc _ (by rw [hu1]; simpa using hne2)]
        have hh : hierAt u1 = hierAt u :=
          hierAt_ext (by rw [hu1]; exact setTrAt_hierarchy u e t)
        rw [hh]
      simp only [InvE]
      rw [hgpv, htri, htrp, hlocv]
      exact hIu

/-- C1: the transform invariant `world(c) = world(parent(c)) * local(c)` at
every entity with a valid parent is re-established by each of the mutations
`setTransform`, `setPosition`, `setRotation`, `setScale`, `setLocalTransform`
and `setParent` on a well-formed registry in which it held before. -/
theorem claim1_transform_invariant_reestablished (u : Universe T) (m : Mutation T)
    (hwf : WF u) (hTI : TransformInv u) (hok : MutOk u m) :
    TransformInv (applyMutation u m) := by
  cases m with
  | mkSetTransform e t =>
      obtain ⟨he0, hel⟩ := hok
      show TransformInv (transformEntity (setTrAt u e t) e true)
      exact transform_propagate u e t hwf he0 hel (fun i hi hgp _ => hTI i hi hgp)
  | mkSetPosition e f =>
      obtain ⟨he0, hel⟩ := hok
      show TransformInv (transformEntity (setTrAt u e (f (trAt u e))) e true)
      exact transform_propagate u e _ hwf he0 hel (fun i hi hgp _ => hTI i hi hgp)
  | mkSetRotation e f =>
      obtain ⟨he0, hel⟩ := hok
      show TransformInv (transformEntity (setTrAt u e (f (trAt u e))) e true)
      exact transform_propagate u e _ hwf he0 hel (fun i hi hgp _ => hTI i hi hgp)
  | mkSetScale e f =>
      obtain ⟨he0, hel⟩ := hok
      show TransformInv (transformEntity (setTrAt u e (f (trAt u e))) e true)
      exact transform_propagate u e _ hwf he0 hel (fun i hi hgp _ => hTI i hi hgp)
  | mkSetLocalTransform e t =>
      obtain ⟨⟨he0, hel⟩, _⟩ := hok
      by_cases hn : (entAt u e).hierarchy < 0
      · have heq : applyMutation u (Mutation.mkSetLocalTransform e t) = setTransform u e t := by
          show setLocalTransform u e t = _
          rw [setLocalTransform, if_pos hn]
        rw [heq]
        show TransformInv (transformEntity (setTrAt u e t) e true)
        exact transform_propagate u e t hwf he0 hel (fun i hi hgp _ => hTI i hi hgp)
      · set u1 := setHierAt u (entAt u e).hierarchy
          { hierAt u (entAt u e).hierarchy with local_transform := t } with hu1
        have heq : applyMutation u (Mutation.mkSetLocalTransform e t) =
            transformEntity (setTrAt u1 e
              (trAt u1 (hierAt u1 (entAt u1 e).hierarchy).parent *
                (hierAt u1 (entAt u1 e).hierarchy).local_transform)) e true := by
          show setLocalTransform u e t = _
          rw [setLocalTransform, if_neg hn, ← hu1]
          rfl
        rw [heq]
        have hL1 : LinksEq u1 u := by rw [hu1]; exact linksEq_setLocal u _ t
        have hwf1 : WF u1 := wf_of_linksEq hL1 hwf
        have hel1 : e.toNat < u1.entities.length := by rw [hL1.1]; exact hel
        apply transform_propagate u1 e _ hwf1 he0 hel1
        intro i hi hgp hie
        rw [hL1.1] at hi
        rw [getParent_of_linksEq hL1] at hgp
        have hIu := hTI i hi hgp
        have htr : trAt u1 = trAt u :=
          trAt_ext (by rw [hu1]; exact setHierAt_transforms u _ _)
        have hni : 0 ≤ (entAt u (i : Int)).hierarchy := parent_nonneg_of_getParent u hgp
        have hne2 : (entAt u (i : Int)).hierarchy ≠ (entAt u e).hierarchy :=
          node_ne_of_ne u hwf (Int.natCast_nonneg i) (by rw [Int.toNat_natCast]; exact hi)
            hni hie
        have hloc1 : localOf u1 (i : Int) = localOf u (i : Int) := by
          rw [localOf_eq_hier (by rw [entAt_of_linksEq hL1]; exact hni),
            localOf_eq_hier hni, entAt_of_linksEq hL1, hu1,
            hierAt_setHierAt_ne u _ hne2]
        simp only [InvE]
        rw [getParent_of_linksEq hL1, htr, hloc1]
        exact hIu
  | mkSetParent np c =>
      obtain ⟨⟨hc0, hcl⟩, hnp⟩ := hok
      show TransformInv (setParent u np c)
      by_cases hguard : 0 ≤ np ∧ isDescendant u c np = true
      · rw [setParent_eq, if_pos hguard]
        intro i hi hgp
        exact hTI i hi hgp
      · obtain ⟨hsp_t, hsp_el, hsp_np, hsp_neg, hsp_x⟩ :=
          setParent_effect u np c hwf hc0 hcl hnp hguard
        intro i hi hgp
        rw [hsp_el] at hi
        have htr : trAt (setParent u np c) = trAt u := trAt_ext hsp_t
        by_cases hic : (i : Int) = c
        · rw [hic] at hgp ⊢
          by_cases hnp0 : 0 ≤ np
          · obtain ⟨hg, hl, _⟩ := hsp_np hnp0
            simp only [InvE]
            rw [hg, hl, htr]
            exact (mul_inv_cancel_left _ _).symm
          · exact absurd hgp (by have := hsp_neg (by omega); omega)
        · obtain ⟨hg, hl⟩ := hsp_x (i : Int) hic hgp
          have hgpu : 0 ≤ getParent u (i : Int) := by rw [← hg]; exact hgp
          have hIu := hTI i hi hgpu
          simp only [InvE]
          rw [htr, hg, hl]
          exact hIu

/-- C1 witness: overwriting entity 1's world transform on the two-level test
universe re-establishes the invariant. -/
theorem claim1_transform_invariant_reestablished_witness :
    WF chainU ∧ TransformInv chainU ∧
    MutOk chainU (Mutation.mkSetTransform 1 (Multiplicative.ofAdd 9)) ∧
    TransformInv (applyMutation chainU (Mutation.mkSetTransform 1 (Multiplicative.ofAdd 9))) :=
  ⟨by decide, by decide, ⟨by decide, by decide⟩,
    claim1_transform_invariant_reestablished chainU _ (by decide) (by decide)
      ⟨by decide, by decide⟩⟩

/-- C3: a `setParent` call that passes the cycle guard leaves the whole
world-transform store untouched, links the child under the new parent and
rewrites only its cached local transform, to
`inverse(world(new_parent)) * world(child)`. -/
theorem claim3_no_jump_reparent (u : Universe T) (np c : Int) (hwf : WF u)
    (hc0 : 0 ≤ c) (hcl : c.toNat < u.entities.length)
    (hnp0 : 0 ≤ np) (hnpl : np.toNat < u.entities.length)
    (hguard : isDescendant u c np = false) :
    (setParent u np c).transforms = u.transforms ∧
    getParent (setParent u np c) c = np ∧
    localOf (setParent u np c) c = (trAt u np)⁻¹ * trAt u c := by
  obtain ⟨ht, _, hnp2, _, _⟩ := setParent_effect u np c hwf hc0 hcl (fun _ => hnpl)
    (by rw [hguard]; simp)
  obtain ⟨hg, hl, _⟩ := hnp2 hnp0
  exact ⟨ht, hg, hl⟩

/-- C3 witness: reparenting entity 1 under entity 0 on the two-level test
universe moves no world transform. -/
theorem claim3_no_jump_reparent_witness :
    WF chainU ∧ isDescendant chainU 1 0 = false ∧
    ((setParent chainU 0 1).transforms = chainU.transforms ∧
      getParent (setParent chainU 0 1) 1 = 0 ∧
      localOf (setParent chainU 0 1) 1 = (trAt chainU 0)⁻¹ * trAt chainU 1) :=
  ⟨by decide, by decide,
    claim3_no_jump_reparent chainU 0 1 (by decide) (by decide) (by decide) (by decide)
      (by decide) (by decide)⟩

theorem isDescSearch_sound (u : Universe T) (hwf : WF u) :
    ∀ (fuel : Nat) (s d : Int), isDescSearch fuel u s d = true → SibDescP u s d := by
  intro fuel
  induction fuel with
  | zero =>
      intro s d h
      simp [isDescSearch] at h
  | succ fuel ih =>
      intro s d h
      rw [isDescSearch] at h
      by_cases hs : s < 0
      · rw [if_pos hs] at h
        exact absurd h (by simp)
      · rw [if_neg hs] at h
        by_cases hsd : s = d
        · exact ⟨s, sibReach_self u (by omega), Or.inl hsd⟩
        · rw [if_neg hsd] at h
          by_cases hfc : isDescSearch fuel u (getFirstChild u s) d = true
          · have hsub := ih _ _ hfc
            by_cases hns : 0 ≤ (entAt u s).hierarchy
            · have hdesc : DescP u s d := sibDescP_sub_desc u hwf hns (by omega) hsub
              exact ⟨s, sibReach_self u (by omega), Or.inr hdesc⟩
            · rw [getFirstChild_no_node u (by omega)] at hsub
              obtain ⟨y, ⟨hy0, m, hm⟩, _⟩ := hsub
              rw [sibIterN_neg_one] at hm
              omega
          · rw [if_neg hfc] at h
            obtain ⟨y, hy, hcase⟩ := ih _ _ h
            exact ⟨y, sibReach_tail u (by omega) hy, hcase⟩

theorem isDescendant_self_false (u : Universe T) (hwf : WF u) (e : Int) :
    isDescendant u e e = false := by
  cases hb : isDescendant u e e
  · rfl
  · exfalso
    rw [isDescendant] at hb
    have hsub := isDescSearch_sound u hwf _ _ _ hb
    by_cases hne : 0 ≤ (entAt u e).hierarchy
    · have he0 : 0 ≤ e := (bounds_of_node u hne).1
      exact desc_irrefl u hwf.2.2.2.2.2.2.2 he0 (sibDescP_sub_desc u hwf hne he0 hsub)
    · rw [getFirstChild_no_node u (by omega)] at hsub
      obtain ⟨y, ⟨hy0, m, hm⟩, _⟩ := hsub
      rw [sibIterN_neg_one] at hm
      omega

/-- C9: on a well-formed (acyclic) registry the call `setParent(e, e)` is not
rejected — the cycle guard only tests strict descent and `isDescendant(e, e)`
is `false` — and afterwards `getParent(e) = e` and `getFirstChild(e) = e`:
the hierarchy now contains a self-loop. -/
theorem claim9_self_parent_loop (u : Universe T) (e : Int) (hwf : WF u)
    (he0 : 0 ≤ e) (hel : e.toNat < u.entities.length) :
    isDescendant u e e = false ∧
    getParent (setParent u e e) e = e ∧
    getFirstChild (setParent u e e) e = e := by
  have hf := isDescendant_self_false u hwf e
  obtain ⟨_, _, hnp2, _, _⟩ := setParent_effect u e e hwf he0 hel (fun _ => hel)
    (by rw [hf]; simp)
  obtain ⟨hg, _, hfc⟩ := hnp2 he0
  exact ⟨hf, hg, hfc⟩

/-- C9 witness: making entity 1 of the two-level test universe its own parent
is accepted and creates a self-loop. -/
theorem claim9_self_parent_loop_witness :
    WF chainU ∧
    (isDescendant chainU 1 1 = false ∧
      getParent (setParent chainU 1 1) 1 = 1 ∧
      getFirstChild (setParent chainU 1 1) 1 = 1) :=
  ⟨by decide, claim9_self_parent_loop chainU 1 (by decide) (by decide) (by decide)⟩

theorem cg_transforms (z : Universe T) (ent : Int) :
    (collectGarbage z ent).transforms = z.transforms := by
  simp only [collectGarbage]
  split
  · rfl
  · split
    · rfl
    · simp

theorem detachPhase_transforms (u : Universe T) (np c : Int) :
    (detachPhase u np c).transforms = u.transforms := by
  simp only [detachPhase]
  split
  · split
    · rw [cg_transforms]
      simp only [setHierAt_transforms]
      exact (rfc_core _ u _ c).2.1
    · rfl
  · split
    · simp
    · rfl

theorem attachWrites_transforms (u2 : Universe T) (np c kc : Int) :
    (attachWrites u2 np c kc).transforms = u2.transforms := by
  simp only [attachWrites, setHierAt_transforms]

theorem attachPhase_transforms (u1 : Universe T) (np c : Int) :
    (attachPhase u1 np c).transforms = u1.transforms := by
  simp only [attachPhase]
  split
  · rw [attachWrites_transforms]
    split
    · simp
    · rfl
  · split
    · rw [cg_transforms]
    · rfl

theorem setParent_transforms (u : Universe T) (np c : Int) :
    (setParent u np c).transforms = u.transforms := by
  rw [setParent_eq]
  split
  · rfl
  · rw [attachPhase_transforms, detachPhase_transforms]

theorem mdc_transforms (u : Universe T) (e : Int) (i : Nat) :
    (moduleDestroyComponent u e i).transforms = u.transforms := by
  simp [moduleDestroyComponent, onComponentDestroyed]

theorem dcg_transforms : ∀ (steps : Nat) (u : Universe T) (e : Int) (i : Nat),
    (destroyComponentsGo steps u e i).transforms = u.transforms := by
  intro steps
  induction steps with
  | zero =>
      intro u e i
      rfl
  | succ steps ih =>
      intro u e i
      simp only [destroyComponentsGo]
      rw [ih]
      split
      · exact mdc_transforms u e i
      · rfl

theorem detachChildren_transforms : ∀ (fuel : Nat) (u : Universe T) (e : Int),
    (detachChildren fuel u e).transforms = u.transforms := by
  intro fuel
  induction fuel with
  | zero =>
      intro u e
      rfl
  | succ fuel ih =>
      intro u e
      simp only [detachChildren]
      split
      · rfl
      · rw [ih, setParent_transforms]

theorem destroyEntity_transforms (u : Universe T) (e : Int) :
    (destroyEntity u e).transforms = u.transforms := by
  simp only [destroyEntity, pushEvent_transforms]
  split_ifs <;>
    simp [dcg_transforms, setParent_transforms, detachChildren_transforms]

theorem chainL_mono (u : Universe T) {x : Int} :
    ∀ {n m : Nat} {c : Int}, n ≤ m → x ∈ chainL u n c → x ∈ chainL u m c := by
  intro n
  induction n with
  | zero =>
      intro m c _ h
      simp [chainL] at h
  | succ n ih =>
      intro m c hnm h
      rw [chainL] at h
      by_cases hc : c < 0
      · rw [if_pos hc] at h
        simp at h
      · rw [if_neg hc] at h
        obtain ⟨m2, rfl⟩ : ∃ m2, m = m2 + 1 := ⟨m - 1, by omega⟩
        rw [chainL, if_neg hc]
        rcases List.mem_cons.mp h with rfl | h2
        · exact List.mem_cons_self _ _
        · exact List.mem_cons_of_mem _ (ih (by omega) h2)

theorem chainL_nodup (u : Universe T) :
    ∀ (n : Nat) {c : Int} {F : Nat}, sibIterN u F c = -1 → (chainL u n c).Nodup := by
  intro n
  induction n with
  | zero =>
      intro c F _
      simp [chainL]
  | succ n ih =>
      intro c F hterm
      rw [chainL]
      by_cases hc : c < 0
      · rw [if_pos hc]
        simp
      · rw [if_neg hc]
        have hterm2 : sibIterN u (F + 1) c = -1 := sibIterN_ge u hterm (by omega)
        have hterm3 : sibIterN u F (getNextSibling u c) = -1 := by
          have h3 := hterm2
          rw [sibIterN, sibStep, if_neg hc] at h3
          exact h3
        refine List.nodup_cons.mpr ⟨?_, ih hterm3⟩
        intro hmem
        obtain ⟨_, j, hj⟩ := sibReach_of_mem_chainL u hmem
        exact sib_no_return u hterm2 (by omega) hj

theorem nodup_int_length_le (l : List Int) (hnd : l.Nodup) (n : Nat)
    (hb : ∀ x ∈ l, 0 ≤ x ∧ x.toNat < n) : l.length ≤ n := by
  have h1 : (l.map Int.toNat).Nodup := by
    refine List.Nodup.map_on ?_ hnd
    intro x hx y hy hxy
    have hx2 := (hb x hx).1
    have hy2 := (hb y hy).1
    omega
  have h3 : (l.map Int.toNat).toFinset ⊆ Finset.range n := by
    intro m hm
    obtain ⟨x, hx, rfl⟩ := List.mem_map.mp (List.mem_toFinset.mp hm)
    exact Finset.mem_range.mpr (hb x hx).2
  have h4 := Finset.card_le_card h3
  rw [List.toFinset_card_of_nodup h1, Finset.card_range, List.length_map] at h4
  exact h4

theorem sib_sim {v u : Universe T} {a : Int}
    (hns : ∀ x : Int, x ≠ a → getNextSibling v x = getNextSibling u x) :
    ∀ (h : Int), (∀ j : Nat, sibIterN u j h ≠ a) →
      ∀ j, sibIterN v j h = sibIterN u j h := by
  intro h havoid j
  induction j with
  | zero => rfl
  | succ j ihj =>
      rw [sibIterN_add v j 1, sibIterN_add u j 1, ihj]
      have h1 : ∀ (w : Universe T) (z : Int), sibIterN w 1 z = sibStep w z := by
        intro w z
        rfl
      rw [h1, h1, sibStep, sibStep]
      by_cases hy0 : sibIterN u j h < 0
      · rw [if_pos hy0, if_pos hy0]
      · rw [if_neg hy0, if_neg hy0]
        exact hns _ (havoid j)

theorem chainL_congr {v u : Universe T} {a : Int}
    (hns : ∀ x : Int, x ≠ a → getNextSibling v x = getNextSibling u x) :
    ∀ (F : Nat) (h : Int), (∀ j : Nat, sibIterN u j h ≠ a) →
      chainL v F h = chainL u F h := by
  intro F
  induction F with
  | zero =>
      intro h _
      rfl
  | succ F ihF =>
      intro h havoid
      rw [chainL, chainL]
      by_cases hh : h < 0
      · rw [if_pos hh, if_pos hh]
      · rw [if_neg hh, if_neg hh]
        have htail : ∀ j : Nat, sibIterN u j (getNextSibling u h) ≠ a := by
          intro j
          have h2 := havoid (j + 1)
          rw [sibIterN, sibStep, if_neg hh] at h2
          exact h2
        rw [hns h (havoid 0), ihF (getNextSibling u h) htail]

theorem avoid_of_parentless (u : Universe T) (hwf : WF u) {a P : Int}
    (ha0 : 0 ≤ a) (hgpa : getParent u a < 0)
    (hnP : 0 ≤ (entAt u P).hierarchy) :
    ∀ j : Nat, sibIterN u j (getFirstChild u P) ≠ a := by
  intro j hj
  obtain ⟨_, _, _, hpar⟩ := sibReach_first_child_sound u hwf hnP ⟨ha0, j, hj⟩
  have hP0 : 0 ≤ P := (bounds_of_node u hnP).1
  omega

theorem domination_rooted {v u : Universe T}
    (hdom : ∀ x : Int, getParent v x = getParent u x ∨ getParent v x = -1)
    (hlen : v.entities.length = u.entities.length)
    (hr : WFRooted u) : WFRooted v := by
  have key : ∀ (n : Nat) (x : Int), parIter v n x = parIter u n x ∨ parIter v n x = -1 := by
    intro n
    induction n with
    | zero =>
        intro x
        exact Or.inl rfl
    | succ n ihn =>
        intro x
        rw [parIter, parIter]
        by_cases hx : x < 0
        · rw [parStep_neg v hx, parStep_neg u hx]
          exact ihn (-1)
        · rw [parStep, parStep, if_neg hx, if_neg hx]
          rcases hdom x with h | h
          · rw [h]
            exact ihn _
          · rw [h]
            exact Or.inr (parIter_neg_one v n)
  intro i hi
  rw [hlen] at hi ⊢
  rcases key (u.entities.length + 1) (i : Int) with h | h
  · rw [h]
    exact hr i hi
  · exact h

theorem wf_transport {v u : Universe T} {ent : Int}
    (hwf : WF u) (hent0 : 0 ≤ ent)
    (hobs : HierObsPres v u ent)
    (hBRv : WFBackRefs v) (hFRv : FwdRef v)
    (hhl : v.hierarchy.length ≤ u.hierarchy.length)
    (hentv : (entAt v ent).hierarchy < 0)
    (hgpe : getParent u ent < 0) (hfce : getFirstChild u ent < 0) :
    WF v := by
  obtain ⟨htr, hel, hnm, hff, hobs2⟩ := hobs
  have hrooted : WFRooted u := hwf.2.2.2.2.2.2.2
  have hns : ∀ x : Int, x ≠ ent → getNextSibling v x = getNextSibling u x :=
    fun x hx => (hobs2 x hx).2.2.1
  refine ⟨by rw [htr, hel]; exact hwf.1,
    by rw [hel]; have h2 := hwf.2.1; omega,
    hBRv, ?_, ?_, ?_, ?_, ?_⟩
  · intro i hil
    by_cases hni : (entAt v (i : Int)).hierarchy < 0
    · exact Or.inl hni
    · exact Or.inr (hFRv (i : Int) (Int.natCast_nonneg i)
        (by rw [Int.toNat_natCast]; exact hil) (by omega))
  · intro k hk
    obtain ⟨hE0, hEl, hEb⟩ := hBRv k hk
    have hEne : (hierAt v (k : Int)).entity ≠ ent := by
      intro hh
      rw [hh] at hEb
      rw [hEb] at hentv
      have := Int.natCast_nonneg k
      omega
    have hgpE : getParent v (hierAt v (k : Int)).entity = (hierAt v (k : Int)).parent := by
      rw [getParent_node _ (by rw [hEb]; positivity), hEb]
    by_cases hpneg : (hierAt v (k : Int)).parent < 0
    · exact Or.inl hpneg
    · right
      have hgpu : getParent u (hierAt v (k : Int)).entity = (hierAt v (k : Int)).parent := by
        rw [← (hobs2 _ hEne).1, hgpE]
      have hPne : (hierAt v (k : Int)).parent ≠ ent := by
        intro hh
        have hmem := children_complete u hwf hE0 (by rw [hgpu, hh]) (by omega)
        rw [childrenOf, chainL, if_pos hfce] at hmem
        simp at hmem
      have hnuE : 0 ≤ (entAt u (hierAt v (k : Int)).entity).hierarchy :=
        parent_nonneg_of_getParent u (by rw [hgpu]; omega)
      obtain ⟨hkb, hke⟩ := fwdRef_of_wf u hwf _ hE0 (by rw [← hel]; exact hEl) hnuE
      have hupar := hwf.2.2.2.2.1 (entAt u (hierAt v (k : Int)).entity).hierarchy.toNat hkb
      rw [int_toNat_cast hnuE, hke] at hupar
      have hgpn : (hierAt u (entAt u (hierAt v (k : Int)).entity).hierarchy).parent =
          (hierAt v (k : Int)).parent := by
        rw [← getParent_node u hnuE]
        exact hgpu
      rw [hgpn] at hupar
      rcases hupar with h | ⟨hPl, hPn, hPmem⟩
      · omega
      refine ⟨by rw [hel]; exact hPl, ?_, ?_⟩
      · have hif := (hobs2 _ hPne).2.2.2.2
        have h2 : ¬ ((entAt v (hierAt v (k : Int)).parent).hierarchy < 0) := by
          intro hh
          exact absurd (hif.mp hh) (by omega)
        omega
      · have havoid := avoid_of_parentless u hwf hent0 hgpe hPn
        have hfc2 : getFirstChild v (hierAt v (k : Int)).parent =
            getFirstChild u (hierAt v (k : Int)).parent := (hobs2 _ hPne).2.1
        have hcongr : chainL v (v.entities.length + 1)
            (getFirstChild u (hierAt v (k : Int)).parent) =
            chainL u (u.entities.length + 1)
            (getFirstChild u (hierAt v (k : Int)).parent) := by
          rw [hel]
          exact chainL_congr hns _ _ havoid
        rw [childrenOf, hfc2, hcongr]
        exact hPmem
  · intro k hk x hx
    obtain ⟨hE0, hEl, hEb⟩ := hBRv k hk
    have hEne : (hierAt v (k : Int)).entity ≠ ent := by
      intro hh
      rw [hh] at hEb
      rw [hEb] at hentv
      have := Int.natCast_nonneg k
      omega
    have hnuE : 0 ≤ (entAt u (hierAt v (k : Int)).entity).hierarchy := by
      have hif := (hobs2 _ hEne).2.2.2.2
      have h2 : ¬ ((entAt u (hierAt v (k : Int)).entity).hierarchy < 0) := by
        intro hh
        rw [hEb] at hif
        have := hif.mpr hh
        have := Int.natCast_nonneg k
        omega
      omega
    have havoid := avoid_of_parentless u hwf hent0 hgpe hnuE
    have hfc2 : getFirstChild v (hierAt v (k : Int)).entity =
        getFirstChild u (hierAt v (k : Int)).entity := (hobs2 _ hEne).2.1
    have hcongr : chainL v (v.entities.length + 1)
        (getFirstChild u (hierAt v (k : Int)).entity) =
        chainL u (u.entities.length + 1)
        (getFirstChild u (hierAt v (k : Int)).entity) := by
      rw [hel]
      exact chainL_congr hns _ _ havoid
    rw [childrenOf, hfc2, hcongr, ← childrenOf] at hx
    obtain ⟨hx0, hxl, hxn, hxp⟩ := children_sound u hwf hnuE hx
    have hxne : x ≠ ent := by
      intro hh
      rw [hh] at hxp
      have hE02 : (0 : Int) ≤ (hierAt v (k : Int)).entity := hE0
      omega
    refine ⟨hx0, by rw [hel]; exact hxl, ?_, ?_⟩
    · have hif := (hobs2 x hxne).2.2.2.2
      have h2 : ¬ ((entAt v x).hierarchy < 0) := by
        intro hh
        exact absurd (hif.mp hh) (by omega)
      omega
    · rw [(hobs2 x hxne).1]
      exact hxp
  · intro k hk
    obtain ⟨hE0, hEl, hEb⟩ := hBRv k hk
    have hEne : (hierAt v (k : Int)).entity ≠ ent := by
      intro hh
      rw [hh] at hEb
      rw [hEb] at hentv
      have := Int.natCast_nonneg k
      omega
    have hnuE : 0 ≤ (entAt u (hierAt v (k : Int)).entity).hierarchy := by
      have hif := (hobs2 _ hEne).2.2.2.2
      have h2 : ¬ ((entAt u (hierAt v (k : Int)).entity).hierarchy < 0) := by
        intro hh
        rw [hEb] at hif
        have := hif.mpr hh
        have := Int.natCast_nonneg k
        omega
      omega
    have havoid := avoid_of_parentless u hwf hent0 hgpe hnuE
    have hfcv : (hierAt v (k : Int)).first_child =
        getFirstChild u (hierAt v (k : Int)).entity := by
      rw [← (hobs2 _ hEne).2.1, getFirstChild_node _ (by rw [hEb]; positivity), hEb]
    have hsim := sib_sim hns (getFirstChild u (hierAt v (k : Int)).entity) havoid
      (u.entities.length + 1)
    rw [hfcv, hel, hsim]
    obtain ⟨hkb2, hke2⟩ := fwdRef_of_wf u hwf _ hE0 (by rw [← hel]; exact hEl) hnuE
    have hterm := hwf.2.2.2.2.2.2.1 (entAt u (hierAt v (k : Int)).entity).hierarchy.toNat hkb2
    rw [int_toNat_cast hnuE] at hterm
    rw [getFirstChild_node u hnuE]
    exact hterm
  · apply domination_rooted ?_ hel hrooted
    intro x
    by_cases hx : x = ent
    · subst hx
      exact Or.inr (getParent_no_node v hentv)
    · exact Or.inl (hobs2 x hx).1

theorem WFFwdRefs_congr {v u : Universe T} (hent : v.entities = u.entities)
    (hlen : v.hierarchy.length = u.hierarchy.length)
    (hE : ∀ k : Int, (hierAt v k).entity = (hierAt u k).entity)
    (h : WFFwdRefs u) : WFFwdRefs v := by
  intro i hil
  rw [entAt_ext hent]
  rw [hent] at hil
  rcases h i hil with h2 | ⟨h2, h3⟩
  · exact Or.inl h2
  · exact Or.inr ⟨by rw [hlen]; exact h2, by rw [hE]; exact h3⟩

theorem avoid_of_parent (u : Universe T) (hwf : WF u) {c P e0 : Int}
    (hc0 : 0 ≤ c) (hcpar : getParent u c = e0) (hne : P ≠ e0)
    (hnP : 0 ≤ (entAt u P).hierarchy) :
    ∀ j : Nat, sibIterN u j (getFirstChild u P) ≠ c := by
  intro j hj
  obtain ⟨_, _, _, hpar⟩ := sibReach_first_child_sound u hwf hnP ⟨hc0, j, hj⟩
  rw [hcpar] at hpar
  exact hne hpar.symm

theorem avoid_self (u : Universe T) (hwf : WF u) {P : Int}
    (hnP : 0 ≤ (entAt u P).hierarchy) :
    ∀ j : Nat, sibIterN u j (getFirstChild u P) ≠ P := by
  intro j hj
  have hP0 : 0 ≤ P := (bounds_of_node u hnP).1
  obtain ⟨_, _, _, hpar⟩ := sibReach_first_child_sound u hwf hnP ⟨hP0, j, hj⟩
  exact no_self_parent u hwf.2.2.2.2.2.2.2 hP0 hpar

theorem chainL_neg (u : Universe T) {c : Int} (hc : c < 0) :
    ∀ n, chainL u n c = [] := by
  intro n
  cases n with
  | zero => rfl
  | succ n => rw [chainL, if_pos hc]

theorem chainL_stable (u : Universe T) :
    ∀ (F : Nat) {h : Int} (n : Nat), sibIterN u F h = -1 → F ≤ n →
      chainL u n h = chainL u F h := by
  intro F
  induction F with
  | zero =>
      intro h n hterm _
      rw [sibIterN] at hterm
      subst hterm
      rw [chainL_neg u (by omega)]
      rfl
  | succ F ih =>
      intro h n hterm hFn
      obtain ⟨n2, rfl⟩ : ∃ n2, n = n2 + 1 := ⟨n - 1, by omega⟩
      rw [chainL, chainL]
      by_cases hh : h < 0
      · rw [if_pos hh, if_pos hh]
      · rw [if_neg hh, if_neg hh]
        have hterm2 : sibIterN u F (getNextSibling u h) = -1 := by
          rw [sibIterN, sibStep, if_neg hh] at hterm
          exact hterm
        rw [ih n2 hterm2 (by omega)]

theorem cg_hier_length_le (z : Universe T) (ent : Int) :
    (collectGarbage z ent).hierarchy.length ≤ z.hierarchy.length := by
  simp only [collectGarbage]
  split
  · exact Nat.le_refl _
  · split
    · exact Nat.le_refl _
    · simp

theorem cg_wf (z : Universe T) (ent : Int) (hwf : WF z)
    (he0 : 0 ≤ ent) (hel : ent.toNat < z.entities.length)
    (hnode : 0 ≤ (entAt z ent).hierarchy) :
    WF (collectGarbage z ent) ∧ HierObsPres (collectGarbage z ent) z ent ∧
    (collectGarbage z ent = z ∨ (entAt (collectGarbage z ent) ent).hierarchy < 0) := by
  by_cases g1 : 0 ≤ (hierAt z (entAt z ent).hierarchy).parent
  · have hzz : collectGarbage z ent = z := by
      simp only [collectGarbage]
      rw [if_pos g1]
    rw [hzz]
    exact ⟨hwf, hierObsPres_refl z ent, Or.inl rfl⟩
  · by_cases g2 : 0 ≤ (hierAt z (entAt z ent).hierarchy).first_child
    · have hzz : collectGarbage z ent = z := by
        simp only [collectGarbage]
        rw [if_neg g1, if_pos g2]
      rw [hzz]
      exact ⟨hwf, hierObsPres_refl z ent, Or.inl rfl⟩
    · obtain ⟨hobs, hFRv, hBRv, hdisj⟩ :=
        cg_effect z ent (fwdRef_of_wf z hwf) hwf.2.2.1 he0 hel hnode
      rcases hdisj with hid | hneg
      · rw [hid]
        exact ⟨hwf, hierObsPres_refl z ent, Or.inl rfl⟩
      · refine ⟨wf_transport hwf he0 hobs hBRv hFRv (cg_hier_length_le z ent)
          (by omega) (by rw [getParent_node z hnode]; omega)
          (by rw [getFirstChild_node z hnode]; omega), hobs, Or.inr (by omega)⟩

theorem setParent_head (u : Universe T) (e c : Int) (hwf : WF u)
    (he0 : 0 ≤ e) (hcfc : c = getFirstChild u e) (hc0 : 0 ≤ c) :
    WF (setParent u (-1) c) ∧
    (childrenOf (setParent u (-1) c) e).length < (childrenOf u e).length := by
  have hrooted : WFRooted u := hwf.2.2.2.2.2.2.2
  have hne : 0 ≤ (entAt u e).hierarchy := by
    by_contra h
    rw [getFirstChild_no_node u (by omega)] at hcfc
    omega
  have hel : e.toNat < u.entities.length := (bounds_of_node u hne).2
  obtain ⟨_, hcl, hcnode, hcpar⟩ :=
    sibReach_first_child_sound u hwf hne ⟨hc0, 0, hcfc.symm⟩
  have hce : c ≠ e := by
    intro h
    subst h
    exact no_self_parent u hrooted hc0 hcpar
  obtain ⟨hkeb, hkee⟩ := fwdRef_of_wf u hwf e he0 hel hne
  obtain ⟨hkcb, hkce⟩ := fwdRef_of_wf u hwf c hc0 hcl hcnode
  have hop : (hierAt u (entAt u c).hierarchy).parent = e := by
    rw [← getParent_node u hcnode]
    exact hcpar
  have hlr : linkRead u (Sum.inl (entAt u e).hierarchy) = c := by
    simp only [linkRead]
    rw [← getFirstChild_node u hne, ← hcfc]
  have hrfc : removeFromChildren (u.entities.length + 2) u
      (Sum.inl (entAt u e).hierarchy) c =
      linkWrite u (Sum.inl (entAt u e).hierarchy) (getNextSibling u c) := by
    show removeFromChildren (u.entities.length + 1 + 1) u _ c = _
    rw [removeFromChildren]
    simp only [hlr]
    rw [if_neg (by omega : ¬ (c : Int) < 0), if_pos trivial]
  set ua := linkWrite u (Sum.inl (entAt u e).hierarchy) (getNextSibling u c) with hua
  set ub := setHierAt ua (entAt u c).hierarchy
    { hierAt ua (entAt u c).hierarchy with parent := -1, next_sibling := -1 } with hub
  have hd1 : detachPhase u (-1) c = collectGarbage ub e := by
    simp only [detachPhase]
    rw [if_pos hcnode, hop, if_pos he0, hrfc]
  have hua_ent : ua.entities = u.entities := by rw [hua]; exact linkWrite_entities u _ _
  have hua_tr : ua.transforms = u.transforms := by rw [hua]; exact linkWrite_transforms u _ _
  have hua_hl : ua.hierarchy.length = u.hierarchy.length := by
    rw [hua]
    exact linkWrite_hierarchy_length u _ _
  have hua_ne : ∀ k : Int, k ≠ (entAt u e).hierarchy → hierAt ua k = hierAt u k := by
    intro k hk
    rw [hua]
    simp only [linkWrite]
    exact hierAt_setHierAt_ne u _ hk
  have hua_e : hierAt ua (entAt u e).hierarchy =
      { hierAt u (entAt u e).hierarchy with first_child := getNextSibling u c } := by
    rw [hua]
    simp only [linkWrite]
    exact hierAt_setHierAt_self u _ hne hkeb
  have hua_fields : ∀ k : Int, (hierAt ua k).entity = (hierAt u k).entity ∧
      (hierAt ua k).parent = (hierAt u k).parent ∧
      (hierAt ua k).local_transform = (hierAt u k).local_transform := by
    intro k
    rw [hua]
    exact linkWrite_fields u _ _ k
  have hua_ns : ∀ k : Int, (hierAt ua k).next_sibling = (hierAt u k).next_sibling := by
    intro k
    by_cases hk : k = (entAt u e).hierarchy
    · subst hk
      rw [hua_e]
    · rw [hua_ne k hk]
  have hub_ent : ub.entities = u.entities := by
    rw [hub]
    simp only [setHierAt_entities]
    exact hua_ent
  have hub_tr : ub.transforms = u.transforms := by
    rw [hub]
    simp only [setHierAt_transforms]
    exact hua_tr
  have hub_hl : ub.hierarchy.length = u.hierarchy.length := by
    rw [hub]
    simp only [setHierAt_hierarchy_length]
    exact hua_hl
  have hub_ne : ∀ k : Int, k ≠ (entAt u c).hierarchy → hierAt ub k = hierAt ua k := by
    intro k hk
    rw [hub]
    exact hierAt_setHierAt_ne ua _ hk
  have hub_c : hierAt ub (entAt u c).hierarchy =
      { hierAt ua (entAt u c).hierarchy with parent := -1, next_sibling := -1 } := by
    rw [hub]
    exact hierAt_setHierAt_self ua _ hcnode (by rw [hua_hl]; exact hkcb)
  have hub_keep : ∀ k : Int, (hierAt ub k).entity = (hierAt ua k).entity ∧
      (hierAt ub k).first_child = (hierAt ua k).first_child ∧
      (hierAt ub k).local_transform = (hierAt ua k).local_transform := by
    intro k
    by_cases hk : k = (entAt u c).hierarchy
    · subst hk
      rw [hub_c]
      exact ⟨rfl, rfl, rfl⟩
    · rw [hub_ne k hk]
      exact ⟨rfl, rfl, rfl⟩
  have hentb : ∀ x : Int, entAt ub x = entAt u x := by
    intro x
    simp only [entAt]
    rw [hub_ent]
  have hE_b : ∀ k : Int, (hierAt ub k).entity = (hierAt u k).entity := by
    intro k
    rw [(hub_keep k).1, (hua_fields k).1]
  have hpar_b : ∀ k : Int, k ≠ (entAt u c).hierarchy →
      (hierAt ub k).parent = (hierAt u k).parent := by
    intro k hk
    rw [hub_ne k hk, (hua_fields k).2.1]
  have hfc_bk : ∀ k : Int, k ≠ (entAt u e).hierarchy →
      (hierAt ub k).first_child = (hierAt u k).first_child := by
    intro k hk
    rw [(hub_keep k).2.1, hua_ne k hk]
  have hfc_bke : (hierAt ub (entAt u e).hierarchy).first_child = getNextSibling u c := by
    rw [(hub_keep _).2.1, hua_e]
  have hns_bk : ∀ k : Int, k ≠ (entAt u c).hierarchy →
      (hierAt ub k).next_sibling = (hierAt u k).next_sibling := by
    intro k hk
    rw [hub_ne k hk, hua_ns k]
  have hnode_inj : ∀ x : Int, 0 ≤ (entAt u x).hierarchy → x ≠ c →
      (entAt u x).hierarchy ≠ (entAt u c).hierarchy := by
    intro x hx hxc
    exact node_ne_of_ne u hwf (bounds_of_node u hx).1 (bounds_of_node u hx).2 hx hxc
  have hnode_inj_e : ∀ x : Int, 0 ≤ (entAt u x).hierarchy → x ≠ e →
      (entAt u x).hierarchy ≠ (entAt u e).hierarchy := by
    intro x hx hxe
    exact node_ne_of_ne u hwf (bounds_of_node u hx).1 (bounds_of_node u hx).2 hx hxe
  have hgp_b : ∀ x : Int, x ≠ c → getParent ub x = getParent u x := by
    intro x hx
    by_cases hkx : 0 ≤ (entAt u x).hierarchy
    · rw [getParent_node _ (by rw [hentb]; exact hkx), getParent_node _ hkx, hentb,
        hpar_b _ (hnode_inj x hkx hx)]
    · rw [getParent_no_node _ (by rw [hentb]; omega), getParent_no_node _ (by omega)]
  have hgp_bc : getParent ub c = -1 := by
    rw [getParent_node _ (by rw [hentb]; exact hcnode), hentb, hub_c]
  have hfc_b : ∀ x : Int, x ≠ e → getFirstChild ub x = getFirstChild u x := by
    intro x hx
    by_cases hkx : 0 ≤ (entAt u x).hierarchy
    · rw [getFirstChild_node _ (by rw [hentb]; exact hkx), getFirstChild_node _ hkx, hentb,
        hfc_bk _ (hnode_inj_e x hkx hx)]
    · rw [getFirstChild_no_node _ (by rw [hentb]; omega),
        getFirstChild_no_node _ (by omega)]
  have hfc_be : getFirstChild ub e = getNextSibling u c := by
    rw [getFirstChild_node _ (by rw [hentb]; exact hne), hentb, hfc_bke]
  have hns_b : ∀ x : Int, x ≠ c → getNextSibling ub x = getNextSibling u x := by
    intro x hx
    by_cases hkx : 0 ≤ (entAt u x).hierarchy
    · rw [getNextSibling_node _ (by rw [hentb]; exact hkx), getNextSibling_node _ hkx,
        hentb, hns_bk _ (hnode_inj x hkx hx)]
    · rw [getNextSibling_no_node _ (by rw [hentb]; omega),
        getNextSibling_no_node _ (by omega)]
  have hterm_e : sibIterN u (u.entities.length + 1) c = -1 := by
    have h2 := hwf.2.2.2.2.2.2.1 (entAt u e).hierarchy.toNat hkeb
    rw [int_toNat_cast hne, ← getFirstChild_node u hne, ← hcfc] at h2
    exact h2
  have htail_term : sibIterN u u.entities.length (getNextSibling u c) = -1 := by
    have h2 := hterm_e
    rw [sibIterN, sibStep, if_neg (by omega)] at h2
    exact h2
  have havoid_tail : ∀ j : Nat, sibIterN u j (getNextSibling u c) ≠ c := by
    intro j hj
    exact sib_no_return u hterm_e hc0 hj
  have hchild_u : childrenOf u e = c :: chainL u u.entities.length (getNextSibling u c) := by
    rw [childrenOf, ← hcfc, chainL, if_neg (by omega)]
  have hsimc : ∀ (h : Int), (∀ j : Nat, sibIterN u j h ≠ c) →
      (∀ j, sibIterN ub j h = sibIterN u j h) ∧ ∀ F, chainL ub F h = chainL u F h := by
    intro h hav
    exact ⟨sib_sim hns_b h hav, fun F => chainL_congr hns_b F h hav⟩
  have hBRb : WFBackRefs ub := WFBackRefs_congr hub_ent hub_hl hE_b hwf.2.2.1
  have hFRb : FwdRef ub := FwdRef_congr hub_ent hub_hl hE_b (fwdRef_of_wf u hwf)
  have hwfb : WF ub := by
    refine ⟨by rw [hub_tr, hub_ent]; exact hwf.1,
      by rw [hub_hl, hub_ent]; exact hwf.2.1, hBRb,
      WFFwdRefs_congr hub_ent hub_hl hE_b hwf.2.2.2.1, ?_, ?_, ?_, ?_⟩
    · intro k hk
      rw [hub_hl] at hk
      obtain ⟨hB1, hB2, hB3⟩ := hwf.2.2.1 k hk
      by_cases hkc : (k : Int) = (entAt u c).hierarchy
      · left
        rw [hkc, hub_c]
        show (-1 : Int) < 0
        omega
      · rw [hpar_b _ hkc, hE_b]
        rcases hwf.2.2.2.2.1 k hk with h | ⟨h1, h2, h3⟩
        · exact Or.inl h
        · right
          have hEkc : (hierAt u (k : Int)).entity ≠ c := by
            intro hh
            apply hkc
            rw [← hB3, hh]
          refine ⟨by rw [hub_ent]; exact h1, by rw [hentb]; exact h2, ?_⟩
          by_cases hPe : (hierAt u (k : Int)).parent = e
          · rw [hPe] at h3 ⊢
            have htail_mem : (hierAt u (k : Int)).entity ∈
                chainL u u.entities.length (getNextSibling u c) := by
              rw [hchild_u] at h3
              rcases List.mem_cons.mp h3 with hh | hh
              · exact absurd hh hEkc
              · exact hh
            rw [childrenOf, hfc_be, hub_ent, (hsimc _ havoid_tail).2]
            exact chainL_mono u (by omega) htail_mem
          · have hav := avoid_of_parent u hwf hc0 hcpar hPe h2
            rw [childrenOf, hub_ent, hfc_b _ hPe, (hsimc _ hav).2, ← childrenOf]
            exact h3
    · intro k hk x hx
      rw [hub_hl] at hk
      obtain ⟨hB1, hB2, hB3⟩ := hwf.2.2.1 k hk
      rw [hE_b] at hx ⊢
      by_cases hOe : (hierAt u (k : Int)).entity = e
      · rw [hOe] at hx ⊢
        rw [childrenOf, hub_ent, hfc_be, (hsimc _ havoid_tail).2] at hx
        have hreach := sibReach_of_mem_chainL u hx
        have hxc : x ≠ c := by
          rintro rfl
          obtain ⟨_, j, hj⟩ := hreach
          exact havoid_tail j hj
        have hrc : SibReach u c x := sibReach_tail u hc0 hreach
        have hmem : x ∈ childrenOf u e := by
          rw [childrenOf, ← hcfc]
          exact mem_chainL_of_sibReach u hterm_e hrc
        obtain ⟨hx0, hxl, hxn, hxp⟩ := children_sound u hwf hne hmem
        exact ⟨hx0, by rw [hub_ent]; exact hxl, by rw [hentb]; exact hxn,
          by rw [hgp_b x hxc, hxp]⟩
      · have hnOu : 0 ≤ (entAt u (hierAt u (k : Int)).entity).hierarchy := by
          rw [hB3]
          exact Int.natCast_nonneg k
        have hav := avoid_of_parent u hwf hc0 hcpar hOe hnOu
        rw [childrenOf, hub_ent, hfc_b _ hOe, (hsimc _ hav).2, ← childrenOf] at hx
        obtain ⟨hx0, hxl, hxn, hxp⟩ := children_sound u hwf hnOu hx
        have hxc : x ≠ c := by
          rintro rfl
          rw [hcpar] at hxp
          exact hOe hxp.symm
        exact ⟨hx0, by rw [hub_ent]; exact hxl, by rw [hentb]; exact hxn,
          by rw [hgp_b x hxc, hxp]⟩
    · intro k hk
      rw [hub_hl] at hk
      obtain ⟨hB1, hB2, hB3⟩ := hwf.2.2.1 k hk
      have hu_end := hwf.2.2.2.2.2.2.1 k hk
      by_cases hke2 : (k : Int) = (entAt u e).hierarchy
      · have hfck : (hierAt ub (k : Int)).first_child = getNextSibling u c := by
          rw [hke2]
          exact hfc_bke
        rw [hfck, hub_ent, (hsimc _ havoid_tail).1]
        exact sibIterN_ge u htail_term (by omega)
      · have hOe : (hierAt u (k : Int)).entity ≠ e := by
          intro hh
          apply hke2
          rw [← hB3, hh]
        have hnOu : 0 ≤ (entAt u (hierAt u (k : Int)).entity).hierarchy := by
          rw [hB3]
          exact Int.natCast_nonneg k
        have hav := avoid_of_parent u hwf hc0 hcpar hOe hnOu
        have hfcO : getFirstChild u (hierAt u (k : Int)).entity =
            (hierAt u (k : Int)).first_child := by
          rw [getFirstChild_node u hnOu, hB3]
        rw [hfc_bk _ hke2, hub_ent, ← hfcO, (hsimc _ hav).1, hfcO]
        exact hu_end
    · have hdom : ∀ x : Int, getParent ub x = getParent u x ∨ getParent ub x = -1 := by
        intro x
        by_cases hx : x = c
        · subst hx
          exact Or.inr hgp_bc
        · exact Or.inl (hgp_b x hx)
      exact domination_rooted hdom (congrArg List.length hub_ent) hrooted
  obtain ⟨hwf1, hobs1, hdisj1⟩ := cg_wf ub e hwfb he0
    (by rw [hub_ent]; exact hel) (by rw [hentb]; exact hne)
  obtain ⟨h1tr, h1el, h1nm, h1ff, h1obs⟩ := hobs1
  have hcn1 : 0 ≤ (entAt (collectGarbage ub e) c).hierarchy := by
    have hif := (h1obs c hce).2.2.2.2
    have h2 : ¬ ((entAt (collectGarbage ub e) c).hierarchy < 0) := by
      intro hh
      have h3 := hif.mp hh
      rw [hentb] at h3
      omega
    omega
  have hsp : setParent u (-1) c = attachPhase (collectGarbage ub e) (-1) c := by
    rw [setParent_eq, if_neg (by rintro ⟨h2, _⟩; omega), hd1]
  have ha2 : attachPhase (collectGarbage ub e) (-1) c =
      collectGarbage (collectGarbage ub e) c := by
    simp only [attachPhase]
    rw [if_neg (by omega : ¬ (0 : Int) ≤ -1), if_pos hcn1]
  obtain ⟨hwf2, hobs2, hdisj2⟩ := cg_wf (collectGarbage ub e) c hwf1 hc0
    (by rw [h1el, hub_ent]; exact hcl) hcn1
  obtain ⟨h2tr, h2el, h2nm, h2ff, h2obs⟩ := hobs2
  constructor
  · rw [hsp, ha2]
    exact hwf2
  · rw [hsp, ha2]
    have hlen_old : 1 ≤ (childrenOf u e).length := by
      rw [hchild_u, List.length_cons]
      omega
    by_cases hnu1 : 0 ≤ (entAt (collectGarbage ub e) e).hierarchy
    · rcases hdisj1 with hid | hneg
      · have hgp1c : getParent (collectGarbage ub e) c < 0 := by
          rw [(h1obs c hce).1, hgp_bc]
          omega
        have hav2 := avoid_of_parentless (collectGarbage ub e) hwf1 hc0 hgp1c hnu1
        have hns2 : ∀ x : Int, x ≠ c →
            getNextSibling (collectGarbage (collectGarbage ub e) c) x =
            getNextSibling (collectGarbage ub e) x := fun x hx => (h2obs x hx).2.2.1
        have hfc2 : getFirstChild (collectGarbage (collectGarbage ub e) c) e =
            getFirstChild (collectGarbage ub e) e := (h2obs e (Ne.symm hce)).2.1
        have hcongr2 : childrenOf (collectGarbage (collectGarbage ub e) c) e =
            childrenOf (collectGarbage ub e) e := by
          rw [childrenOf, childrenOf, hfc2, h2el]
          exact chainL_congr hns2 _ _ hav2
        rw [hcongr2, hid]
        have hchain_ub : childrenOf ub e =
            chainL u (u.entities.length + 1) (getNextSibling u c) := by
          rw [childrenOf, hub_ent, hfc_be, (hsimc _ havoid_tail).2]
        rw [hchain_ub, hchild_u,
          chainL_stable u u.entities.length (u.entities.length + 1) htail_term (by omega),
          List.length_cons]
        omega
      · omega
    · have hfcu1 : getFirstChild (collectGarbage ub e) e = -1 :=
        getFirstChild_no_node _ (by omega)
      have hfc2 : getFirstChild (collectGarbage (collectGarbage ub e) c) e =
          getFirstChild (collectGarbage ub e) e := (h2obs e (Ne.symm hce)).2.1
      rw [childrenOf, hfc2, hfcu1, chainL_neg _ (by omega)]
      simpa using hlen_old

theorem entAt_hier_setEntAt (u : Universe T) (i : Int) (d : EntityData)
    (hd : d.hierarchy = (entAt u i).hierarchy) (x : Int) :
    (entAt (setEntAt u i d) x).hierarchy = (entAt u x).hierarchy := by
  rcases entAt_setEntAt_cases u i d x with h | ⟨rfl, _, _, h⟩
  · rw [h]
  · rw [h, hd]

theorem getParent_hier_congr_pt {v u : Universe T} (hh : v.hierarchy = u.hierarchy)
    {x : Int} (hx : (entAt v x).hierarchy = (entAt u x).hierarchy) :
    getParent v x = getParent u x := by
  simp only [getParent]
  rw [hx, hierAt_ext hh]

theorem getParent_setEntAt_keep (w : Universe T) (i : Int) (d : EntityData)
    (hd : d.hierarchy = (entAt w i).hierarchy) (x : Int) :
    getParent (setEntAt w i d) x = getParent w x :=
  getParent_hier_congr_pt (setEntAt_hierarchy w i d) (entAt_hier_setEntAt w i d hd x)

theorem getParent_pushEvent (u : Universe T) (ev : Event) (x : Int) :
    getParent (pushEvent u ev) x = getParent u x := rfl

theorem getParent_set_ffs (w : Universe T) (v x : Int) :
    getParent { w with first_free_slot := v } x = getParent w x := rfl

theorem getParent_set_names (w : Universe T) (n : List EntityName) (x : Int) :
    getParent { w with names := n } x = getParent w x := rfl

theorem dcg_nodePres : ∀ (steps : Nat) (u : Universe T) (e : Int) (i : Nat),
    (destroyComponentsGo steps u e i).hierarchy = u.hierarchy ∧
    ∀ x : Int,
      (entAt (destroyComponentsGo steps u e i) x).hierarchy = (entAt u x).hierarchy := by
  intro steps
  induction steps with
  | zero =>
      intro u e i
      exact ⟨rfl, fun x => rfl⟩
  | succ steps ih =>
      intro u e i
      simp only [destroyComponentsGo]
      by_cases hm : ((entAt u e).components &&& (1 <<< i) != 0) = true
      · rw [if_pos hm]
        obtain ⟨h1, h2⟩ := ih (moduleDestroyComponent u e i) e (i + 1)
        refine ⟨?_, fun x => ?_⟩
        · rw [h1]
          simp [moduleDestroyComponent, onComponentDestroyed]
        · rw [h2]
          simp only [moduleDestroyComponent, onComponentDestroyed, entAt_pushEvent]
          refine entAt_hier_setEntAt u e _ ?_ x
          rfl
      · rw [if_neg hm]
        exact ih u e (i + 1)

theorem detach_loop (e : Int) (he0 : 0 ≤ e) :
    ∀ (fuel : Nat) (u : Universe T), WF u → (childrenOf u e).length < fuel →
      WF (detachChildren fuel u e) ∧
      getFirstChild (detachChildren fuel u e) e < 0 ∧
      (detachChildren fuel u e).entities.length = u.entities.length ∧
      (∀ x : Int, 0 ≤ getParent (detachChildren fuel u e) x →
        getParent (detachChildren fuel u e) x = getParent u x) := by
  intro fuel
  induction fuel with
  | zero =>
      intro u hwf hlt
      omega
  | succ fuel ih =>
      intro u hwf hlt
      simp only [detachChildren]
      by_cases hfc : getFirstChild u e < 0
      · rw [if_pos hfc]
        exact ⟨hwf, hfc, rfl, fun x _ => rfl⟩
      · rw [if_neg hfc]
        have hc0 : 0 ≤ getFirstChild u e := by omega
        obtain ⟨hwf2, hmeas⟩ := setParent_head u e (getFirstChild u e) hwf he0 rfl hc0
        have hne : 0 ≤ (entAt u e).hierarchy := by
          by_contra h2
          rw [getFirstChild_no_node u (by omega)] at hfc
          omega
        obtain ⟨hcb0, hcl, _, _⟩ :=
          sibReach_first_child_sound u hwf hne ⟨hc0, 0, rfl⟩
        obtain ⟨_, hspel, _, hspc, hspx⟩ := setParent_effect u (-1) (getFirstChild u e)
          hwf hc0 hcl (fun h => absurd h (by omega)) (by rintro ⟨h2, _⟩; omega)
        obtain ⟨hwfF, hfcF, helF, hgpF⟩ :=
          ih (setParent u (-1) (getFirstChild u e)) hwf2 (by omega)
        refine ⟨hwfF, hfcF, by rw [helF, hspel], ?_⟩
        intro x hgx
        rw [hgpF x hgx]
        rw [hgpF x hgx] at hgx
        by_cases hxc : x = getFirstChild u e
        · subst hxc
          have h2 := hspc (by omega)
          omega
        · exact (hspx x hxc hgx).1

set_option maxHeartbeats 1000000 in
theorem destroyEntity_tail_gp (w : Universe T) (e x : Int) (hxe : x ≠ e) :
    getParent (destroyEntity w e) x =
    getParent (setParent (detachChildren (w.entities.length + 1) w e) (-1) e) x := by
  simp only [destroyEntity]
  rw [getParent_pushEvent, getParent_set_ffs]
  set u2 := setParent (detachChildren (w.entities.length + 1) w e) (-1) e with hu2
  set u3 := destroyComponentsGo 64 u2 e 0 with hu3
  set u4 := setEntAt u3 e
    { valid := false, prev := -1, next := u3.first_free_slot, name := (entAt u3 e).name,
      hierarchy := -1, components := (entAt u3 e).components } with hu4
  set u5 := (if 0 ≤ u4.first_free_slot then
      setEntAt u4 u4.first_free_slot
        { valid := (entAt u4 u4.first_free_slot).valid, prev := e,
          next := (entAt u4 u4.first_free_slot).next,
          name := (entAt u4 u4.first_free_slot).name,
          hierarchy := (entAt u4 u4.first_free_slot).hierarchy,
          components := (entAt u4 u4.first_free_slot).components }
    else u4) with hu5
  have h3 : getParent u3 x = getParent u2 x := by
    obtain ⟨h1, h2⟩ := dcg_nodePres 64 u2 e 0
    exact getParent_hier_congr_pt h1 (h2 x)
  have h4 : getParent u4 x = getParent u3 x :=
    getParent_hier_congr_pt (setEntAt_hierarchy u3 _ _)
      (by rw [entAt_setEntAt_ne u3 _ hxe])
  have h5 : getParent u5 x = getParent u4 x := by
    rw [hu5]
    by_cases hff : 0 ≤ u4.first_free_slot
    · rw [if_pos hff]
      refine getParent_setEntAt_keep _ _ _ ?_ x
      rfl
    · rw [if_neg hff]
  have h52 : getParent u5 x = getParent u2 x := by rw [h5, h4, h3]
  by_cases hnm : 0 ≤ (entAt u5 e).name
  · rw [if_pos hnm]
    refine ((getParent_setEntAt_keep _ _ _ ?_ x).trans
      ((getParent_set_names _ _ x).trans (getParent_setEntAt_keep _ _ _ ?_ x))).trans h52
    · rfl
    · rfl
  · rw [if_neg hnm]
    exact h52

/-- C6: `destroyEntity` on a valid entity with children leaves the
world-transform store untouched, and afterwards every former child — every
entity whose parent was the destroyed one — has an invalid parent (it is
root-level) while its world transform is exactly its pre-destroy value. -/
theorem claim6_destroy_children_rooted (u : Universe T) (e : Int) (hwf : WF u)
    (he0 : 0 ≤ e) (hel : e.toNat < u.entities.length)
    (hkids : 0 ≤ getFirstChild u e) :
    (destroyEntity u e).transforms = u.transforms ∧
    ∀ x : Int, getParent u x = e →
      getParent (destroyEntity u e) x < 0 ∧
      trAt (destroyEntity u e) x = trAt u x := by
  have htr := destroyEntity_transforms u e
  refine ⟨htr, fun x hpar => ?_⟩
  have hxe : x ≠ e := by
    rintro rfl
    exact no_self_parent u hwf.2.2.2.2.2.2.2 he0 hpar
  have hnodee : 0 ≤ (entAt u e).hierarchy := by
    by_contra h2
    rw [getFirstChild_no_node u (by omega)] at hkids
    omega
  have hgpu : 0 ≤ getParent u x := by rw [hpar]; exact he0
  have hnodex : 0 ≤ (entAt u x).hierarchy := parent_nonneg_of_getParent u hgpu
  have hx0 : 0 ≤ x := (bounds_of_node u hnodex).1
  have hmeas : (childrenOf u e).length < u.entities.length + 1 := by
    have hnd : (childrenOf u e).Nodup :=
      chainL_nodup u _ (chain_term_first_child u hwf e)
    have hb : ∀ y ∈ childrenOf u e, 0 ≤ y ∧ y.toNat < u.entities.length := by
      intro y hy
      obtain ⟨h1, h2, _, _⟩ := children_sound u hwf hnodee hy
      exact ⟨h1, h2⟩
    have h3 := nodup_int_length_le _ hnd _ hb
    omega
  obtain ⟨hwf1, hfc1, hel1, hgp1⟩ :=
    detach_loop e he0 (u.entities.length + 1) u hwf hmeas
  have hgp1x : getParent (detachChildren (u.entities.length + 1) u e) x < 0 := by
    by_contra hpos
    have heq := hgp1 x (by omega)
    have hmem := children_complete (detachChildren (u.entities.length + 1) u e) hwf1 hx0
      (by rw [heq]; exact hpar) he0
    rw [childrenOf, chainL_neg _ hfc1] at hmem
    exact List.not_mem_nil _ hmem
  obtain ⟨_, _, _, _, hsp2x⟩ := setParent_effect
    (detachChildren (u.entities.length + 1) u e) (-1) e hwf1 he0
    (by rw [hel1]; exact hel) (fun h => absurd h (by omega))
    (by rintro ⟨h2, _⟩; omega)
  have hgp2x :
      getParent (setParent (detachChildren (u.entities.length + 1) u e) (-1) e) x < 0 := by
    by_contra hpos
    have heq := (hsp2x x hxe (by omega)).1
    omega
  rw [destroyEntity_tail_gp u e x hxe]
  exact ⟨hgp2x, by rw [trAt_ext htr]⟩

/-- C6 witness: destroying entity 0 of the two-level test universe roots its
former child 1 and keeps all world transforms. -/
theorem claim6_destroy_children_rooted_witness :
    WF chainU ∧ 0 ≤ getFirstChild chainU 0 ∧
    ((destroyEntity chainU 0).transforms = chainU.transforms ∧
      ∀ x : Int, getParent chainU x = 0 →
        getParent (destroyEntity chainU 0) x < 0 ∧
        trAt (destroyEntity chainU 0) x = trAt chainU x) :=
  ⟨by decide, by decide,
    claim6_destroy_children_rooted chainU 0 (by decide) (by decide) (by decide)
      (by decide)⟩

theorem countP_set_eq {α : Type} (p : α → Bool) :
    ∀ (L : List α) (i : Nat) (d dflt : α), p d = p (L.getD i dflt) →
      (L.set i d).countP p = L.countP p := by
  intro L
  induction L with
  | nil =>
      intro i d dflt _
      rfl
  | cons a L ih =>
      intro i d dflt h
      cases i with
      | zero =>
          rw [List.getD_cons_zero] at h
          rw [List.set_cons_zero, List.countP_cons, List.countP_cons, h]
      | succ i =>
          rw [List.getD_cons_succ] at h
          rw [List.set_cons_succ, List.countP_cons, List.countP_cons, ih i d dflt h]

theorem countP_set_succ {α : Type} (p : α → Bool) :
    ∀ (L : List α) (i : Nat) (d dflt : α), i < L.length → p d = true →
      p (L.getD i dflt) = false →
      (L.set i d).countP p = L.countP p + 1 := by
  intro L
  induction L with
  | nil =>
      intro i d dflt hi _ _
      simp at hi
  | cons a L ih =>
      intro i d dflt hi hd hold
      cases i with
      | zero =>
          rw [List.getD_cons_zero] at hold
          rw [List.set_cons_zero, List.countP_cons, List.countP_cons, hd, hold]
          simp
      | succ i =>
          rw [List.getD_cons_succ] at hold
          rw [List.set_cons_succ, List.countP_cons, List.countP_cons,
            ih i d dflt (by simpa using hi) hd hold]
          omega

theorem countP_set_pred {α : Type} (p : α → Bool) :
    ∀ (L : List α) (i : Nat) (d dflt : α), i < L.length → p d = false →
      p (L.getD i dflt) = true →
      (L.set i d).countP p + 1 = L.countP p := by
  intro L
  induction L with
  | nil =>
      intro i d dflt hi _ _
      simp at hi
  | cons a L ih =>
      intro i d dflt hi hd hold
      cases i with
      | zero =>
          rw [List.getD_cons_zero] at hold
          rw [List.set_cons_zero, List.countP_cons, List.countP_cons, hd, hold]
          simp
      | succ i =>
          rw [List.getD_cons_succ] at hold
          rw [List.set_cons_succ, List.countP_cons, List.countP_cons,
            ← ih i d dflt (by simpa using hi) hd hold]
          omega

theorem countValid_setTrAt (u : Universe T) (i : Int) (t : T) :
    countValid (setTrAt u i t) = countValid u := by
  rw [setTrAt]
  split
  · rfl
  · rfl

theorem setTrAt_entities_length (u : Universe T) (i : Int) (t : T) :
    (setTrAt u i t).entities.length = u.entities.length := by
  rw [setTrAt_entities]

theorem countValid_setEntAt_same (u : Universe T) (i : Int) (d : EntityData)
    (h : d.valid = (entAt u i).valid) :
    countValid (setEntAt u i d) = countValid u := by
  rw [setEntAt]
  split
  · rfl
  · rename_i hi
    rw [entAt, if_neg hi] at h
    exact countP_set_eq _ _ _ _ _ h

theorem countValid_setEntAt_up (u : Universe T) (i : Int) (d : EntityData)
    (hi0 : 0 ≤ i) (hil : i.toNat < u.entities.length)
    (hd : d.valid = true) (hold : (entAt u i).valid = false) :
    countValid (setEntAt u i d) = countValid u + 1 := by
  rw [setEntAt, if_neg (by omega)]
  rw [entAt, if_neg (by omega)] at hold
  exact countP_set_succ _ _ _ _ _ hil hd hold

theorem countValid_setEntAt_down (u : Universe T) (i : Int) (d : EntityData)
    (hi0 : 0 ≤ i) (hil : i.toNat < u.entities.length)
    (hd : d.valid = false) (hold : (entAt u i).valid = true) :
    countValid (setEntAt u i d) + 1 = countValid u := by
  rw [setEntAt, if_neg (by omega)]
  rw [entAt, if_neg (by omega)] at hold
  exact countP_set_pred _ _ _ _ _ hil hd hold

theorem entAt_append1 {v u : Universe T} (r : EntityData)
    (h : v.entities = u.entities ++ [r]) {x : Int}
    (hx : x.toNat < u.entities.length) : entAt v x = entAt u x := by
  simp only [entAt, h]
  split
  · rfl
  · rw [List.getD_append _ _ _ _ hx]

theorem entAt_append_last {v u : Universe T} (r : EntityData)
    (h : v.entities = u.entities ++ [r]) :
    entAt v (u.entities.length : Int) = r := by
  simp only [entAt, h]
  rw [if_neg (by omega), Int.toNat_natCast,
    List.getD_append_right _ _ _ _ (Nat.le_refl _)]
  simp

theorem ifl_congr {v u : Universe T} (hlen : u.entities.length ≤ v.entities.length) :
    ∀ (l : List Int) (h p : Int),
      (∀ a ∈ l, (entAt v a).valid = (entAt u a).valid ∧
        (entAt v a).prev = (entAt u a).prev ∧ (entAt v a).next = (entAt u a).next) →
      isFreeList u h p l → isFreeList v h p l := by
  intro l
  induction l with
  | nil =>
      intro h p _ hf
      exact hf
  | cons a rest ih =>
      intro h p hsame hf
      obtain ⟨h1, h2, h3, h4, h5, h6⟩ := hf
      obtain ⟨e1, e2, e3⟩ := hsame a (List.mem_cons_self a rest)
      exact ⟨h1, h2, by omega, by rw [e1]; exact h4, by rw [e2]; exact h5,
        by rw [e3]; exact ih _ _ (fun b hb => hsame b (List.mem_cons_of_mem a hb)) h6⟩

theorem ifl_elem (u : Universe T) :
    ∀ (l : List Int) (h p : Int), isFreeList u h p l →
      ∀ a ∈ l, 0 ≤ a ∧ a.toNat < u.entities.length ∧ (entAt u a).valid = false := by
  intro l
  induction l with
  | nil =>
      intro h p _ a ha
      exact absurd ha (List.not_mem_nil a)
  | cons b rest ih =>
      intro h p hf a ha
      obtain ⟨h1, h2, h3, h4, h5, h6⟩ := hf
      rcases List.mem_cons.mp ha with rfl | ha2
      · exact ⟨h2, h3, h4⟩
      · exact ih _ _ h6 a ha2

theorem ifl_prev_at (u : Universe T) (e : Int) (l2 : List Int) :
    ∀ (l1 : List Int) (h p : Int), isFreeList u h p (l1 ++ e :: l2) →
      (entAt u e).prev = l1.getLastD p := by
  intro l1
  induction l1 with
  | nil =>
      intro h p hf
      exact hf.2.2.2.2.1
  | cons a l1 ih =>
      intro h p hf
      rw [List.getLastD_cons]
      exact ih _ _ hf.2.2.2.2.2

theorem ifl_next_at (u : Universe T) (e : Int) (l2 : List Int) :
    ∀ (l1 : List Int) (h p : Int), isFreeList u h p (l1 ++ e :: l2) →
      (entAt u e).next = l2.headD (-1) := by
  intro l1
  induction l1 with
  | nil =>
      intro h p hf
      have h6 := hf.2.2.2.2.2
      cases l2 with
      | nil => exact h6
      | cons b l2 => exact h6.1
  | cons a l1 ih =>
      intro h p hf
      exact ih _ _ hf.2.2.2.2.2

theorem vpn_refl (u : Universe T) : VPN u u :=
  ⟨rfl, rfl, rfl, fun _ => ⟨rfl, rfl, rfl⟩⟩

theorem vpn_trans {a b c : Universe T} (h1 : VPN a b) (h2 : VPN b c) : VPN a c := by
  obtain ⟨l1, f1, c1, p1⟩ := h1
  obtain ⟨l2, f2, c2, p2⟩ := h2
  refine ⟨l1.trans l2, f1.trans f2, c1.trans c2, fun x => ?_⟩
  obtain ⟨a1, a2, a3⟩ := p1 x
  obtain ⟨b1, b2, b3⟩ := p2 x
  exact ⟨a1.trans b1, a2.trans b2, a3.trans b3⟩

theorem vpn_pushEvent (u : Universe T) (ev : Event) : VPN (pushEvent u ev) u :=
  ⟨rfl, rfl, rfl, fun _ => ⟨rfl, rfl, rfl⟩⟩

theorem vpn_setHierAt (u : Universe T) (i : Int) (h : Hierarchy T) :
    VPN (setHierAt u i h) u := by
  rw [setHierAt]
  split
  · exact vpn_refl u
  · exact ⟨rfl, rfl, rfl, fun _ => ⟨rfl, rfl, rfl⟩⟩

theorem vpn_setTrAt (u : Universe T) (i : Int) (t : T) : VPN (setTrAt u i t) u :=
  ⟨setTrAt_entities_length u i t, setTrAt_first_free_slot u i t,
    countValid_setTrAt u i t, fun x => by rw [entAt_setTrAt]; exact ⟨rfl, rfl, rfl⟩⟩

theorem vpn_set_hierarchy_list (w : Universe T) (hl : List (Hierarchy T)) :
    VPN { w with hierarchy := hl } w :=
  ⟨rfl, rfl, rfl, fun _ => ⟨rfl, rfl, rfl⟩⟩

theorem vpn_set_names (w : Universe T) (nl : List EntityName) :
    VPN { w with names := nl } w :=
  ⟨rfl, rfl, rfl, fun _ => ⟨rfl, rfl, rfl⟩⟩

theorem entAt_vpn_setEntAt (u : Universe T) (i : Int) (d : EntityData)
    (hv : d.valid = (entAt u i).valid) (hp : d.prev = (entAt u i).prev)
    (hn : d.next = (entAt u i).next) (x : Int) :
    (entAt (setEntAt u i d) x).valid = (entAt u x).valid ∧
    (entAt (setEntAt u i d) x).prev = (entAt u x).prev ∧
    (entAt (setEntAt u i d) x).next = (entAt u x).next := by
  rcases entAt_setEntAt_cases u i d x with h | ⟨rfl, _, _, h⟩
  · rw [h]
    exact ⟨rfl, rfl, rfl⟩
  · rw [h, hv, hp, hn]
    exact ⟨rfl, rfl, rfl⟩

theorem vpn_setEntAt_keep (u : Universe T) (i : Int) (d : EntityData)
    (hv : d.valid = (entAt u i).valid) (hp : d.prev = (entAt u i).prev)
    (hn : d.next = (entAt u i).next) : VPN (setEntAt u i d) u :=
  ⟨setEntAt_entities_length u i d, setEntAt_first_free_slot u i d,
    countValid_setEntAt_same u i d hv, entAt_vpn_setEntAt u i d hv hp hn⟩

theorem vpn_setEntAt_hier (u : Universe T) (i k : Int) :
    VPN (setEntAt u i { entAt u i with hierarchy := k }) u :=
  vpn_setEntAt_keep u i _ rfl rfl rfl

theorem vpn_setEntAt_name (u : Universe T) (i k : Int) :
    VPN (setEntAt u i { entAt u i with name := k }) u :=
  vpn_setEntAt_keep u i _ rfl rfl rfl

theorem vpn_setEntAt_components (u : Universe T) (i : Int) (m : Nat) :
    VPN (setEntAt u i { entAt u i with components := m }) u :=
  vpn_setEntAt_keep u i _ rfl rfl rfl

theorem vpn_linkWrite (u : Universe T) (p : Sum Int Int) (v : Int) :
    VPN (linkWrite u p v) u := by
  cases p with
  | inl k => exact vpn_setHierAt u k _
  | inr k => exact vpn_setHierAt u k _

theorem vpn_rfc : ∀ (fuel : Nat) (u : Universe T) (p : Sum Int Int) (c : Int),
    VPN (removeFromChildren fuel u p c) u := by
  intro fuel
  induction fuel with
  | zero =>
      intro u p c
      exact vpn_refl u
  | succ fuel ih =>
      intro u p c
      simp only [removeFromChildren]
      split
      · exact vpn_refl u
      · split
        · exact vpn_linkWrite u p _
        · exact ih u _ c

theorem vpn_cg (z : Universe T) (ent : Int) : VPN (collectGarbage z ent) z := by
  simp only [collectGarbage]
  split
  · exact vpn_refl z
  · split
    · exact vpn_refl z
    · exact vpn_trans (vpn_set_hierarchy_list _ _)
        (vpn_trans (vpn_setHierAt _ _ _)
          (vpn_trans (vpn_setEntAt_hier _ _ _) (vpn_setEntAt_hier _ _ _)))

theorem vpn_detachPhase (u : Universe T) (np c : Int) : VPN (detachPhase u np c) u := by
  simp only [detachPhase]
  split
  · split
    · exact vpn_trans (vpn_cg _ _)
        (vpn_trans (vpn_setHierAt _ _ _) (vpn_rfc _ _ _ _))
    · exact vpn_refl u
  · split
    · exact vpn_trans (vpn_set_hierarchy_list _ _) (vpn_setEntAt_hier _ _ _)
    · exact vpn_refl u

theorem vpn_attachWrites (u2 : Universe T) (np c kc : Int) :
    VPN (attachWrites u2 np c kc) u2 := by
  simp only [attachWrites]
  exact vpn_trans (vpn_setHierAt _ _ _)
    (vpn_trans (vpn_setHierAt _ _ _)
      (vpn_trans (vpn_setHierAt _ _ _) (vpn_setHierAt _ _ _)))

theorem vpn_attachPhase (u1 : Universe T) (np c : Int) : VPN (attachPhase u1 np c) u1 := by
  simp only [attachPhase]
  split
  · split
    · exact vpn_trans (vpn_attachWrites _ _ _ _)
        (vpn_trans (vpn_set_hierarchy_list _ _) (vpn_setEntAt_hier _ _ _))
    · exact vpn_attachWrites _ _ _ _
  · split
    · exact vpn_cg _ _
    · exact vpn_refl u1

theorem vpn_setParent (u : Universe T) (np c : Int) : VPN (setParent u np c) u := by
  rw [setParent_eq]
  split
  · exact vpn_pushEvent u _
  · exact vpn_trans (vpn_attachPhase _ _ _) (vpn_detachPhase _ _ _)

theorem vpn_detachChildren : ∀ (fuel : Nat) (u : Universe T) (e : Int),
    VPN (detachChildren fuel u e) u := by
  intro fuel
  induction fuel with
  | zero =>
      intro u e
      exact vpn_refl u
  | succ fuel ih =>
      intro u e
      simp only [detachChildren]
      split
      · exact vpn_refl u
      · exact vpn_trans (ih _ e) (vpn_setParent u _ _)

theorem vpn_mdc (u : Universe T) (e : Int) (i : Nat) :
    VPN (moduleDestroyComponent u e i) u := by
  simp only [moduleDestroyComponent, onComponentDestroyed]
  exact vpn_trans (vpn_pushEvent _ _) (vpn_setEntAt_components _ _ _)

theorem vpn_dcg : ∀ (steps : Nat) (u : Universe T) (e : Int) (i : Nat),
    VPN (destroyComponentsGo steps u e i) u := by
  intro steps
  induction steps with
  | zero =>
      intro u e i
      exact vpn_refl u
  | succ steps ih =>
      intro u e i
      simp only [destroyComponentsGo]
      split
      · exact vpn_trans (ih _ e (i + 1)) (vpn_mdc u e i)
      · exact ih u e (i + 1)

theorem valid_setEntAt_prev (u : Universe T) (i q x : Int) :
    (entAt (setEntAt u i { entAt u i with prev := q }) x).valid =
      (entAt u x).valid := by
  rcases entAt_setEntAt_cases u i { entAt u i with prev := q } x with h | ⟨rfl, _, _, h⟩ <;>
    rw [h]

theorem valid_setEntAt_next (u : Universe T) (i q x : Int) :
    (entAt (setEntAt u i { entAt u i with next := q }) x).valid =
      (entAt u x).valid := by
  rcases entAt_setEntAt_cases u i { entAt u i with next := q } x with h | ⟨rfl, _, _, h⟩ <;>
    rw [h]

theorem countValid_setEntAt_prev (u : Universe T) (i q : Int) :
    countValid (setEntAt u i { entAt u i with prev := q }) = countValid u :=
  countValid_setEntAt_same u i _ rfl

theorem countValid_setEntAt_next (u : Universe T) (i q : Int) :
    countValid (setEntAt u i { entAt u i with next := q }) = countValid u :=
  countValid_setEntAt_same u i _ rfl

theorem unlink_valid (u : Universe T) (e : Int) (x : Int) :
    (entAt (unlinkWrites u e) x).valid = (entAt u x).valid := by
  simp only [unlinkWrites]
  split
  · split
    · rw [valid_setEntAt_prev, valid_setEntAt_next]
    · rw [valid_setEntAt_next]
  · split
    · rw [valid_setEntAt_prev]
    · rfl

theorem unlink_length (u : Universe T) (e : Int) :
    (unlinkWrites u e).entities.length = u.entities.length := by
  simp only [unlinkWrites]
  split
  · split
    · simp
    · simp
  · split
    · simp
    · rfl

theorem unlink_countValid (u : Universe T) (e : Int) :
    countValid (unlinkWrites u e) = countValid u := by
  simp only [unlinkWrites]
  split
  · split
    · rw [countValid_setEntAt_prev, countValid_setEntAt_next]
    · rw [countValid_setEntAt_next]
  · split
    · rw [countValid_setEntAt_prev]
    · rfl

theorem getLastD_mem {α : Type} : ∀ (l : List α) (d : α), l = [] ∨ l.getLastD d ∈ l := by
  intro l
  induction l with
  | nil =>
      intro d
      exact Or.inl rfl
  | cons c t ih =>
      intro d
      rw [List.getLastD_cons]
      rcases ih c with rfl | hmem
      · exact Or.inr (List.mem_cons_self c [])
      · exact Or.inr (List.mem_cons_of_mem c hmem)

theorem unlink_ffs (u : Universe T) (e : Int) :
    (unlinkWrites u e).first_free_slot = u.first_free_slot := by
  simp only [unlinkWrites]
  split
  · split
    · simp
    · simp
  · split
    · simp
    · rfl

theorem unlink_entAt (u : Universe T) (e : Int) (hpe : (entAt u e).prev ≠ e) :
    (∀ x : Int, x ≠ (entAt u e).prev → x ≠ (entAt u e).next →
      entAt (unlinkWrites u e) x = entAt u x) ∧
    (0 ≤ (entAt u e).prev → (entAt u e).prev ≠ (entAt u e).next →
      (entAt u e).prev.toNat < u.entities.length →
      entAt (unlinkWrites u e) (entAt u e).prev =
        { entAt u (entAt u e).prev with next := (entAt u e).next }) ∧
    (0 ≤ (entAt u e).next → (entAt u e).prev ≠ (entAt u e).next →
      (entAt u e).next.toNat < u.entities.length →
      entAt (unlinkWrites u e) (entAt u e).next =
        { entAt u (entAt u e).next with prev := (entAt u e).prev }) := by
  have hne : ∀ d : EntityData, entAt (setEntAt u (entAt u e).prev d) e = entAt u e :=
    fun d => entAt_setEntAt_ne u d (Ne.symm hpe)
  by_cases hA : 0 ≤ (entAt u e).prev
  · by_cases hB : 0 ≤ (entAt u e).next
    · have hU : unlinkWrites u e =
          setEntAt
            (setEntAt u (entAt u e).prev
              { entAt u (entAt u e).prev with next := (entAt u e).next })
            (entAt u e).next
            { entAt (setEntAt u (entAt u e).prev
                { entAt u (entAt u e).prev with next := (entAt u e).next })
                (entAt u e).next with
              prev := (entAt u e).prev } := by
        simp only [unlinkWrites]
        rw [if_pos hA, hne, if_pos hB]
      refine ⟨?_, ?_, ?_⟩
      · intro x hx1 hx2
        rw [hU, entAt_setEntAt_ne _ _ hx2, entAt_setEntAt_ne _ _ hx1]
      · intro _ hpn hl
        rw [hU, entAt_setEntAt_ne _ _ hpn, entAt_setEntAt_self _ _ hA hl]
      · intro _ hpn hl
        rw [hU, entAt_setEntAt_self _ _ hB (by rw [setEntAt_entities_length]; exact hl),
          entAt_setEntAt_ne _ _ (Ne.symm hpn)]
    · have hU : unlinkWrites u e =
          setEntAt u (entAt u e).prev
            { entAt u (entAt u e).prev with next := (entAt u e).next } := by
        simp only [unlinkWrites]
        rw [if_pos hA, hne, if_neg hB]
      refine ⟨?_, ?_, ?_⟩
      · intro x hx1 _
        rw [hU, entAt_setEntAt_ne _ _ hx1]
      · intro _ _ hl
        rw [hU, entAt_setEntAt_self _ _ hA hl]
      · intro hB2 _ _
        exact absurd hB2 hB
  · by_cases hB : 0 ≤ (entAt u e).next
    · have hU : unlinkWrites u e =
          setEntAt u (entAt u e).next
            { entAt u (entAt u e).next with prev := (entAt u e).prev } := by
        simp only [unlinkWrites]
        rw [if_neg hA, if_pos hB]
      refine ⟨?_, ?_, ?_⟩
      · intro x _ hx2
        rw [hU, entAt_setEntAt_ne _ _ hx2]
      · intro hA2 _ _
        exact absurd hA2 hA
      · intro _ _ hl
        rw [hU, entAt_setEntAt_self _ _ hB hl]
    · have hU : unlinkWrites u e = u := by
        simp only [unlinkWrites]
        rw [if_neg hA, if_neg hB]
      exact ⟨fun x _ _ => by rw [hU], fun hA2 _ _ => absurd hA2 hA,
        fun hB2 _ _ => absurd hB2 hB⟩

theorem ifl_unlink (u : Universe T) (e : Int) (l2 : List Int) :
    ∀ (l1 : List Int) (h p : Int),
      (l1 ++ e :: l2).Nodup →
      p ∉ l1 ++ e :: l2 →
      isFreeList u h p (l1 ++ e :: l2) →
      isFreeList (unlinkWrites u e) (if l1 = [] then (entAt u e).next else h) p
        (l1 ++ l2) := by
  intro l1
  induction l1 with
  | nil =>
      intro h p hnd hp hf
      rw [List.nil_append] at hf hnd hp
      obtain ⟨h1, h2, h3, h4, h5, h6⟩ := hf
      rw [if_pos rfl, List.nil_append]
      have hpe : (entAt u e).prev ≠ e := by
        rw [h5]
        intro hh
        exact hp (hh ▸ List.mem_cons_self e l2)
      obtain ⟨hU1, hU2, hU3⟩ := unlink_entAt u e hpe
      cases l2 with
      | nil => exact h6
      | cons b l2m =>
          obtain ⟨hb1, hb2, hb3, hb4, hb5, hb6⟩ := h6
          have hpn : (entAt u e).prev ≠ (entAt u e).next := by
            rw [h5, hb1]
            intro hh
            exact hp (by rw [hh]; exact List.mem_cons_of_mem e (List.mem_cons_self b l2m))
          have hbe : entAt (unlinkWrites u e) b =
              { entAt u b with prev := (entAt u e).prev } := by
            rw [← hb1]
            exact hU3 (by rw [hb1]; omega) hpn (by rw [hb1]; exact hb3)
          refine ⟨hb1, hb2, by rw [unlink_length]; exact hb3, by rw [hbe]; exact hb4,
            by rw [hbe]; exact h5, ?_⟩
          have hbnext : (entAt (unlinkWrites u e) b).next = (entAt u b).next := by
            rw [hbe]
          rw [hbnext]
          refine ifl_congr (by rw [unlink_length]) l2m _ _ ?_ hb6
          intro a ha
          have hap : a ≠ (entAt u e).prev := by
            rw [h5]
            rintro rfl
            exact hp (List.mem_cons_of_mem e (List.mem_cons_of_mem b ha))
          have han : a ≠ (entAt u e).next := by
            rw [hb1]
            rintro rfl
            exact (List.nodup_cons.mp (List.nodup_cons.mp hnd).2).1 ha
          rw [hU1 a hap han]
          exact ⟨rfl, rfl, rfl⟩
  | cons a l1m ih =>
      intro h p hnd hp hf
      rw [List.cons_append] at hf hnd hp
      obtain ⟨h1, h2, h3, h4, h5, h6⟩ := hf
      rw [if_neg (by simp), List.cons_append]
      have hem : e ∈ l1m ++ e :: l2 :=
        List.mem_append.mpr (Or.inr (List.mem_cons_self e l2))
      have hae : a ≠ e := by
        rintro rfl
        exact (List.nodup_cons.mp hnd).1 hem
      have hea : e ∉ a :: l1m := by
        intro hmem
        rcases List.mem_cons.mp hmem with hh | hmem2
        · exact hae hh.symm
        · have hnd2 : (l1m ++ e :: l2).Nodup := (List.nodup_cons.mp hnd).2
          rw [List.nodup_append] at hnd2
          exact hnd2.2.2 hmem2 (List.mem_cons_self e l2)
      have hprev : (entAt u e).prev = l1m.getLastD a := ifl_prev_at u e l2 l1m _ _ h6
      have hpemem : (entAt u e).prev ∈ a :: l1m := by
        rw [hprev]
        rcases getLastD_mem l1m a with rfl | hmem
        · exact List.mem_cons_self a []
        · exact List.mem_cons_of_mem a hmem
      have hpe : (entAt u e).prev ≠ e := fun hh => hea (hh ▸ hpemem)
      have hnext : (entAt u e).next = l2.headD (-1) := ifl_next_at u e l2 l1m _ _ h6
      obtain ⟨hU1, hU2, hU3⟩ := unlink_entAt u e hpe
      have hnna : (entAt u e).next ≠ a := by
        rw [hnext]
        cases l2 with
        | nil =>
            intro hh
            rw [List.headD_nil] at hh
            omega
        | cons c l2m =>
            intro hh
            rw [List.headD_cons] at hh
            exact (List.nodup_cons.mp hnd).1
              (List.mem_append.mpr
                (Or.inr (List.mem_cons_of_mem e (hh ▸ List.mem_cons_self c l2m))))
      by_cases hl1 : l1m = []
      · subst hl1
        have hpa : (entAt u e).prev = a := by
          rw [hprev]
          rfl
        have hU2c := hU2 (by rw [hpa]; exact h2)
          (by rw [hpa]; exact fun hh => hnna hh.symm) (by rw [hpa]; exact h3)
        have hva : entAt (unlinkWrites u e) a =
            { entAt u a with next := (entAt u e).next } := by
          rw [← hpa]
          exact hU2c
        refine ⟨h1, h2, by rw [unlink_length]; exact h3, by rw [hva]; exact h4,
          by rw [hva]; exact h5, ?_⟩
        have hvanext : (entAt (unlinkWrites u e) a).next = (entAt u e).next := by
          rw [hva]
        rw [hvanext]
        have hIH := ih (entAt u a).next a (List.nodup_cons.mp hnd).2
          (List.nodup_cons.mp hnd).1 h6
        rw [if_pos rfl] at hIH
        exact hIH
      · have hpl : (entAt u e).prev ∈ l1m := by
          rw [hprev]
          rcases getLastD_mem l1m a with hh | hmem
          · exact absurd hh hl1
          · exact hmem
        have hpna : (entAt u e).prev ≠ a := by
          intro hh
          exact (List.nodup_cons.mp hnd).1 (List.mem_append.mpr (Or.inl (hh ▸ hpl)))
        have hva : entAt (unlinkWrites u e) a = entAt u a :=
          hU1 a (fun hh => hpna hh.symm) (fun hh => hnna hh.symm)
        refine ⟨h1, h2, by rw [unlink_length]; exact h3, by rw [hva]; exact h4,
          by rw [hva]; exact h5, ?_⟩
        rw [hva]
        have hIH := ih (entAt u a).next a (List.nodup_cons.mp hnd).2
          (List.nodup_cons.mp hnd).1 h6
        rw [if_neg hl1] at hIH
        exact hIH

set_option maxHeartbeats 1000000 in
theorem createEntity_char_free (u : Universe T) (t : T)
    (hffs : 0 ≤ u.first_free_slot)
    (hl : u.first_free_slot.toNat < u.entities.length)
    (hvf : (entAt u u.first_free_slot).valid = false)
    (hnn : (entAt u u.first_free_slot).next ≠ u.first_free_slot)
    (hln : 0 ≤ (entAt u u.first_free_slot).next →
      (entAt u u.first_free_slot).next.toNat < u.entities.length) :
    (createEntity u t).1.entities.length = u.entities.length ∧
    (createEntity u t).1.first_free_slot = (entAt u u.first_free_slot).next ∧
    (entAt (createEntity u t).1 u.first_free_slot).valid = true ∧
    (∀ x : Int, x ≠ u.first_free_slot → x ≠ (entAt u u.first_free_slot).next →
      entAt (createEntity u t).1 x = entAt u x) ∧
    (0 ≤ (entAt u u.first_free_slot).next →
      entAt (createEntity u t).1 (entAt u u.first_free_slot).next =
        { entAt u (entAt u u.first_free_slot).next with prev := -1 }) ∧
    countValid (createEntity u t).1 = countValid u + 1 := by
  simp only [createEntity]
  rw [if_pos hffs]
  set u1 := (if 0 ≤ (entAt u u.first_free_slot).next then
      setEntAt u (entAt u u.first_free_slot).next
        { valid := (entAt u (entAt u u.first_free_slot).next).valid, prev := -1,
          next := (entAt u (entAt u u.first_free_slot).next).next,
          name := (entAt u (entAt u u.first_free_slot).next).name,
          hierarchy := (entAt u (entAt u u.first_free_slot).next).hierarchy,
          components := (entAt u (entAt u u.first_free_slot).next).components }
    else u) with hu1
  set u2 : Universe T := { u1 with first_free_slot := (entAt u u.first_free_slot).next }
    with hu2
  set u3 := setTrAt u2 u.first_free_slot t with hu3
  set u4 := setEntAt u3 u.first_free_slot
    { valid := true, prev := (entAt u3 u.first_free_slot).prev,
      next := (entAt u3 u.first_free_slot).next, name := -1, hierarchy := -1,
      components := 0 } with hu4
  have h1e : ∀ x : Int, x ≠ (entAt u u.first_free_slot).next → entAt u1 x = entAt u x := by
    intro x hx
    rw [hu1]
    split
    · exact entAt_setEntAt_ne u _ hx
    · rfl
  have h1n : 0 ≤ (entAt u u.first_free_slot).next →
      entAt u1 (entAt u u.first_free_slot).next =
        { entAt u (entAt u u.first_free_slot).next with prev := -1 } := by
    intro hx
    rw [hu1, if_pos hx]
    exact entAt_setEntAt_self u _ hx (hln hx)
  have h1len : u1.entities.length = u.entities.length := by
    rw [hu1]
    split
    · simp
    · rfl
  have h1cv : countValid u1 = countValid u := by
    rw [hu1]
    split
    · refine countValid_setEntAt_same u _ _ ?_
      rfl
    · rfl
  have h3e : ∀ x : Int, entAt u3 x = entAt u1 x := by
    intro x
    rw [hu3, entAt_setTrAt]
    rfl
  have h3len : u3.entities.length = u1.entities.length := by
    rw [hu3, setTrAt_entities]
  have h3cv : countValid u3 = countValid u1 := by
    rw [hu3, countValid_setTrAt]
    rfl
  have hslot3 : entAt u3 u.first_free_slot = entAt u u.first_free_slot := by
    rw [h3e, h1e _ (Ne.symm hnn)]
  have h4self : entAt u4 u.first_free_slot =
      { valid := true, prev := (entAt u3 u.first_free_slot).prev,
        next := (entAt u3 u.first_free_slot).next, name := -1, hierarchy := -1,
        components := 0 } := by
    rw [hu4]
    exact entAt_setEntAt_self u3 _ hffs (by rw [h3len, h1len]; exact hl)
  have h4e : ∀ x : Int, x ≠ u.first_free_slot → entAt u4 x = entAt u3 x := by
    intro x hx
    rw [hu4]
    exact entAt_setEntAt_ne u3 _ hx
  have h4cv : countValid u4 = countValid u3 + 1 := by
    rw [hu4]
    refine countValid_setEntAt_up u3 _ _ hffs (by rw [h3len, h1len]; exact hl) rfl ?_
    rw [hslot3]
    exact hvf
  refine ⟨?_, ?_, ?_, ?_, ?_, ?_⟩
  · show u4.entities.length = u.entities.length
    rw [hu4, setEntAt_entities_length, h3len, h1len]
  · show u4.first_free_slot = (entAt u u.first_free_slot).next
    rw [hu4, setEntAt_first_free_slot, hu3, setTrAt_first_free_slot]
  · show (entAt u4 u.first_free_slot).valid = true
    rw [h4self]
  · intro x hx1 hx2
    show entAt u4 x = entAt u x
    rw [h4e x hx1, h3e, h1e x hx2]
  · intro hx
    show entAt u4 (entAt u u.first_free_slot).next =
      { entAt u (entAt u u.first_free_slot).next with prev := -1 }
    rw [h4e _ hnn, h3e, h1n hx]
  · show countValid u4 = countValid u + 1
    rw [h4cv, h3cv, h1cv]

set_option maxHeartbeats 1000000 in
theorem createEntity_char_grow (u : Universe T) (t : T)
    (hffs : ¬ 0 ≤ u.first_free_slot) :
    (createEntity u t).1.entities.length = u.entities.length + 1 ∧
    (createEntity u t).1.first_free_slot = u.first_free_slot ∧
    (∀ x : Int, x.toNat < u.entities.length → entAt (createEntity u t).1 x = entAt u x) ∧
    (entAt (createEntity u t).1 (u.entities.length : Int)).valid = true ∧
    countValid (createEntity u t).1 = countValid u + 1 := by
  simp only [createEntity]
  rw [if_neg hffs]
  set u1 : Universe T := { entities := u.entities ++ [default], transforms := u.transforms ++ [1], names := u.names, hierarchy := u.hierarchy, first_free_slot := u.first_free_slot, events := u.events } with hu1
  set u2 := setTrAt u1 (u.entities.length : Int) t with hu2
  set u3 := setEntAt u2 (u.entities.length : Int)
    { valid := true, prev := (entAt u2 (u.entities.length : Int)).prev,
      next := (entAt u2 (u.entities.length : Int)).next, name := -1, hierarchy := -1,
      components := 0 } with hu3
  have h1ent : u1.entities = u.entities ++ [default] := by rw [hu1]
  have h1len : u1.entities.length = u.entities.length + 1 := by
    rw [h1ent]
    simp
  have h1e : ∀ x : Int, x.toNat < u.entities.length → entAt u1 x = entAt u x :=
    fun x hx => entAt_append1 default h1ent hx
  have h1last : entAt u1 (u.entities.length : Int) = default :=
    entAt_append_last default h1ent
  have h1cv : countValid u1 = countValid u := by
    simp only [countValid, h1ent, List.countP_append]
    simp [List.countP_cons]
  have h2e : ∀ x : Int, entAt u2 x = entAt u1 x := by
    intro x
    rw [hu2, entAt_setTrAt]
  have h2len : u2.entities.length = u1.entities.length := by
    rw [hu2, setTrAt_entities]
  have h2cv : countValid u2 = countValid u1 := by
    rw [hu2, countValid_setTrAt]
  have hlb : (u.entities.length : Int).toNat < u2.entities.length := by
    rw [h2len, h1len, Int.toNat_natCast]
    omega
  have h3self : entAt u3 (u.entities.length : Int) =
      { valid := true, prev := (entAt u2 (u.entities.length : Int)).prev,
        next := (entAt u2 (u.entities.length : Int)).next, name := -1, hierarchy := -1,
        components := 0 } := by
    rw [hu3]
    exact entAt_setEntAt_self u2 _ (Int.natCast_nonneg _) hlb
  have h3e : ∀ x : Int, x ≠ (u.entities.length : Int) → entAt u3 x = entAt u2 x := by
    intro x hx
    rw [hu3]
    exact entAt_setEntAt_ne u2 _ hx
  have h3cv : countValid u3 = countValid u2 + 1 := by
    rw [hu3]
    refine countValid_setEntAt_up u2 _ _ (Int.natCast_nonneg _) hlb rfl ?_
    rw [h2e, h1last]
    rfl
  refine ⟨?_, ?_, ?_, ?_, ?_⟩
  · show u3.entities.length = u.entities.length + 1
    rw [hu3, setEntAt_entities_length, h2len, h1len]
  · show u3.first_free_slot = u.first_free_slot
    rw [hu3, setEntAt_first_free_slot, hu2, setTrAt_first_free_slot]
  · intro x hx
    show entAt u3 x = entAt u x
    have hne : x ≠ (u.entities.length : Int) := by omega
    rw [h3e x hne, h2e, h1e x hx]
  · show (entAt u3 (u.entities.length : Int)).valid = true
    rw [h3self]
  · show countValid u3 = countValid u + 1
    rw [h3cv, h2cv, h1cv]

theorem vpn_nameSwapSlot (u : Universe T) (e : Int) : VPN (nameSwapSlot u e) u := by
  simp only [nameSwapSlot]
  split
  · exact vpn_trans (vpn_setEntAt_keep _ _ _ rfl rfl rfl)
      (vpn_trans (vpn_set_names _ _) (vpn_setEntAt_keep _ _ _ rfl rfl rfl))
  · exact vpn_refl u

theorem destroyEntity_eq_tail (w : Universe T) (e : Int) :
    destroyEntity w e =
      destroyTail (destroyComponentsGo 64
        (setParent (detachChildren (w.entities.length + 1) w e) (-1) e) e 0) e := rfl

set_option maxHeartbeats 1000000 in
theorem destroyTail_char (u3 : Universe T) (e : Int) (he0 : 0 ≤ e)
    (hel : e.toNat < u3.entities.length) (hfe : u3.first_free_slot ≠ e)
    (hval : (entAt u3 e).valid = true)
    (hfl : 0 ≤ u3.first_free_slot → u3.first_free_slot.toNat < u3.entities.length) :
    (destroyTail u3 e).entities.length = u3.entities.length ∧
    (destroyTail u3 e).first_free_slot = e ∧
    (entAt (destroyTail u3 e) e).valid = false ∧
    (entAt (destroyTail u3 e) e).prev = -1 ∧
    (entAt (destroyTail u3 e) e).next = u3.first_free_slot ∧
    (∀ x : Int, x ≠ e → x ≠ u3.first_free_slot →
      (entAt (destroyTail u3 e) x).valid = (entAt u3 x).valid ∧
      (entAt (destroyTail u3 e) x).prev = (entAt u3 x).prev ∧
      (entAt (destroyTail u3 e) x).next = (entAt u3 x).next) ∧
    (0 ≤ u3.first_free_slot →
      (entAt (destroyTail u3 e) u3.first_free_slot).valid =
        (entAt u3 u3.first_free_slot).valid ∧
      (entAt (destroyTail u3 e) u3.first_free_slot).prev = e ∧
      (entAt (destroyTail u3 e) u3.first_free_slot).next =
        (entAt u3 u3.first_free_slot).next) ∧
    countValid (destroyTail u3 e) + 1 = countValid u3 := by
  simp only [destroyTail]
  set u4 := setEntAt u3 e
    { valid := false, prev := -1, next := u3.first_free_slot, name := (entAt u3 e).name,
      hierarchy := -1, components := (entAt u3 e).components } with hu4
  set u5 := (if 0 ≤ u4.first_free_slot then
      setEntAt u4 u4.first_free_slot
        { valid := (entAt u4 u4.first_free_slot).valid, prev := e,
          next := (entAt u4 u4.first_free_slot).next,
          name := (entAt u4 u4.first_free_slot).name,
          hierarchy := (entAt u4 u4.first_free_slot).hierarchy,
          components := (entAt u4 u4.first_free_slot).components }
    else u4) with hu5
  set u6 := nameSwapSlot u5 e with hu6
  have h4len : u4.entities.length = u3.entities.length := by
    rw [hu4, setEntAt_entities_length]
  have h4ffs : u4.first_free_slot = u3.first_free_slot := by
    rw [hu4, setEntAt_first_free_slot]
  have h4self : entAt u4 e =
      { valid := false, prev := -1, next := u3.first_free_slot,
        name := (entAt u3 e).name, hierarchy := -1,
        components := (entAt u3 e).components } := by
    rw [hu4]
    exact entAt_setEntAt_self u3 _ he0 hel
  have h4e : ∀ x : Int, x ≠ e → entAt u4 x = entAt u3 x := by
    intro x hx
    rw [hu4]
    exact entAt_setEntAt_ne u3 _ hx
  have h4cv : countValid u4 + 1 = countValid u3 := by
    rw [hu4]
    exact countValid_setEntAt_down u3 e _ he0 hel rfl hval
  have h5ffs : u5.first_free_slot = u3.first_free_slot := by
    rw [hu5]
    split
    · rw [setEntAt_first_free_slot, h4ffs]
    · exact h4ffs
  have h5len : u5.entities.length = u3.entities.length := by
    rw [hu5]
    split
    · rw [setEntAt_entities_length, h4len]
    · exact h4len
  have h5cv : countValid u5 = countValid u4 := by
    rw [hu5]
    split
    · refine countValid_setEntAt_same u4 _ _ ?_
      rfl
    · rfl
  have h5e_e : entAt u5 e = entAt u4 e := by
    rw [hu5]
    split
    · exact entAt_setEntAt_ne u4 _ (by rw [h4ffs]; exact Ne.symm hfe)
    · rfl
  have h5e : ∀ x : Int, x ≠ u3.first_free_slot → entAt u5 x = entAt u4 x := by
    intro x hx
    rw [hu5]
    split
    · exact entAt_setEntAt_ne u4 _ (by rw [h4ffs]; exact hx)
    · rfl
  have h5f : 0 ≤ u3.first_free_slot →
      entAt u5 u3.first_free_slot =
        { valid := (entAt u4 u4.first_free_slot).valid, prev := e,
          next := (entAt u4 u4.first_free_slot).next,
          name := (entAt u4 u4.first_free_slot).name,
          hierarchy := (entAt u4 u4.first_free_slot).hierarchy,
          components := (entAt u4 u4.first_free_slot).components } := by
    intro hx
    rw [hu5, if_pos (by rw [h4ffs]; exact hx), ← h4ffs]
    exact entAt_setEntAt_self u4 _ (by rw [h4ffs]; exact hx)
      (by rw [h4ffs, h4len]; exact hfl hx)
  have h6vpn : VPN u6 u5 := by
    rw [hu6]
    exact vpn_nameSwapSlot u5 e
  obtain ⟨h6len, h6ffs, h6cv, h6pt⟩ := h6vpn
  refine ⟨h6len.trans h5len, rfl, ?_, ?_, ?_, ?_, ?_, ?_⟩
  · exact ((h6pt e).1).trans (by rw [h5e_e, h4self])
  · exact ((h6pt e).2.1).trans (by rw [h5e_e, h4self])
  · exact ((h6pt e).2.2).trans (by rw [h5e_e, h4self])
  · intro x hx1 hx2
    have hx45 : entAt u5 x = entAt u3 x := by rw [h5e x hx2, h4e x hx1]
    obtain ⟨p1, p2, p3⟩ := h6pt x
    exact ⟨p1.trans (by rw [hx45]), p2.trans (by rw [hx45]), p3.trans (by rw [hx45])⟩
  · intro hx
    refine ⟨((h6pt _).1).trans ?_, ((h6pt _).2.1).trans ?_, ((h6pt _).2.2).trans ?_⟩
    · rw [h5f hx, h4ffs]
      show (entAt u4 u3.first_free_slot).valid = _
      rw [h4e u3.first_free_slot hfe]
    · rw [h5f hx]
    · rw [h5f hx, h4ffs]
      show (entAt u4 u3.first_free_slot).next = _
      rw [h4e u3.first_free_slot hfe]
  · show countValid u6 + 1 = countValid u3
    omega

theorem destroyEntity_char (w : Universe T) (e : Int) (he0 : 0 ≤ e)
    (hel : e.toNat < w.entities.length) (hfe : w.first_free_slot ≠ e)
    (hval : (entAt w e).valid = true)
    (hfl : 0 ≤ w.first_free_slot → w.first_free_slot.toNat < w.entities.length) :
    (destroyEntity w e).entities.length = w.entities.length ∧
    (destroyEntity w e).first_free_slot = e ∧
    (entAt (destroyEntity w e) e).valid = false ∧
    (entAt (destroyEntity w e) e).prev = -1 ∧
    (entAt (destroyEntity w e) e).next = w.first_free_slot ∧
    (∀ x : Int, x ≠ e → x ≠ w.first_free_slot →
      (entAt (destroyEntity w e) x).valid = (entAt w x).valid ∧
      (entAt (destroyEntity w e) x).prev = (entAt w x).prev ∧
      (entAt (destroyEntity w e) x).next = (entAt w x).next) ∧
    (0 ≤ w.first_free_slot →
      (entAt (destroyEntity w e) w.first_free_slot).valid =
        (entAt w w.first_free_slot).valid ∧
      (entAt (destroyEntity w e) w.first_free_slot).prev = e ∧
      (entAt (destroyEntity w e) w.first_free_slot).next =
        (entAt w w.first_free_slot).next) ∧
    countValid (destroyEntity w e) + 1 = countValid w := by
  set u3 := destroyComponentsGo 64
    (setParent (detachChildren (w.entities.length + 1) w e) (-1) e) e 0 with hu3
  have hvpn : VPN u3 w := by
    rw [hu3]
    exact vpn_trans (vpn_dcg 64 _ e 0)
      (vpn_trans (vpn_setParent _ _ _) (vpn_detachChildren _ _ _))
  obtain ⟨hv_len, hv_ffs, hv_cv, hv_pt⟩ := hvpn
  have heq : destroyEntity w e = destroyTail u3 e := by
    rw [destroyEntity_eq_tail w e, hu3]
  rw [heq]
  obtain ⟨t_len, t_ffs, t_v, t_p, t_n, t_old, t_head, t_cv⟩ :=
    destroyTail_char u3 e he0 (by rw [hv_len]; exact hel)
      (by rw [hv_ffs]; exact hfe) (by rw [(hv_pt e).1]; exact hval)
      (by rw [hv_ffs, hv_len]; exact hfl)
  refine ⟨t_len.trans hv_len, t_ffs, t_v, t_p, t_n.trans hv_ffs, ?_, ?_, ?_⟩
  · intro x hx1 hx2
    obtain ⟨p1, p2, p3⟩ := t_old x hx1 (by rw [hv_ffs]; exact hx2)
    obtain ⟨q1, q2, q3⟩ := hv_pt x
    exact ⟨p1.trans q1, p2.trans q2, p3.trans q3⟩
  · intro hx
    obtain ⟨p1, p2, p3⟩ := t_head (by rw [hv_ffs]; exact hx)
    rw [hv_ffs] at p1 p2 p3
    obtain ⟨q1, q2, q3⟩ := hv_pt w.first_free_slot
    exact ⟨p1.trans q1, p2, p3.trans q3⟩
  · omega

theorem setEntAt_entities_congr {v u : Universe T} (h : v.entities = u.entities)
    (i : Int) (d : EntityData) :
    (setEntAt v i d).entities = (setEntAt u i d).entities := by
  by_cases hi : i < 0
  · rw [setEntAt, setEntAt, if_pos hi, if_pos hi]
    exact h
  · rw [setEntAt, setEntAt, if_neg hi, if_neg hi]
    show v.entities.set i.toNat d = u.entities.set i.toNat d
    rw [h]

set_option maxHeartbeats 2000000 in
theorem emplaceEntity_char (u u0 : Universe T) (e : Int)
    (h0 : u0 = emplaceGrow (e + 1 - (u.entities.length : Int)).toNat u) :
    (emplaceEntity u e).entities.length = u0.entities.length ∧
    (emplaceEntity u e).first_free_slot =
      (if u0.first_free_slot = e then (entAt u0 e).next else u0.first_free_slot) ∧
    (∀ x : Int, x ≠ e → entAt (emplaceEntity u e) x = entAt (unlinkWrites u0 e) x) ∧
    (0 ≤ e → e.toNat < u0.entities.length →
      (entAt (emplaceEntity u e) e).valid = true) ∧
    (0 ≤ e → e.toNat < u0.entities.length → (entAt u0 e).valid = false →
      countValid (emplaceEntity u e) = countValid u0 + 1) := by
  simp only [emplaceEntity]
  rw [← h0]
  set u1 := (if u0.first_free_slot = e
      then { u0 with first_free_slot := (entAt u0 e).next } else u0) with hu1
  have h1ent : u1.entities = u0.entities := by
    rw [hu1]
    split
    · rfl
    · rfl
  have h1e : entAt u1 = entAt u0 := entAt_ext h1ent
  have h1ffs : u1.first_free_slot =
      (if u0.first_free_slot = e then (entAt u0 e).next else u0.first_free_slot) := by
    rw [hu1]
    by_cases hc : u0.first_free_slot = e
    · rw [if_pos hc, if_pos hc]
    · rw [if_neg hc, if_neg hc]
  set u2 := (if 0 ≤ (entAt u1 e).prev then
      setEntAt u1 (entAt u1 e).prev
        { valid := (entAt u1 (entAt u1 e).prev).valid,
          prev := (entAt u1 (entAt u1 e).prev).prev, next := (entAt u1 e).next,
          name := (entAt u1 (entAt u1 e).prev).name,
          hierarchy := (entAt u1 (entAt u1 e).prev).hierarchy,
          components := (entAt u1 (entAt u1 e).prev).components }
    else u1) with hu2
  set uw := (if 0 ≤ (entAt u0 e).prev then
      setEntAt u0 (entAt u0 e).prev
        { valid := (entAt u0 (entAt u0 e).prev).valid,
          prev := (entAt u0 (entAt u0 e).prev).prev, next := (entAt u0 e).next,
          name := (entAt u0 (entAt u0 e).prev).name,
          hierarchy := (entAt u0 (entAt u0 e).prev).hierarchy,
          components := (entAt u0 (entAt u0 e).prev).components }
    else u0) with huw
  have h2ent : u2.entities = uw.entities := by
    rw [hu2, huw, h1e]
    by_cases hA : 0 ≤ (entAt u0 e).prev
    · rw [if_pos hA, if_pos hA]
      exact setEntAt_entities_congr h1ent _ _
    · rw [if_neg hA, if_neg hA]
      exact h1ent
  have h2e : entAt u2 = entAt uw := entAt_ext h2ent
  have h2ffs : u2.first_free_slot = u1.first_free_slot := by
    rw [hu2]
    split
    · simp
    · rfl
  set u3 := (if 0 ≤ (entAt u2 e).next then
      setEntAt u2 (entAt u2 e).next
        { valid := (entAt u2 (entAt u2 e).next).valid, prev := (entAt u2 e).prev,
          next := (entAt u2 (entAt u2 e).next).next,
          name := (entAt u2 (entAt u2 e).next).name,
          hierarchy := (entAt u2 (entAt u2 e).next).hierarchy,
          components := (entAt u2 (entAt u2 e).next).components }
    else u2) with hu3
  have hw : unlinkWrites u0 e =
      (if 0 ≤ (entAt uw e).next then
        setEntAt uw (entAt uw e).next
          { valid := (entAt uw (entAt uw e).next).valid, prev := (entAt uw e).prev,
            next := (entAt uw (entAt uw e).next).next,
            name := (entAt uw (entAt uw e).next).name,
            hierarchy := (entAt uw (entAt uw e).next).hierarchy,
            components := (entAt uw (entAt uw e).next).components }
      else uw) := by
    simp only [unlinkWrites]
  have h3ent : u3.entities = (unlinkWrites u0 e).entities := by
    rw [hu3, hw, h2e]
    by_cases hB : 0 ≤ (entAt uw e).next
    · rw [if_pos hB, if_pos hB]
      exact setEntAt_entities_congr h2ent _ _
    · rw [if_neg hB, if_neg hB]
      exact h2ent
  have h3e : entAt u3 = entAt (unlinkWrites u0 e) := entAt_ext h3ent
  have h3ffs : u3.first_free_slot = u1.first_free_slot := by
    rw [hu3]
    split
    · rw [setEntAt_first_free_slot, h2ffs]
    · exact h2ffs
  have h3cv : countValid u3 = countValid u0 := by
    have h1 : countValid u3 = countValid (unlinkWrites u0 e) := by
      simp only [countValid]
      rw [h3ent]
    exact h1.trans (unlink_countValid u0 e)
  have hlen3 : u3.entities.length = u0.entities.length := by
    rw [h3ent, unlink_length]
  set u4 := setTrAt u3 e 1 with hu4
  have h4e : entAt u4 = entAt u3 := by
    rw [hu4]
    exact entAt_ext (setTrAt_entities u3 e 1)
  have h4len : u4.entities.length = u3.entities.length := by
    rw [hu4, setTrAt_entities]
  have h4cv : countValid u4 = countValid u3 := by
    rw [hu4, countValid_setTrAt]
  have h4ffs : u4.first_free_slot = u3.first_free_slot := by
    rw [hu4, setTrAt_first_free_slot]
  set u5 := setEntAt u4 e
    { valid := true, prev := (entAt u4 e).prev, next := (entAt u4 e).next, name := -1,
      hierarchy := -1, components := 0 } with hu5
  have h5e : ∀ x : Int, x ≠ e → entAt u5 x = entAt u4 x := by
    intro x hx
    rw [hu5]
    exact entAt_setEntAt_ne u4 _ hx
  refine ⟨?_, ?_, ?_, ?_, ?_⟩
  · show u5.entities.length = u0.entities.length
    rw [hu5, setEntAt_entities_length, h4len, hlen3]
  · show u5.first_free_slot = _
    rw [hu5, setEntAt_first_free_slot, h4ffs, h3ffs, h1ffs]
  · intro x hx
    show entAt u5 x = entAt (unlinkWrites u0 e) x
    rw [h5e x hx, h4e, h3e]
  · intro he0 hel
    show (entAt u5 e).valid = true
    rw [hu5, entAt_setEntAt_self u4 _ he0 (by rw [h4len, hlen3]; exact hel)]
  · intro he0 hel hv
    show countValid u5 = countValid u0 + 1
    have hold : (entAt u4 e).valid = false := by
      rw [h4e, h3e, unlink_valid]
      exact hv
    rw [hu5, countValid_setEntAt_up u4 e _ he0 (by rw [h4len, hlen3]; exact hel) rfl hold,
      h4cv, h3cv]

set_option maxHeartbeats 2000000 in
theorem flc_grow : ∀ (k : Nat) (u : Universe T) (l : List Int) (n : Int),
    FLC u l n →
    ∃ l' : List Int, FLC (emplaceGrow k u) l' n ∧
      (emplaceGrow k u).entities.length = u.entities.length + k ∧
      (∀ x : Int, x.toNat < u.entities.length →
        (entAt (emplaceGrow k u) x).valid = (entAt u x).valid) ∧
      (∀ x : Int, 0 ≤ x → u.entities.length ≤ x.toNat →
        x.toNat < (emplaceGrow k u).entities.length →
        (entAt (emplaceGrow k u) x).valid = false) := by
  intro k
  induction k with
  | zero =>
      intro u l n h
      exact ⟨l, h, rfl, fun x _ => rfl,
        fun x _ h1 h2 => absurd h2 (by simp only [emplaceGrow]; omega)⟩
  | succ k ih =>
      intro u l n h
      obtain ⟨hfl, hnd, hiff, hcv⟩ := h
      simp only [emplaceGrow]
      set u1 : Universe T := ({ entities := u.entities ++ [{ valid := false, prev := -1, next := u.first_free_slot, name := -1, hierarchy := -1, components := 0 }], transforms := u.transforms ++ [1], names := u.names, hierarchy := u.hierarchy, first_free_slot := u.first_free_slot, events := u.events } : Universe T) with hu1
      set u2 := (if 0 ≤ u.first_free_slot then
          setEntAt u1 u.first_free_slot
            { valid := (entAt u1 u.first_free_slot).valid,
              prev := (u.entities.length : Int),
              next := (entAt u1 u.first_free_slot).next,
              name := (entAt u1 u.first_free_slot).name,
              hierarchy := (entAt u1 u.first_free_slot).hierarchy,
              components := (entAt u1 u.first_free_slot).components }
        else u1) with hu2
      set G : Universe T := ({ entities := u2.entities, transforms := u2.transforms, names := u2.names, hierarchy := u2.hierarchy, first_free_slot := (u.entities.length : Int), events := u2.events } : Universe T) with hG
      have h1ent : u1.entities = u.entities ++
          [{ valid := false, prev := -1, next := u.first_free_slot, name := -1,
             hierarchy := -1, components := 0 }] := by rw [hu1]
      have h1len : u1.entities.length = u.entities.length + 1 := by
        rw [h1ent]
        simp
      have h1e : ∀ x : Int, x.toNat < u.entities.length → entAt u1 x = entAt u x :=
        fun x hx => entAt_append1 _ h1ent hx
      have h1new : entAt u1 (u.entities.length : Int) =
          { valid := false, prev := -1, next := u.first_free_slot, name := -1,
            hierarchy := -1, components := 0 } := entAt_append_last _ h1ent
      have h1cv : countValid u1 = countValid u := by
        simp only [countValid, h1ent, List.countP_append]
        simp [List.countP_cons]
      have hGffs : G.first_free_slot = (u.entities.length : Int) := by rw [hG]
      have hGent : G.entities = u2.entities := by rw [hG]
      have hGe : entAt G = entAt u2 := entAt_ext hGent
      have hGcv : countValid G = countValid u2 := by
        simp only [countValid]
      have h2len : u2.entities.length = u.entities.length + 1 := by
        rw [hu2]
        split
        · rw [setEntAt_entities_length, h1len]
        · exact h1len
      have h2cv : countValid u2 = countValid u := by
        rw [hu2]
        split
        · refine (countValid_setEntAt_same u1 _ _ ?_).trans h1cv
          rfl
        · exact h1cv
      have hGlen : G.entities.length = u.entities.length + 1 := by rw [hGent, h2len]
      have hGv : ∀ x : Int, x.toNat < u.entities.length →
          (entAt G x).valid = (entAt u x).valid := by
        intro x hx
        rw [hGe, hu2]
        split
        · rename_i hA
          by_cases hxf : x = u.first_free_slot
          · subst hxf
            rw [entAt_setEntAt_self u1 _ hA (by rw [h1len]; omega),
              h1e _ hx]
          · rw [entAt_setEntAt_ne u1 _ hxf, h1e x hx]
        · rw [h1e x hx]
      have hmem_facts := ifl_elem u l u.first_free_slot (-1) hfl
      have hGflc : FLC G ((u.entities.length : Int) :: l) n := by
        cases l with
        | nil =>
            have hffsneg : u.first_free_slot = -1 := hfl
            have hnw : ∀ x : Int, entAt u2 x = entAt u1 x := by
              intro x
              rw [hu2, if_neg (by rw [hffsneg]; omega)]
            refine ⟨⟨hGffs, Int.natCast_nonneg _,
              by rw [hGlen, Int.toNat_natCast]; omega, ?_, ?_, ?_⟩, by simp, ?_, ?_⟩
            · show (entAt G _).valid = false
              rw [hGe, hnw, h1new]
            · show (entAt G _).prev = -1
              rw [hGe, hnw, h1new]
            · show isFreeList G (entAt G (u.entities.length : Int)).next _ []
              have hnx : (entAt G (u.entities.length : Int)).next = -1 := by
                rw [hGe, hnw, h1new]
                exact hffsneg
              exact hnx
            · intro x hx0 hxl
              rw [hGlen] at hxl
              by_cases hxe : x = (u.entities.length : Int)
              · subst hxe
                constructor
                · intro _
                  exact List.mem_cons_self _ _
                · intro _
                  show (entAt G _).valid = false
                  rw [hGe, hnw, h1new]
              · have hxl2 : x.toNat < u.entities.length := by omega
                rw [hGv x hxl2]
                constructor
                · intro hv
                  exact absurd ((hiff x hx0 hxl2).mp hv) (List.not_mem_nil x)
                · intro hmem
                  rcases List.mem_cons.mp hmem with hh | hh
                  · exact absurd hh hxe
                  · exact absurd hh (List.not_mem_nil x)
            · rw [hGcv, h2cv]
              exact hcv
        | cons b lrest =>
            obtain ⟨hb1, hb2, hb3, hb4, hb5, hb6⟩ := hfl
            have hbl : b ≠ (u.entities.length : Int) := by omega
            have hw2 : 0 ≤ u.first_free_slot := by rw [hb1]; exact hb2
            have hbu1 : entAt u1 b = entAt u b := h1e b hb3
            have h2b : entAt u2 b =
                { valid := (entAt u b).valid, prev := (u.entities.length : Int),
                  next := (entAt u b).next, name := (entAt u b).name,
                  hierarchy := (entAt u b).hierarchy,
                  components := (entAt u b).components } := by
              rw [hu2, if_pos hw2, hb1,
                entAt_setEntAt_self u1 _ hb2 (by rw [h1len]; omega), hbu1]
            have h2x : ∀ x : Int, x ≠ b → entAt u2 x = entAt u1 x := by
              intro x hx
              rw [hu2, if_pos hw2]
              exact entAt_setEntAt_ne u1 _ (by rw [hb1]; exact hx)
            refine ⟨⟨hGffs, Int.natCast_nonneg _,
              by rw [hGlen, Int.toNat_natCast]; omega, ?_, ?_, ?_⟩, ?_, ?_, ?_⟩
            · show (entAt G _).valid = false
              rw [hGe, h2x _ (Ne.symm hbl), h1new]
            · show (entAt G _).prev = -1
              rw [hGe, h2x _ (Ne.symm hbl), h1new]
            · have hnx : (entAt G (u.entities.length : Int)).next = u.first_free_slot := by
                rw [hGe, h2x _ (Ne.symm hbl), h1new]
              rw [hnx, hb1]
              refine ⟨rfl, hb2, by rw [hGlen]; omega, by rw [hGe, h2b]; exact hb4,
                by rw [hGe, h2b], ?_⟩
              have hbn : (entAt G b).next = (entAt u b).next := by rw [hGe, h2b]
              rw [hbn]
              refine ifl_congr (by rw [hGlen]; omega) lrest _ _ ?_ hb6
              intro a ha
              have hab : a ≠ b := by
                rintro rfl
                exact (List.nodup_cons.mp hnd).1 ha
              have habound := (hmem_facts a (List.mem_cons_of_mem b ha)).2.1
              rw [hGe, h2x a hab, h1e a habound]
              exact ⟨rfl, rfl, rfl⟩
            · refine List.nodup_cons.mpr ⟨?_, hnd⟩
              intro hmem
              have h9 := hmem_facts _ hmem
              omega
            · intro x hx0 hxl
              rw [hGlen] at hxl
              by_cases hxe : x = (u.entities.length : Int)
              · subst hxe
                constructor
                · intro _
                  exact List.mem_cons_self _ _
                · intro _
                  show (entAt G _).valid = false
                  rw [hGe, h2x _ (Ne.symm hbl), h1new]
              · have hxl2 : x.toNat < u.entities.length := by omega
                rw [hGv x hxl2, hiff x hx0 hxl2]
                constructor
                · exact fun hm => List.mem_cons_of_mem _ hm
                · intro hm
                  rcases List.mem_cons.mp hm with hh | hh
                  · exact absurd hh hxe
                  · exact hh
            · rw [hGcv, h2cv]
              exact hcv
      have hGnewv : (entAt G (u.entities.length : Int)).valid = false :=
        (hGflc.2.2.1 _ (Int.natCast_nonneg _)
          (by rw [hGlen, Int.toNat_natCast]; omega)).mpr (List.mem_cons_self _ _)
      obtain ⟨l2, hF, hlen2, hvp2, hnv2⟩ :=
        ih G ((u.entities.length : Int) :: l) n hGflc
      refine ⟨l2, hF, ?_, ?_, ?_⟩
      · rw [hlen2, hGlen]
        omega
      · intro x hx
        rw [hvp2 x (by rw [hGlen]; omega)]
        exact hGv x hx
      · intro x hx0 hxge hxlt
        by_cases hxe : x.toNat = u.entities.length
        · have hxeq : x = (u.entities.length : Int) := by omega
          subst hxeq
          rw [hvp2 _ (by rw [hGlen, Int.toNat_natCast]; omega)]
          exact hGnewv
        · exact hnv2 x hx0 (by rw [hGlen]; omega) hxlt

theorem flc_create (u : Universe T) (l : List Int) (n : Int) (t : T) (h : FLC u l n) :
    ∃ l' : List Int, FLC ((createEntity u t).1) l' (n + 1) := by
  obtain ⟨hfl, hnd, hiff, hcv⟩ := h
  by_cases hffs : 0 ≤ u.first_free_slot
  · cases l with
    | nil =>
        have h9 : u.first_free_slot = -1 := hfl
        omega
    | cons b lrest =>
        obtain ⟨hb1, hb2, hb3, hb4, hb5, hb6⟩ := hfl
        have hl : u.first_free_slot.toNat < u.entities.length := by rw [hb1]; exact hb3
        have hvf : (entAt u u.first_free_slot).valid = false := by rw [hb1]; exact hb4
        have hnn : (entAt u u.first_free_slot).next ≠ u.first_free_slot := by
          rw [hb1]
          cases lrest with
          | nil =>
              have hb6n : (entAt u b).next = -1 := hb6
              rw [hb6n]
              omega
          | cons c lr2 =>
              rw [hb6.1]
              intro hh
              exact (List.nodup_cons.mp hnd).1 (by rw [← hh]; exact List.mem_cons_self c lr2)
        have hln : 0 ≤ (entAt u u.first_free_slot).next →
            (entAt u u.first_free_slot).next.toNat < u.entities.length := by
          rw [hb1]
          cases lrest with
          | nil =>
              have hb6n : (entAt u b).next = -1 := hb6
              rw [hb6n]
              intro hh
              omega
          | cons c lr2 =>
              rw [hb6.1]
              intro _
              exact hb6.2.2.1
        obtain ⟨hc_len, hc_ffs, hc_v, hc_old, hc_next, hc_cv⟩ :=
          createEntity_char_free u t hffs hl hvf hnn hln
        refine ⟨lrest, ?_, (List.nodup_cons.mp hnd).2, ?_, ?_⟩
        · cases lrest with
          | nil =>
              have hb6n : (entAt u b).next = -1 := hb6
              show (createEntity u t).1.first_free_slot = -1
              rw [hc_ffs, hb1, hb6n]
          | cons c lr2 =>
              obtain ⟨hc1, hc2, hc3, hc4, hc5, hc6⟩ := hb6
              have hcb : c ≠ b := by
                rintro rfl
                exact (List.nodup_cons.mp hnd).1 (List.mem_cons_self _ _)
              have hcF : entAt (createEntity u t).1 c = { entAt u c with prev := -1 } := by
                have h9 := hc_next (by rw [hb1, hc1]; omega)
                rw [hb1, hc1] at h9
                exact h9
              refine ⟨by rw [hc_ffs, hb1, hc1], hc2, by rw [hc_len]; exact hc3,
                by rw [hcF]; exact hc4, by rw [hcF], ?_⟩
              have hcn : (entAt (createEntity u t).1 c).next = (entAt u c).next := by
                rw [hcF]
              rw [hcn]
              refine ifl_congr (by rw [hc_len]) lr2 _ _ ?_ hc6
              intro a ha
              have hab : a ≠ b := by
                rintro rfl
                exact (List.nodup_cons.mp hnd).1 (List.mem_cons_of_mem c ha)
              have hac : a ≠ c := by
                rintro rfl
                exact (List.nodup_cons.mp (List.nodup_cons.mp hnd).2).1 ha
              rw [hc_old a (by rw [hb1]; exact hab) (by rw [hb1, hc1]; exact hac)]
              exact ⟨rfl, rfl, rfl⟩
        · intro x hx0 hxl
          rw [hc_len] at hxl
          by_cases hxb : x = b
          · subst hxb
            rw [hb1] at hc_v
            constructor
            · intro hv
              rw [hc_v] at hv
              simp at hv
            · intro hmem
              exact absurd hmem (List.nodup_cons.mp hnd).1
          · by_cases hxn : x = (entAt u u.first_free_slot).next
            · subst hxn
              have h9 := hc_next hx0
              have hvF : (entAt (createEntity u t).1
                  (entAt u u.first_free_slot).next).valid =
                  (entAt u (entAt u u.first_free_slot).next).valid := by
                rw [h9]
              rw [hvF, hiff _ hx0 hxl]
              constructor
              · intro hm
                rcases List.mem_cons.mp hm with hh | hh
                · exact absurd (hh.trans hb1.symm) hnn
                · exact hh
              · exact fun hm => List.mem_cons_of_mem _ hm
            · rw [hc_old x (by rw [hb1]; exact hxb) hxn, hiff x hx0 hxl]
              constructor
              · intro hm
                rcases List.mem_cons.mp hm with hh | hh
                · exact absurd hh hxb
                · exact hh
              · exact fun hm => List.mem_cons_of_mem _ hm
        · rw [hc_cv]
          push_cast
          omega
  · have hlnil : l = [] := by
      cases l with
      | nil => rfl
      | cons b lrest => exact absurd (by rw [hfl.1]; exact hfl.2.1) hffs
    subst hlnil
    obtain ⟨hg_len, hg_ffs, hg_old, hg_new, hg_cv⟩ := createEntity_char_grow u t hffs
    have h9 : u.first_free_slot = -1 := hfl
    refine ⟨[], ?_, List.nodup_nil, ?_, ?_⟩
    · show (createEntity u t).1.first_free_slot = -1
      rw [hg_ffs, h9]
    · intro x hx0 hxl
      rw [hg_len] at hxl
      by_cases hxe : x = (u.entities.length : Int)
      · subst hxe
        rw [hg_new]
        constructor
        · intro hv
          simp at hv
        · intro hm
          exact absurd hm (List.not_mem_nil _)
      · have hxl2 : x.toNat < u.entities.length := by omega
        rw [hg_old x hxl2, hiff x hx0 hxl2]
    · rw [hg_cv]
      push_cast
      omega

theorem flc_destroy (u : Universe T) (l : List Int) (n : Int) (e : Int)
    (h : FLC u l n) (hok : hasEntity u e = true) :
    ∃ l' : List Int, FLC (destroyEntity u e) l' (n - 1) := by
  obtain ⟨hfl, hnd, hiff, hcv⟩ := h
  have hok2 : 0 ≤ e ∧ e < (u.entities.length : Int) ∧ (entAt u e).valid = true :=
    of_decide_eq_true hok
  obtain ⟨he0, hel2, hval⟩ := hok2
  have hel : e.toNat < u.entities.length := by omega
  have henl : e ∉ l := by
    intro hm
    have h9 := (ifl_elem u l _ _ hfl e hm).2.2
    rw [hval] at h9
    simp at h9
  have hfe : u.first_free_slot ≠ e := by
    cases l with
    | nil =>
        have h9 : u.first_free_slot = -1 := hfl
        omega
    | cons b lrest =>
        rw [hfl.1]
        rintro rfl
        exact henl (List.mem_cons_self _ _)
  have hfl_bound : 0 ≤ u.first_free_slot →
      u.first_free_slot.toNat < u.entities.length := by
    cases l with
    | nil =>
        have h9 : u.first_free_slot = -1 := hfl
        intro hh
        omega
    | cons b lrest =>
        intro _
        rw [hfl.1]
        exact hfl.2.2.1
  obtain ⟨hd_len, hd_ffs, hd_v, hd_p, hd_n, hd_old, hd_head, hd_cv⟩ :=
    destroyEntity_char u e he0 hel hfe hval hfl_bound
  refine ⟨e :: l, ?_, List.nodup_cons.mpr ⟨henl, hnd⟩, ?_, ?_⟩
  · refine ⟨hd_ffs, he0, by rw [hd_len]; exact hel, hd_v, hd_p, ?_⟩
    rw [hd_n]
    cases l with
    | nil =>
        have h9 : u.first_free_slot = -1 := hfl
        exact h9
    | cons b lrest =>
        obtain ⟨hb1, hb2, hb3, hb4, hb5, hb6⟩ := hfl
        have hhead := hd_head (by rw [hb1]; exact hb2)
        rw [hb1] at hhead
        refine ⟨hb1, hb2, by rw [hd_len]; exact hb3, by rw [hhead.1]; exact hb4,
          hhead.2.1, ?_⟩
        rw [hhead.2.2]
        refine ifl_congr (by rw [hd_len]) lrest _ _ ?_ hb6
        intro a ha
        have hae : a ≠ e := by
          rintro rfl
          exact henl (List.mem_cons_of_mem b ha)
        have hab : a ≠ b := by
          rintro rfl
          exact (List.nodup_cons.mp hnd).1 ha
        exact hd_old a hae (by rw [hb1]; exact hab)
  · intro x hx0 hxl
    rw [hd_len] at hxl
    by_cases hxe : x = e
    · subst hxe
      constructor
      · intro _
        exact List.mem_cons_self _ _
      · intro _
        exact hd_v
    · by_cases hxf : x = u.first_free_slot
      · subst hxf
        have hhead := hd_head hx0
        rw [hhead.1, hiff _ hx0 hxl]
        constructor
        · exact fun hm => List.mem_cons_of_mem _ hm
        · intro hm
          rcases List.mem_cons.mp hm with hh | hh
          · exact absurd hh hxe
          · exact hh
      · rw [(hd_old x hxe hxf).1, hiff x hx0 hxl]
        constructor
        · exact fun hm => List.mem_cons_of_mem _ hm
        · intro hm
          rcases List.mem_cons.mp hm with hh | hh
          · exact absurd hh hxe
          · exact hh
  · have h9 := hd_cv
    omega

theorem flc_emplace (u : Universe T) (l : List Int) (n : Int) (e : Int)
    (h : FLC u l n) (hok : opOk u (Op.emplace e) = true) :
    ∃ l' : List Int, FLC (emplaceEntity u e) l' (n + 1) := by
  have hok2 : 0 ≤ e ∧ (e.toNat < u.entities.length → (entAt u e).valid = false) := by
    simp only [opOk] at hok
    by_cases h1 : 0 ≤ e
    · rw [if_pos h1] at hok
      refine ⟨h1, fun h2 => ?_⟩
      rw [if_pos h2] at hok
      simpa using hok
    · rw [if_neg h1] at hok
      simp at hok
  obtain ⟨he0, hinv⟩ := hok2
  obtain ⟨l0, hF0, hlen0, hvp0, hnv0⟩ :=
    flc_grow (e + 1 - (u.entities.length : Int)).toNat u l n h
  set u0 := emplaceGrow (e + 1 - (u.entities.length : Int)).toNat u with hu0
  obtain ⟨hfl0, hnd0, hiff0, hcv0⟩ := hF0
  have hel0 : e.toNat < u0.entities.length := by
    rw [hlen0]
    omega
  have hinv0 : (entAt u0 e).valid = false := by
    by_cases hold : e.toNat < u.entities.length
    · rw [hvp0 e hold]
      exact hinv hold
    · exact hnv0 e he0 (by omega) hel0
  have hemem : e ∈ l0 := (hiff0 e he0 hel0).mp hinv0
  obtain ⟨l1, l2, rfl⟩ := List.append_of_mem hemem
  have hneg1 : (-1 : Int) ∉ l1 ++ e :: l2 := by
    intro hm
    have h9 := ifl_elem u0 _ _ _ hfl0 _ hm
    omega
  have hunlink := ifl_unlink u0 e l2 l1 u0.first_free_slot (-1) hnd0 hneg1 hfl0
  obtain ⟨hc_len, hc_ffs, hc_pt, hc_val, hc_cv⟩ := emplaceEntity_char u u0 e hu0
  have hhead : (if u0.first_free_slot = e then (entAt u0 e).next
      else u0.first_free_slot) =
      (if l1 = [] then (entAt u0 e).next else u0.first_free_slot) := by
    cases l1 with
    | nil =>
        rw [if_pos hfl0.1, if_pos rfl]
    | cons a l1m =>
        have hane : u0.first_free_slot = a := hfl0.1
        have hae : a ≠ e := by
          rintro rfl
          exact (List.nodup_cons.mp hnd0).1
            (List.mem_append.mpr (Or.inr (List.mem_cons_self _ _)))
        rw [if_neg (by rw [hane]; exact hae), if_neg (by simp)]
  refine ⟨l1 ++ l2, ?_, ?_, ?_, ?_⟩
  · have h10 : isFreeList (emplaceEntity u e)
        (if l1 = [] then (entAt u0 e).next else u0.first_free_slot) (-1)
        (l1 ++ l2) := by
      refine ifl_congr (by rw [unlink_length, ← hc_len]) (l1 ++ l2) _ _ ?_ hunlink
      intro a ha
      have hae : a ≠ e := by
        rintro rfl
        rcases List.mem_append.mp ha with hh | hh
        · rw [List.nodup_append] at hnd0
          exact hnd0.2.2 hh (List.mem_cons_self _ _)
        · exact (List.nodup_cons.mp (List.nodup_append.mp hnd0).2.1).1 hh
      rw [hc_pt a hae]
      exact ⟨rfl, rfl, rfl⟩
    rw [show (emplaceEntity u e).first_free_slot =
      (if l1 = [] then (entAt u0 e).next else u0.first_free_slot) from
        hc_ffs.trans hhead]
    exact h10
  · rw [List.nodup_append] at hnd0
    obtain ⟨ha1, ha2, ha3⟩ := hnd0
    rw [List.nodup_append]
    exact ⟨ha1, (List.nodup_cons.mp ha2).2,
      fun a ha hb => ha3 ha (List.mem_cons_of_mem _ hb)⟩
  · intro x hx0 hxl
    rw [hc_len] at hxl
    by_cases hxe : x = e
    · subst hxe
      constructor
      · intro hv
        rw [hc_val he0 hel0] at hv
        simp at hv
      · intro hm
        exfalso
        rcases List.mem_append.mp hm with hh | hh
        · rw [List.nodup_append] at hnd0
          exact hnd0.2.2 hh (List.mem_cons_self _ _)
        · exact (List.nodup_cons.mp (List.nodup_append.mp hnd0).2.1).1 hh
    · have h9 : (entAt (emplaceEntity u e) x).valid = (entAt u0 x).valid := by
        rw [hc_pt x hxe]
        exact unlink_valid u0 e x
      rw [h9, hiff0 x hx0 hxl]
      constructor
      · intro hm
        rcases List.mem_append.mp hm with hh | hh
        · exact List.mem_append.mpr (Or.inl hh)
        · rcases List.mem_cons.mp hh with hh2 | hh2
          · exact absurd hh2 hxe
          · exact List.mem_append.mpr (Or.inr hh2)
      · intro hm
        rcases List.mem_append.mp hm with hh | hh
        · exact List.mem_append.mpr (Or.inl hh)
        · exact List.mem_append.mpr (Or.inr (List.mem_cons_of_mem _ hh))
  · have h9 := hc_cv he0 hel0 hinv0
    omega

theorem flc_empty : FLC (emptyUniverse : Universe T) [] 0 := by
  refine ⟨rfl, List.nodup_nil, ?_, rfl⟩
  intro x hx0 hxl
  simp [emptyUniverse] at hxl

theorem flc_run : ∀ (ops : List (Op T)) (u : Universe T) (l : List Int) (n : Int),
    FLC u l n → opsOk u ops = true →
    ∃ l' : List Int, FLC (runOps u n ops).1 l' (runOps u n ops).2 := by
  intro ops
  induction ops with
  | nil =>
      intro u l n h _
      exact ⟨l, h⟩
  | cons op rest ih =>
      intro u l n h hok
      simp only [opsOk, Bool.and_eq_true] at hok
      obtain ⟨hok1, hok2⟩ := hok
      simp only [runOps]
      cases op with
      | create t =>
          obtain ⟨l2, h2⟩ := flc_create u l n t h
          exact ih _ l2 _ h2 hok2
      | destroy e =>
          obtain ⟨l2, h2⟩ := flc_destroy u l n e h hok1
          exact ih _ l2 _ h2 hok2
      | emplace e =>
          obtain ⟨l2, h2⟩ := flc_emplace u l n e h hok1
          exact ih _ l2 _ h2 hok2

/-- C2: after any sequence of `createEntity` / `destroyEntity` /
`emplaceEntity` calls (each meeting its precondition) starting from a fresh
registry, there is a duplicate-free list `l` of slots — the slots reachable
from `m_first_free_slot` along the `next` links, with mutually consistent
`prev` back-links — such that a slot is `valid = false` exactly when it is on
`l`, and the number of `valid = true` slots equals the number of live
entities. -/
theorem claim2_free_list_correct (ops : List (Op T))
    (hok : opsOk emptyUniverse ops = true) :
    ∃ l : List Int,
      isFreeList (runOps emptyUniverse 0 ops).1
        (runOps emptyUniverse 0 ops).1.first_free_slot (-1) l ∧
      l.Nodup ∧
      (∀ x : Int, 0 ≤ x → x.toNat < (runOps emptyUniverse 0 ops).1.entities.length →
        ((entAt (runOps emptyUniverse 0 ops).1 x).valid = false ↔ x ∈ l)) ∧
      (countValid (runOps emptyUniverse 0 ops).1 : Int) =
        (runOps emptyUniverse 0 ops).2 := by
  obtain ⟨l, h1, h2, h3, h4⟩ := flc_run ops emptyUniverse [] 0 flc_empty hok
  exact ⟨l, h1, h2, h3, h4⟩

set_option maxRecDepth 10000 in
/-- C2 witness: create two entities, destroy the first and emplace it back;
every call of the sequence meets its precondition. -/
theorem claim2_free_list_correct_witness :
    opsOk (emptyUniverse : Universe (Multiplicative ℤ)) opsW = true ∧
    (∃ l : List Int,
      isFreeList (runOps emptyUniverse 0 opsW).1
        (runOps emptyUniverse 0 opsW).1.first_free_slot (-1) l ∧
      l.Nodup ∧
      (∀ x : Int, 0 ≤ x →
        x.toNat < (runOps emptyUniverse 0 opsW).1.entities.length →
        ((entAt (runOps emptyUniverse 0 opsW).1 x).valid = false ↔ x ∈ l)) ∧
      (countValid (runOps emptyUniverse 0 opsW).1 : Int) =
        (runOps emptyUniverse 0 opsW).2) :=
  ⟨by decide, claim2_free_list_correct opsW (by decide)⟩

end Lumix
